import Mathlib

/-!
Isotope-envelope feature detection (PASTAQ, `feature_detection.cpp`)

A shallow embedding of `find_all_paths`, `rolling_weighted_cosine_sim`, the
averagine table lookup and `FeatureDetection::detect_features`, followed by the
properties proved about them.

Modelling conventions.

* `double` values are exact rationals (`ℚ`); IEEE rounding, infinities and NaN
  are not modelled, and a division by zero yields `0`.
* `size_t` / `uint64_t` indices are natural numbers; every subtraction in the
  embedded code is one that cannot underflow, or is commented where it is used.
* `std::vector` is `List`. `operator[]` is unchecked in the source; where the
  source can really index past the end (the matcher) the value read is supplied
  by the `Runtime`, elsewhere an out-of-range access makes the function return
  `none`.
* `while` loops whose termination is not structural take a `fuel` argument
  bounding the number of iterations; running out of fuel returns `none`.
-/

namespace FeatureDetection

/-- The fields of `Centroid::Peak` that feature detection reads. -/
structure Peak where
  id : Nat
  fitted_mz : ℚ
  fitted_rt : ℚ
  fitted_height : ℚ
  fitted_volume : ℚ
  fitted_sigma_mz : ℚ
  fitted_sigma_rt : ℚ
  rt_delta : ℚ
deriving DecidableEq, Inhabited

/-- The record `FeatureDetection::Feature` as filled in by `detect_features`. -/
structure Feature where
  id : Nat
  score : ℚ
  average_rt : ℚ
  average_rt_delta : ℚ
  average_rt_sigma : ℚ
  average_mz : ℚ
  average_mz_sigma : ℚ
  total_height : ℚ
  total_volume : ℚ
  max_height : ℚ
  max_volume : ℚ
  monoisotopic_mz : ℚ
  monoisotopic_rt : ℚ
  monoisotopic_height : ℚ
  monoisotopic_volume : ℚ
  charge_state : Nat
  peak_ids : List Nat
deriving DecidableEq, Inhabited

/-- One node of a `CandidateGraph`: the peak id, the `visited` flag and the
successor indices `nodes`. -/
structure CandidateNode where
  id : Nat
  visited : Bool
  nodes : List Nat
deriving DecidableEq, Inhabited

/-- A `CandidateGraph` is a vector of nodes indexed by position in mz order. -/
abbrev CandidateGraph := List CandidateNode

/-- The record `Search::KeySort<double>`: an index into `peaks` and its key. -/
structure KeySort where
  index : Nat
  sorting_key : ℚ
deriving DecidableEq, Inhabited

/-- The triple returned by `rolling_weighted_cosine_sim`. -/
structure OptimalPath where
  dot : ℚ
  min_i : Nat
  max_i : Nat
deriving DecidableEq, Inhabited

/-- What the embedding takes from the C++ runtime and library:
`sqrt` is `std::sqrt`, `oob v i` is the value an unchecked read `v[i]` finds
past the end of `v`, and `sort` is `std::sort` with the given comparator. -/
structure Runtime where
  sqrt : ℚ → ℚ
  oob : List ℚ → Nat → ℚ
  sort : (Feature → Feature → Bool) → List Feature → List Feature

/-! ## `find_all_paths` -/

/-- The `for (const auto &node : root_node.nodes)` loop of `find_all_paths`:
every unvisited successor is appended to a copy of `curr_path`, which is pushed
on the stack, and `path_finished` is cleared. The stack is kept with its back
at the head of the list. -/
def push_successors (graph : CandidateGraph) (curr_path : List Nat) :
    List Nat → Bool × List (List Nat) → Option (Bool × List (List Nat))
  | [], acc => some acc
  | node :: rest, (path_finished, stack) =>
    match graph[node]? with
    | none => none
    | some n =>
      if n.visited then push_successors graph curr_path rest (path_finished, stack)
      else push_successors graph curr_path rest (false, (curr_path ++ [node]) :: stack)

/-- The `while (!stack.empty())` loop of `find_all_paths`. -/
def find_all_paths_loop (graph : CandidateGraph) :
    Nat → List (List Nat) → List (List Nat) → Option (List (List Nat))
  | _, [], paths => some paths
  | 0, _ :: _, _ => none
  | fuel + 1, curr_path :: stack, paths =>
    match curr_path.getLast? with
    | none => none
    | some last =>
      match graph[last]? with
      | none => none
      | some root_node =>
        if root_node.visited then find_all_paths_loop graph fuel stack paths
        else
          match push_successors graph curr_path root_node.nodes (true, stack) with
          | none => none
          | some (path_finished, stack') =>
            if path_finished then find_all_paths_loop graph fuel stack' (paths ++ [curr_path])
            else find_all_paths_loop graph fuel stack' paths

/-- Explicit-stack depth-first enumeration of the paths that start at
`root_node` (`find_all_paths`, lines 449-479). -/
def find_all_paths (fuel : Nat) (graph : CandidateGraph) (root_node : Nat) :
    Option (List (List Nat)) :=
  find_all_paths_loop graph fuel [[root_node]] []

/-! ## `rolling_weighted_cosine_sim` -/

/-- The function `std::abs` on `double`. -/
def fabs (x : ℚ) : ℚ := if x < 0 then -x else x

/-- Unchecked `v[i]`: the element when `i` is inside the vector, otherwise the
value the runtime finds past its end. -/
def vec_at (rt : Runtime) (v : List ℚ) (i : Nat) : ℚ :=
  match v[i]? with
  | some x => x
  | none => rt.oob v i

/-- Accumulators of the first loop over `B`. -/
structure ScanB where
  norm_b : ℚ
  max_b : ℚ
  max_b_index : Nat
deriving DecidableEq, Inhabited

/-- The loop `for (size_t i = 0; i < B.size(); ++i)` that sums the cubes of `B`
and finds the position of its (first) maximum; `i` is the index of the head. -/
def scan_b : List ℚ → Nat → ScanB → ScanB
  | [], _, s => s
  | b :: rest, i, s =>
    scan_b rest (i + 1)
      { norm_b := s.norm_b + b * b * b
        max_b := if b > s.max_b then b else s.max_b
        max_b_index := if b > s.max_b then i else s.max_b_index }

/-- Local variables that the two walks of one alignment update. -/
structure Walk where
  norm_a : ℚ
  dot : ℚ
  true_min_i : Nat
  true_max_i : Nat
deriving DecidableEq, Inhabited

/-- The "Center->Left" loop `for (size_t i = 1; i <= k; ++i)`; the first
argument counts the iterations that remain, the second is `i`. -/
def center_left (rt : Runtime) (A B : List ℚ) (min_i min_j k : Nat) :
    Nat → Nat → Walk → Walk
  | 0, _, w => w
  | n + 1, i, w =>
    let a := vec_at rt A (min_i + k - i)
    let b := vec_at rt B (min_j + k - i)
    let normalized_a := a / vec_at rt A k
    let abs_diff := fabs (normalized_a - b / 100)
    if abs_diff ≥ 0.35 then { w with true_min_i := min_i + k - i + 1 }
    else center_left rt A B min_i min_j k n (i + 1)
      { w with norm_a := w.norm_a + a * a * b, dot := w.dot + a * b * b }

/-- The "Center->Right" loop `for (size_t i = k; i < min_i + n_iter; ++i)`; the
first argument counts the iterations that remain, the second is `i`. -/
def center_right (rt : Runtime) (A B : List ℚ) (min_i min_j k : Nat) :
    Nat → Nat → Walk → Walk
  | 0, _, w => w
  | n + 1, i, w =>
    let a := vec_at rt A (min_i + i)
    let b := vec_at rt B (min_j + i)
    let normalized_a := a / vec_at rt A k
    let abs_diff := fabs (normalized_a - b / 100)
    if abs_diff ≥ 0.35 then { w with true_max_i := i }
    else center_right rt A B min_i min_j k n (i + 1)
      { w with norm_a := w.norm_a + a * a * b, dot := w.dot + a * b * b }

/-- Both walks of the alignment that puts the maximum of `B` on `A[k]`. -/
def roll_walk (rt : Runtime) (A B : List ℚ) (max_b_index k : Nat) : Walk :=
  let min_i := if k < max_b_index then 0 else k - max_b_index
  let max_i := min A.length (B.length - max_b_index + k)
  let min_j := if k < max_b_index then max_b_index - k else 0
  let n_iter := max_i - min_i
  let w := center_left rt A B min_i min_j k k 1 ⟨0, 0, min_i, max_i⟩
  center_right rt A B min_i min_j k (min_i + n_iter - k) k w

/-- The score `dot / (sqrt(norm_a) * norm_b)` of one alignment. -/
def roll_dot (rt : Runtime) (norm_b : ℚ) (w : Walk) : ℚ :=
  w.dot / (rt.sqrt w.norm_a * norm_b)

/-- One cycle of the loop over `k`: the alignment replaces the best one so far
when it scores strictly higher and its window has more than one element. -/
def roll_step (rt : Runtime) (A B : List ℚ) (norm_b : ℚ) (max_b_index k : Nat)
    (best : OptimalPath) : OptimalPath :=
  let w := roll_walk rt A B max_b_index k
  let dot := roll_dot rt norm_b w
  if dot > best.dot ∧ w.true_max_i > w.true_min_i ∧ w.true_max_i - w.true_min_i > 1 then
    ⟨dot, w.true_min_i, w.true_max_i⟩
  else best

/-- The loop `for (size_t k = 0; k < A.size(); ++k)`; the first argument counts
the cycles that remain, the second is `k`. -/
def roll_loop (rt : Runtime) (A B : List ℚ) (norm_b : ℚ) (max_b_index : Nat) :
    Nat → Nat → OptimalPath → OptimalPath
  | 0, _, best => best
  | n + 1, k, best =>
    roll_loop rt A B norm_b max_b_index n (k + 1) (roll_step rt A B norm_b max_b_index k best)

/-- The envelope matcher `rolling_weighted_cosine_sim` (lines 488-568). -/
def rolling_weighted_cosine_sim (rt : Runtime) (A B : List ℚ) : OptimalPath :=
  if A.length < 2 ∨ B.length < 2 then ⟨0, 0, 0⟩
  else
    let s := scan_b B 0 ⟨0, 0, 0⟩
    let norm_b := rt.sqrt s.norm_b
    let best := roll_loop rt A B norm_b s.max_b_index A.length 0 ⟨0, 0, 0⟩
    let best_path_size := best.max_i - best.min_i
    if best_path_size ≤ 1 then ⟨0, 0, 0⟩ else best

/-! ## The averagine table and its lookup -/

/-- Entries of `averagine_table` with keys from 100.226 to 489.828. -/
def averagine_rows_0 : List (ℚ × List ℚ) := [
  (100.226, [100, 4.79, 0.28]),
  (110.221, [100, 5.89, 0.4]),
  (120.172, [100, 6.61, 0.63, 0.03]),
  (130.381, [100, 6.41, 0.38, 0.03]),
  (140.376, [100, 7.86, 0.42, 0.02]),
  (150.456, [100, 7.19, 0.27, 0.02]),
  (160.217, [100, 8.74, 0.76, 0.05]),
  (170.212, [100, 9.23, 0.8]),
  (180.292, [100, 10.2, 0.97, 0.02]),
  (190.243, [100, 9.7, 1.1, 0.04]),
  (200.238, [100, 10.89, 0.99, 0.09]),
  (210.447, [100, 11.13, 0.83, 0.04]),
  (220.527, [100, 10.82, 1.13, 0.08]),
  (230.288, [100, 12.12, 1.17, 0.11]),
  (240.283, [100, 13.72, 1.45, 0.1]),
  (250.363, [100, 13.75, 1.39, 0.1]),
  (260.358, [100, 13.91, 1.43, 0.17]),
  (270.309, [100, 14.08, 2, 0.08, 0.02]),
  (280.389, [100, 13.99, 1.93, 0.2]),
  (290.598, [100, 14.35, 1.79, 0.13]),
  (300.359, [100, 16.65, 2.12, 0.17]),
  (310.354, [100, 16.94, 2.16, 0.16, 0.02]),
  (320.434, [100, 16.49, 2.1, 0.25, 0.04]),
  (330.429, [100, 18.62, 2.36, 0.16, 0.02]),
  (340.38, [100, 18.49, 2.67, 0.38]),
  (350.589, [100, 17.48, 2.52, 0.2]),
  (360.455, [100, 19.64, 3.42, 0.22]),
  (370.43, [100, 19.51, 2.79, 0.25, 0.02]),
  (380.615, [100, 19.6, 2.97, 0.22, 0.04]),
  (390.505, [100, 20.41, 3.26, 0.29, 0.02]),
  (400.5, [100, 22.29, 2.97, 0.45]),
  (410.58, [100, 21.66, 3.11, 0.41, 0.03]),
  (420.66, [100, 20.75, 3.34, 0.4, 0.04]),
  (430.526, [100, 23.81, 3.69, 0.56, 0.06]),
  (440.521, [100, 24.09, 3.93, 0.45, 0.08]),
  (450.601, [100, 24.57, 3.95, 0.8, 0.05]),
  (459.568, [100, 24.02, 4.23, 0.61, 0.08]),
  (469.563, [100, 25.73, 4.1, 0.63, 0.08]),
  (479.643, [100, 25.73, 4.3, 0.69, 0.07]),
  (489.828, [100, 26.27, 4.33, 0.68, 0.05])]

/-- Entries of `averagine_table` with keys from 499.589 to 890.009. -/
def averagine_rows_1 : List (ℚ × List ℚ) := [
  (499.589, [100, 27.35, 5.17, 0.72, 0.09]),
  (509.584, [100, 28.48, 5.02, 0.94, 0.09]),
  (519.664, [100, 28.31, 5.53, 0.67, 0.04]),
  (529.659, [100, 27.65, 5.41, 0.9, 0.07]),
  (539.634, [100, 28.84, 5.69, 0.87, 0.04]),
  (549.714, [100, 27.9, 5.51, 0.93, 0.13]),
  (559.709, [100, 31.45, 5.66, 0.72, 0.08, 0.03]),
  (569.66, [100, 31.57, 6.33, 0.83, 0.08]),
  (579.655, [100, 31.46, 6.3, 0.86, 0.14]),
  (589.735, [100, 31.03, 6.6, 1.14, 0.21, 0.03]),
  (599.73, [100, 32.68, 6.4, 1.18, 0.13]),
  (609.81, [100, 33.94, 7.26, 1.07, 0.07, 0.03]),
  (619.7, [100, 35.01, 6.55, 1.01, 0.16]),
  (629.78, [100, 32.71, 7.22, 1.24, 0.11]),
  (639.731, [100, 33.9, 7.17, 1.17, 0.2]),
  (649.726, [100, 36.01, 8.15, 1.22, 0.04, 0.06]),
  (659.806, [100, 34.84, 8.01, 1.12, 0.1]),
  (669.801, [100, 35.71, 8.1, 1.59, 0.22]),
  (679.881, [100, 37.98, 8.78, 1.65, 0.16, 0.03]),
  (689.876, [100, 37.31, 8.88, 1.45, 0.16]),
  (699.851, [100, 38.03, 8.92, 1.5, 0.24, 0.03]),
  (709.846, [100, 38.45, 9.23, 1.45, 0.21, 0.03]),
  (720.116, [100, 38.47, 8.84, 1.55, 0.18, 0.04]),
  (729.877, [100, 38.27, 9.41, 1.71, 0.19, 0.03]),
  (739.872, [100, 40.52, 10.44, 1.83, 0.11]),
  (749.952, [100, 39.01, 10.02, 1.8, 0.27, 0.05]),
  (759.947, [100, 40.33, 9.87, 2.12, 0.23, 0.03]),
  (770.027, [100, 40.15, 10.01, 1.92, 0.44, 0.02, 0.02]),
  (779.917, [100, 40.56, 10.63, 1.82, 0.29, 0.03]),
  (790.102, [100, 41.56, 10.64, 2.06, 0.31, 0.05]),
  (800.182, [100, 42.16, 10.52, 2, 0.25, 0.02]),
  (809.943, [100, 43.26, 11.45, 1.98, 0.25, 0.09]),
  (820.023, [100, 43.67, 11.94, 2.31, 0.33, 0.08]),
  (830.018, [100, 46.25, 12.02, 2.73, 0.44, 0.06]),
  (840.098, [100, 43.45, 11.81, 2.19, 0.32, 0.11, 0.02]),
  (850.093, [100, 45.3, 12.16, 2.47, 0.47, 0.02]),
  (860.068, [100, 45.09, 11.92, 2.63, 0.48, 0.06]),
  (870.253, [100, 46.01, 12.03, 2.32, 0.42, 0.05]),
  (880.014, [100, 46.7, 13.43, 3.13, 0.49, 0.05]),
  (890.009, [100, 50.13, 14.52, 3.29, 0.47, 0.07, 0.02])]

/-- Entries of `averagine_table` with keys from 900.089 to 1290.594. -/
def averagine_rows_2 : List (ℚ × List ℚ) := [
  (900.089, [100, 50.21, 13.51, 3, 0.5, 0.13, 0.02]),
  (910.169, [100, 48.78, 13.69, 2.75, 0.55, 0.13, 0.02]),
  (920.164, [100, 49.35, 14.77, 3.16, 0.54, 0.05]),
  (930.244, [100, 49.34, 14.98, 3.18, 0.44, 0.13, 0.05]),
  (940.239, [100, 51.35, 14.48, 3.12, 0.47, 0.08, 0.02]),
  (950.085, [100, 52.25, 14.81, 3.25, 0.67, 0.03, 0.02]),
  (960.08, [100, 51.19, 15.13, 3.13, 0.68, 0.07, 0.03]),
  (970.16, [100, 52.72, 16.24, 3.84, 0.71, 0.12, 0.02]),
  (980.155, [100, 51.74, 16.58, 3.75, 0.71, 0.14]),
  (990.235, [100, 52.21, 15.76, 3.55, 0.65, 0.09, 0.03]),
  (1000.315, [100, 51.86, 16.47, 3.96, 0.57, 0.12]),
  (1010.31, [100, 53.51, 17.41, 3.64, 0.98, 0.14, 0.04]),
  (1020.261, [100, 52.04, 17.87, 4.08, 0.87, 0.1, 0.02]),
  (1030.47, [100, 53.59, 17.21, 4.77, 0.86, 0.09]),
  (1040.231, [100, 55.44, 17.27, 4.44, 0.86, 0.2, 0.02]),
  (1050.226, [100, 56.67, 17.81, 5.11, 0.65, 0.14, 0.02, 0.02]),
  (1060.306, [100, 56.31, 19.53, 4.51, 1.16, 0.18, 0.02]),
  (1070.301, [100, 57.68, 19.65, 4.52, 0.93, 0.18, 0.02]),
  (1080.381, [100, 58.75, 19.44, 4.46, 0.83, 0.11]),
  (1090.461, [100, 58.25, 20.02, 4.94, 1.01, 0.2, 0.06, 0.02]),
  (1100.327, [100, 60.46, 20.57, 5.17, 0.9, 0.24, 0.02]),
  (1110.302, [100, 59.45, 20.84, 4.6, 1.3, 0.21, 0.02]),
  (1120.297, [100, 59.86, 21.03, 5.21, 1.09, 0.11]),
  (1130.377, [100, 63.96, 21.84, 5.59, 1.06, 0.27, 0.04]),
  (1140.372, [100, 62.02, 21.26, 5.58, 1.2, 0.27, 0.02, 0.02]),
  (1150.452, [100, 63.67, 22.67, 5.57, 1.12, 0.14, 0.04, 0.02, 0.02]),
  (1160.447, [100, 62.82, 22.47, 6.27, 1.22, 0.19, 0.06, 0.02]),
  (1170.398, [100, 62.6, 23.42, 6.47, 1.42, 0.37, 0.04, 0.04]),
  (1180.478, [100, 65.15, 22.33, 6.58, 1.59, 0.2, 0.02, 0.02]),
  (1190.368, [100, 69.24, 25, 6.69, 1.46, 0.34, 0.02]),
  (1200.448, [100, 64.89, 23.75, 6.61, 1.56, 0.36, 0.06, 0.02]),
  (1210.443, [100, 65.84, 24.64, 6.81, 1.61, 0.26, 0.02, 0.02]),
  (1220.523, [100, 65.66, 24.76, 6.78, 1.35, 0.3]),
  (1230.518, [100, 68.02, 25.08, 6.66, 1.11, 0.32, 0.06]),
  (1240.598, [100, 65.66, 25.39, 7.23, 1.7, 0.32, 0.04, 0.02]),
  (1250.464, [100, 67.29, 25.12, 7.01, 1.71, 0.24, 0.02, 0.02]),
  (1260.544, [100, 68.54, 26.48, 6.94, 1.69, 0.35, 0.04]),
  (1270.519, [100, 69.28, 27.14, 7.81, 1.96, 0.39, 0.1]),
  (1280.514, [100, 67.8, 26.48, 8.12, 2.24, 0.39, 0.04, 0.02]),
  (1290.594, [100, 65.39, 25.83, 6.81, 1.8, 0.26, 0.1, 0.02])]

/-- Entries of `averagine_table` with keys from 1300.589 to 1690.191. -/
def averagine_rows_3 : List (ℚ × List ℚ) := [
  (1300.589, [100, 68.98, 27.61, 8.34, 1.61, 0.35, 0.06]),
  (1310.669, [100, 70.44, 27.46, 8.31, 1.75, 0.17, 0.04]),
  (1320.535, [100, 72.07, 30.1, 7.69, 2.23, 0.28, 0.04]),
  (1330.615, [100, 73.65, 28.86, 8.35, 2.28, 0.32, 0.02]),
  (1340.824, [100, 73.28, 29, 8.02, 2.5, 0.34, 0.11, 0.02]),
  (1350.904, [100, 70.91, 28.35, 8.96, 1.75, 0.32, 0.02]),
  (1359.762, [100, 72.36, 28.83, 9.05, 2.04, 0.55, 0.09, 0.02]),
  (1369.842, [100, 73.29, 30.55, 7.81, 2.25, 0.56, 0.09]),
  (1379.837, [100, 73.77, 32.27, 8.8, 2.44, 0.5, 0.09]),
  (1389.917, [100, 75.99, 30.6, 8.42, 2.53, 0.52, 0.04]),
  (1399.807, [100, 74.06, 31.98, 9.47, 2.12, 0.46, 0.07]),
  (1409.887, [100, 78.89, 32.64, 9.85, 2.4, 0.43, 0.11]),
  (1419.882, [100, 78.06, 31.3, 9.99, 2.31, 0.71, 0.04, 0.02, 0.02]),
  (1429.833, [100, 77.67, 32.39, 10.39, 2.53, 0.42, 0.07, 0.02, 0.02]),
  (1439.913, [100, 75.87, 33.66, 10.62, 2.57, 0.42, 0.04, 0.02]),
  (1449.908, [100, 75.48, 31.87, 10.79, 2.59, 0.6, 0.11, 0.04]),
  (1459.988, [100, 75.55, 33.67, 9.89, 2.81, 0.62, 0.09, 0.04]),
  (1469.983, [100, 77.62, 33.47, 10.37, 2.68, 0.61, 0.16, 0.02]),
  (1479.958, [100, 80.43, 35.76, 11.2, 2.96, 0.49, 0.16]),
  (1489.953, [100, 77.82, 34.71, 10.35, 2.79, 0.84, 0.05]),
  (1500.033, [100, 79.92, 36.45, 11.37, 2.66, 0.62, 0.09]),
  (1509.899, [100, 80.97, 35.86, 11.74, 2.78, 0.56, 0.16]),
  (1519.979, [100, 80.83, 37.36, 11.74, 3.06, 0.61, 0.19, 0.02]),
  (1530.059, [100, 79.36, 36.89, 11.8, 2.74, 0.83, 0.21, 0.02]),
  (1540.054, [100, 84.88, 38.88, 13.05, 3.38, 0.84, 0.17]),
  (1550.134, [100, 84.66, 37.89, 12.42, 3.37, 0.81, 0.1, 0.07, 0.02]),
  (1560.024, [100, 83.99, 39.94, 11.95, 3.44, 0.79, 0.31, 0.02]),
  (1570.104, [100, 84.54, 37.79, 12.35, 3.45, 0.96, 0.22, 0.02, 0.02]),
  (1579.97, [100, 83.72, 39.88, 13.26, 3.7, 0.65, 0.29, 0.05]),
  (1590.05, [100, 87.26, 40.71, 15.57, 3.35, 1.12, 0.17, 0.07]),
  (1600.045, [100, 82.95, 40.86, 13.8, 3.63, 0.78, 0.15, 0.02]),
  (1610.125, [100, 85.95, 41.33, 14.19, 3.75, 0.96, 0.25]),
  (1620.205, [100, 86.9, 40.56, 13.99, 4.2, 1.29, 0.22]),
  (1630.2, [100, 85.74, 40.87, 14.73, 4.27, 0.79, 0.25, 0.02]),
  (1640.175, [100, 86.5, 41.06, 13.99, 4.15, 0.76, 0.22, 0.02, 0.02]),
  (1650.17, [100, 93.01, 45.28, 16.48, 4.85, 0.91, 0.23, 0.03, 0.03]),
  (1660.121, [100, 87.73, 43.32, 15.17, 4.51, 1.11, 0.15, 0.03]),
  (1670.116, [100, 92.29, 45.12, 16.47, 4.57, 1.12, 0.16, 0.03]),
  (1680.196, [100, 89.65, 44.38, 16.31, 4.24, 0.82, 0.23]),
  (1690.191, [100, 91.13, 44.36, 15.11, 3.68, 1.28, 0.1, 0.03])]

/-- Entries of `averagine_table` with keys from 1700.271 to 2090.776. -/
def averagine_rows_4 : List (ℚ × List ℚ) := [
  (1700.271, [100, 89.79, 46.3, 16.44, 4.52, 1.27, 0.13, 0.05, 0.03]),
  (1710.351, [100, 92.84, 46.64, 17.43, 4.66, 1.11, 0.42, 0.13]),
  (1720.241, [100, 91.48, 47.07, 17.65, 5.34, 1.26, 0.18, 0.08, 0.03]),
  (1730.321, [100, 91.41, 46.12, 16.99, 5.09, 1.12, 0.21, 0.08]),
  (1740.187, [100, 93.9, 49.31, 18.31, 5.54, 1.53, 0.19, 0.11]),
  (1750.267, [100, 91.7, 48.96, 16.07, 5.3, 1.26, 0.16, 0.05]),
  (1760.262, [100, 97.9, 49.85, 18.03, 4.77, 1.31, 0.44, 0.11]),
  (1770.342, [100, 94.63, 49.92, 19.3, 5.39, 1.46, 0.27, 0.03]),
  (1780.337, [100, 96.91, 49.7, 19.85, 6.08, 1.15, 0.14]),
  (1790.417, [100, 96.24, 49.71, 18.96, 5.67, 1.31, 0.49, 0.03]),
  (1800.497, [100, 92.46, 49.83, 18.48, 5.66, 1.21, 0.43, 0.11]),
  (1810.258, [100, 98.61, 51.38, 20.31, 5.5, 1.64, 0.25, 0.17]),
  (1820.338, [100, 97.07, 49.67, 17.93, 7.01, 1.51, 0.38, 0.11]),
  (1830.143, [100, 98.48, 58.05, 24.58, 7.46, 2.22, 0.52, 0.2, 0.03]),
  (1840.138, [100, 97.94, 59.77, 24.48, 8.8, 2.38, 0.62, 0.21, 0.09]),
  (1850.408, [100, 99.86, 55.1, 22.07, 6.57, 1.48, 0.4]),
  (1860.488, [98.76, 100, 54.16, 19.5, 6.88, 2, 0.48]),
  (1870.483, [98.13, 100, 56.47, 20.83, 5.87, 1.67, 0.37, 0.03]),
  (1880.563, [98.6, 100, 52.6, 20.61, 6.49, 1.91, 0.59, 0.03]),
  (1890.409, [100, 97.06, 55.44, 21.46, 6.47, 1.19, 0.51, 0.25, 0.03]),
  (1900.214, [98.5, 100, 61.44, 27.21, 9.67, 2.73, 0.51, 0.15, 0.03, 0.06]),
  (1910.209, [96.21, 100, 60.96, 29.52, 9.65, 3.55, 0.48, 0.21]),
  (1920.479, [98.35, 100, 54.26, 22.26, 7.54, 1.91, 0.23, 0.06, 0.06]),
  (1930.559, [96.7, 100, 57.96, 23.19, 7.13, 1.78, 0.49, 0.06, 0.03, 0.03]),
  (1940.554, [93.88, 100, 56.66, 21.78, 7.42, 1.78, 0.56, 0.06, 0.03]),
  (1950.634, [96.36, 100, 57, 22.85, 7.59, 1.8, 0.63, 0.06]),
  (1960.5, [95.08, 100, 60.73, 23.35, 7.61, 2.03, 0.43, 0.12]),
  (1970.475, [91.77, 100, 55.96, 23.6, 7.87, 2.03, 0.56, 0.11, 0.03]),
  (1980.28, [91.42, 100, 59.32, 29.7, 11.51, 2.96, 0.83, 0.12]),
  (1990.36, [90.43, 100, 63.33, 29.55, 10.73, 3.16, 0.83, 0.12]),
  (2000.63, [93.79, 100, 58, 25.06, 8.2, 1.84, 0.66, 0.06, 0.09]),
  (2010.625, [90.13, 100, 56.65, 23.53, 8.15, 2.05, 0.51, 0.11]),
  (2020.705, [89.14, 100, 59.48, 24.67, 8.33, 2.02, 0.31, 0.2, 0.03]),
  (2030.7, [92.13, 100, 60.66, 25.8, 7.81, 2.29, 0.46, 0.09, 0.03]),
  (2040.651, [93.33, 100, 59.22, 24.31, 8.19, 1.7, 0.52, 0.06, 0.03]),
  (2050.541, [95.83, 100, 56.76, 25.82, 8.02, 2.34, 0.49, 0.17]),
  (2060.621, [86.87, 100, 57.85, 24.44, 9, 2.59, 0.37, 0.06, 0.06]),
  (2070.701, [89.69, 100, 59.2, 25.65, 8.33, 2.61, 0.66, 0.09, 0.03, 0.03]),
  (2080.696, [94.57, 100, 60.64, 27.18, 9.09, 2.74, 0.71, 0.15]),
  (2090.776, [88.51, 100, 58.01, 27.21, 8.27, 2.31, 0.71, 0.14, 0.03, 0.03])]

/-- Entries of `averagine_table` with keys from 2100.771 to 2489.864. -/
def averagine_rows_5 : List (ℚ × List ℚ) := [
  (2100.771, [89.26, 100, 61.93, 26.84, 8.62, 2.73, 0.67, 0.15]),
  (2110.722, [85.59, 100, 59.72, 25.19, 9.43, 2.04, 0.74, 0.25, 0.08]),
  (2120.717, [86.73, 100, 61.13, 26.66, 9.59, 2.97, 0.58, 0.2, 0.06, 0.03]),
  (2130.692, [87.79, 100, 64.81, 27.6, 10.03, 3.12, 0.74, 0.12]),
  (2140.497, [86.7, 100, 66.15, 33.27, 12.97, 3.74, 1.22, 0.21, 0.12, 0.03]),
  (2150.767, [84.46, 100, 62.51, 24.88, 8.92, 2.39, 0.62, 0.14, 0.09]),
  (2160.847, [82.22, 100, 59.47, 26.52, 10.01, 2.79, 0.68, 0.14, 0.03]),
  (2170.842, [85.96, 100, 63.26, 27.27, 10.12, 2.82, 1.02, 0.23, 0.03]),
  (2180.922, [85.1, 100, 64.48, 27.13, 8.97, 2.78, 0.72, 0.09]),
  (2190.788, [84.3, 100, 59.47, 27.63, 9.93, 2.85, 0.94, 0.23, 0.03]),
  (2200.868, [86.69, 100, 62.14, 29.64, 9.32, 2.71, 0.55, 0.09, 0.06]),
  (2209.56, [83.97, 100, 66.36, 34.86, 13.46, 4.88, 1.31, 0.34, 0.06]),
  (2220.838, [80.47, 100, 63.25, 29.44, 10.89, 2.88, 0.75, 0.32, 0.03]),
  (2230.833, [81.72, 100, 66.47, 28.3, 10.92, 3.53, 1.05, 0.06]),
  (2240.913, [85.18, 100, 67.89, 29.17, 10.74, 3.6, 0.83, 0.15, 0.03, 0.03]),
  (2249.581, [79.38, 100, 68.6, 34.24, 12.92, 4.62, 1.57, 0.42, 0.15, 0.03]),
  (2259.851, [84.66, 100, 67.85, 29.88, 10.93, 3.67, 1.34, 0.18]),
  (2269.931, [84.84, 100, 68.12, 30.12, 10.78, 3.31, 1.04, 0.18, 0.09, 0.03]),
  (2279.631, [78.75, 100, 68.6, 36.86, 13.99, 4.7, 1.49, 0.37, 0.09, 0.03]),
  (2290.006, [79.9, 100, 64.32, 30.17, 11.29, 3.34, 0.58, 0.44, 0.09]),
  (2299.896, [84.41, 100, 69.48, 32.15, 11.7, 3.29, 0.79, 0.36, 0.03]),
  (2309.976, [78.89, 100, 66.98, 28.8, 12.32, 3.23, 0.67, 0.32]),
  (2319.971, [79.07, 100, 64.63, 32.15, 11.46, 3.86, 0.96, 0.12, 0.06]),
  (2330.051, [77.28, 100, 63.85, 30.73, 11.18, 3.89, 0.81, 0.23, 0.03, 0.03]),
  (2340.002, [77.96, 100, 66.59, 31.6, 11.28, 3.57, 1.2, 0.12]),
  (2349.702, [77.95, 100, 74.69, 38.43, 14.81, 5.04, 1.5, 0.53, 0.19, 0.03]),
  (2360.077, [76.64, 100, 65.79, 32.23, 11.93, 3.85, 1.02, 0.15, 0.03]),
  (2370.072, [79.1, 100, 69.47, 31.51, 11.98, 3.54, 1.22, 0.39, 0.06]),
  (2380.047, [74.44, 100, 66.15, 31.84, 12.79, 4.07, 1.13, 0.23, 0.06, 0.06]),
  (2390.042, [77.29, 100, 69.09, 34.11, 12.48, 4.28, 1.5, 0.39, 0.09]),
  (2400.122, [79.14, 100, 67.54, 34.05, 13.79, 3.75, 1.14, 0.33, 0.03]),
  (2409.798, [75.7, 100, 71.86, 41.49, 16.05, 7.15, 2.08, 0.28, 0.03, 0.13]),
  (2420.068, [76.48, 100, 66.36, 33.55, 12.89, 4.28, 1.18, 0.27, 0.06]),
  (2430.148, [79.06, 100, 68.72, 33.38, 13.38, 3.99, 1.11, 0.27, 0.03]),
  (2439.848, [76.72, 100, 74.47, 37.55, 15.68, 6.04, 1.91, 0.47, 0.06]),
  (2450.223, [74.47, 100, 69.33, 33.55, 13.93, 4.13, 1.19, 0.27, 0.03, 0.03]),
  (2460.113, [75.51, 100, 69.57, 35.55, 12.89, 4.77, 1.05, 0.39, 0.03]),
  (2470.193, [74.98, 100, 71.28, 36.34, 15, 4.28, 1.43, 0.24, 0.03]),
  (2479.869, [74.32, 100, 71.74, 40.85, 17.14, 6.88, 2.42, 0.5, 0.09, 0.03]),
  (2489.864, [73.17, 100, 76.56, 38.55, 16.53, 6.82, 1.79, 0.6, 0.16])]

/-- Entries of `averagine_table` with keys from 2500.134 to 2890.449. -/
def averagine_rows_6 : List (ℚ × List ℚ) := [
  (2500.134, [77.23, 100, 75.89, 37.63, 14.52, 5.28, 1.37, 0.34, 0.03]),
  (2510.214, [77.85, 100, 73.48, 36.88, 15.38, 5.02, 1.3, 0.16, 0.09]),
  (2520.294, [73.21, 100, 70.05, 35.73, 15.53, 4.82, 1.35, 0.24, 0.06, 0.03]),
  (2530.289, [74.4, 100, 72.63, 37.23, 13.76, 4.91, 1.74, 0.34, 0.12, 0.03]),
  (2540.264, [72.46, 100, 70.62, 37.12, 14.54, 5.77, 1.42, 0.3, 0.06]),
  (2549.94, [70.86, 100, 76.01, 44.35, 18.21, 6.77, 2.14, 0.93, 0.16, 0.03, 0.03]),
  (2559.935, [75.32, 100, 76.2, 45.15, 19.49, 7.08, 2.25, 0.85, 0.1, 0.03]),
  (2570.015, [72.32, 100, 76.46, 43.38, 18.1, 7.33, 2.67, 1, 0.23, 0.03, 0.03]),
  (2580.285, [69.88, 100, 73.93, 37.91, 15.55, 5.17, 1.49, 0.27, 0.03]),
  (2589.985, [72.14, 100, 81.58, 44.05, 19.31, 7.41, 2.56, 0.59, 0.1, 0.03]),
  (2600.36, [69.88, 100, 73.71, 37.94, 14.57, 5.51, 2.04, 0.49, 0.06, 0.03]),
  (2610.44, [74.22, 100, 77.08, 41.96, 16.91, 5.94, 1.27, 0.38, 0.1]),
  (2620.011, [73, 100, 81.72, 44.08, 20.4, 8.66, 2.82, 0.66, 0.2, 0.03, 0.03, 0.07]),
  (2630.41, [73.88, 100, 80.03, 39.32, 15.7, 5.67, 1.39, 0.54, 0.03]),
  (2640.086, [71.2, 100, 77.8, 44.33, 21.41, 8.83, 2.52, 0.56, 0.23, 0.03]),
  (2650.081, [65.97, 100, 75.86, 44.78, 20.36, 7.07, 2.06, 0.79, 0.22, 0.03]),
  (2660.161, [71.3, 100, 79.46, 44.66, 19.52, 7.64, 2.84, 0.75, 0.29]),
  (2670.241, [72.39, 100, 83.63, 46.53, 21.57, 7.72, 2.38, 1.07, 0.07, 0.1]),
  (2680.236, [70.27, 100, 80.28, 45.13, 20.77, 7.81, 2.99, 0.66, 0.23, 0.03, 0.03]),
  (2690.316, [67.46, 100, 81, 46.99, 20.35, 8.32, 2.42, 0.79, 0.26, 0.07]),
  (2700.396, [67.69, 100, 76.82, 42.59, 20.69, 7.34, 3.13, 0.77, 0.19, 0.06]),
  (2710.157, [65.24, 100, 80.8, 48.33, 20.64, 8.72, 2.69, 0.95, 0.26, 0.03]),
  (2720.152, [70.37, 100, 83.23, 46.16, 21.28, 9.22, 2.27, 1.04, 0.37, 0.03, 0.03]),
  (2730.232, [70.63, 100, 83.08, 47.07, 23.32, 8.55, 2.79, 0.81, 0.24]),
  (2740.227, [67.95, 100, 83.49, 49.75, 22.83, 9.66, 3.21, 0.68, 0.1, 0.07]),
  (2750.307, [67.94, 100, 81.04, 48.92, 22.79, 8.23, 3.07, 0.8, 0.23, 0.17, 0.03]),
  (2760.387, [72.68, 100, 83.85, 48.66, 21.65, 8.21, 2.88, 1.12, 0.17, 0.1]),
  (2770.382, [69.3, 100, 82.71, 50.61, 23.66, 9.84, 3.2, 0.61, 0.44]),
  (2780.462, [63.62, 100, 81.93, 46.59, 23.31, 7.83, 2.91, 0.88, 0.26, 0.1]),
  (2790.223, [65.82, 100, 85.05, 49.6, 23.03, 8.99, 2.93, 0.98, 0.3]),
  (2800.303, [70.61, 100, 86.75, 51.53, 25.28, 9.87, 3.42, 0.87, 0.31, 0.03]),
  (2810.298, [67.71, 100, 85.76, 49.69, 22.74, 9.25, 3.13, 1.33, 0.24, 0.07]),
  (2820.378, [66.26, 100, 83.95, 48.07, 23.13, 9.9, 3.22, 0.77, 0.23, 0.1, 0.03]),
  (2830.458, [65.74, 100, 86.54, 51.67, 20.7, 10.74, 3.2, 0.88, 0.41, 0.03]),
  (2840.453, [66.79, 100, 87.54, 49.66, 24.4, 10.98, 3.41, 0.93, 0.31, 0.07, 0.03]),
  (2850.533, [65.08, 100, 84.12, 51.75, 24.62, 9.69, 3.26, 1.12, 0.34, 0.03]),
  (2860.294, [65.92, 100, 84.11, 49.9, 24.68, 9.3, 3.08, 0.74, 0.3, 0.03]),
  (2870.289, [61.96, 100, 84.29, 50.18, 24.89, 10.33, 3.36, 1.18, 0.13, 0.03]),
  (2880.369, [60.28, 100, 82.93, 50.02, 23.71, 10.16, 3.65, 0.86, 0.4, 0.07, 0.03]),
  (2890.449, [66.52, 100, 84.12, 54.04, 25.51, 10.29, 4.61, 1.04, 0.42, 0.03, 0.03])]

/-- Entries of `averagine_table` with keys from 2900.315 to 3289.812. -/
def averagine_rows_7 : List (ℚ × List ℚ) := [
  (2900.315, [61.02, 100, 82.32, 51.71, 24.85, 9.98, 3.25, 1.31, 0.44, 0.03]),
  (2910.524, [62.03, 100, 85.49, 52.17, 24.03, 10.37, 3.32, 1.22, 0.34]),
  (2920.604, [65.73, 100, 88.02, 52.91, 25.81, 10.34, 3.73, 1.5, 0.21, 0.07]),
  (2930.365, [60.55, 100, 89.31, 54.77, 27.4, 10.9, 3.45, 1.15, 0.52, 0.07, 0.07]),
  (2940.36, [66.74, 100, 89.96, 56.27, 27.31, 11.43, 4.91, 1.22, 0.39, 0.07, 0.07, 0.04]),
  (2950.44, [61.15, 100, 86.91, 55.47, 25.87, 11.22, 3.81, 1.35, 0.38, 0.1]),
  (2960.435, [64.99, 100, 88.02, 54.35, 27.83, 12.01, 4.02, 0.67, 0.28, 0.04, 0.04]),
  (2970.515, [59.63, 100, 85.14, 52.52, 25.75, 11.02, 4.15, 1.53, 0.31, 0.1]),
  (2980.466, [60.93, 100, 89.59, 55.61, 27.05, 11.21, 4.27, 1.3, 0.35, 0.07]),
  (2990.675, [61.05, 100, 85.37, 53.75, 27.27, 11.47, 4.1, 0.72, 0.48, 0.1, 0.03]),
  (3000.436, [59.9, 100, 86.61, 52.47, 25.45, 12.4, 3.8, 1.23, 0.41, 0.14, 0.03, 0.03]),
  (3010.621, [60.28, 100, 85.97, 56.77, 26.94, 10.8, 4.69, 1.08, 0.45, 0.17, 0.07]),
  (3020.511, [60.6, 100, 90.38, 57.29, 28.96, 12.79, 4.35, 1.35, 0.39, 0.07, 0.07]),
  (3030.506, [63.52, 100, 87.01, 56.16, 25.91, 11.83, 3.71, 1.37, 0.53, 0.07, 0.04]),
  (3040.586, [61.81, 100, 91.68, 55.29, 30.05, 13.02, 4.3, 1.69, 0.61, 0.11]),
  (3050.666, [58.44, 100, 90.7, 54.09, 29.41, 11.72, 4.49, 1.44, 0.56, 0.07, 0.07]),
  (3060.532, [57.08, 100, 88.23, 57.32, 30.87, 12.43, 3.86, 1.09, 0.32, 0.04]),
  (3070.507, [60.28, 100, 88.81, 60.46, 30.25, 12.09, 4.77, 1.61, 0.36, 0.07, 0.07, 0.04]),
  (3079.813, [58.64, 100, 87.92, 59.95, 29.07, 12.54, 4.39, 1.13, 0.39, 0.04, 0.04]),
  (3089.574, [60.6, 100, 91.08, 59.41, 31.27, 11.56, 5.06, 1.66, 0.36, 0.14]),
  (3099.569, [60.79, 100, 87.81, 57.31, 30.39, 12.48, 4.41, 1.49, 0.68, 0.14]),
  (3109.649, [58.63, 100, 90.97, 60.71, 32.81, 13.55, 4.99, 1.82, 0.66, 0.04]),
  (3119.644, [58.37, 100, 93.94, 57.18, 30.16, 14.25, 5.16, 1.33, 0.29, 0.07]),
  (3129.595, [60.47, 100, 91.96, 64.56, 29.83, 14.23, 5.64, 1.47, 0.44, 0.11]),
  (3139.59, [57.07, 100, 93.51, 59.5, 30.57, 13.89, 5.66, 1.63, 0.65, 0.11]),
  (3149.67, [61.67, 100, 95.17, 63.36, 32.82, 13.19, 5.99, 1.87, 0.49, 0.11]),
  (3159.645, [57.37, 100, 89.4, 57.23, 28.31, 14.03, 5.28, 1.95, 0.5, 0.25, 0.04]),
  (3169.64, [59.87, 100, 92.14, 59.39, 33.85, 14.77, 4.89, 1.8, 0.55, 0.26]),
  (3179.72, [54.44, 100, 88.87, 58.94, 30.21, 13.35, 4.4, 1.34, 0.39, 0.14, 0.04]),
  (3189.715, [54.37, 100, 92.16, 61.85, 33.54, 13.54, 5.26, 1.6, 0.51, 0.15]),
  (3199.666, [59.01, 100, 95.7, 64.99, 33.33, 12.71, 5.23, 2.17, 0.34, 0.19, 0.04]),
  (3209.661, [58.25, 100, 96.03, 61.85, 31.24, 15.9, 5.2, 2.19, 0.63, 0.15, 0.04]),
  (3219.741, [59.83, 100, 99.92, 65.82, 33.35, 14.02, 5.18, 2.06, 0.76, 0.15]),
  (3229.736, [58.9, 100, 97.61, 65.08, 34.58, 14.43, 5.27, 1.93, 0.64, 0.23, 0.08, 0.04]),
  (3239.711, [55.21, 100, 93.87, 64.15, 32.48, 16.26, 4.95, 2.11, 0.37, 0.11, 0.04]),
  (3249.791, [53.55, 100, 91.71, 62.24, 32.19, 13.9, 5.87, 1.63, 0.58, 0.29, 0.11]),
  (3259.786, [57.8, 100, 94.94, 65.32, 35.59, 15.87, 5.74, 1.81, 0.57, 0.08, 0.08]),
  (3269.866, [56.44, 100, 93.68, 65.42, 34.81, 15.12, 5.88, 2.21, 0.52, 0.19]),
  (3279.946, [56.04, 100, 97.73, 65.85, 38.58, 17.54, 6.15, 1.81, 0.73, 0.12, 0.04, 0.04]),
  (3289.812, [52.72, 100, 95.79, 61.36, 35.54, 15.59, 5.58, 1.85, 0.7, 0.26, 0.04])]

/-- Entries of `averagine_table` with keys from 3299.807 to 3690.312. -/
def averagine_rows_8 : List (ℚ × List ℚ) := [
  (3299.807, [56.38, 100, 94.85, 63.61, 32.81, 16.96, 5.82, 1.64, 0.48, 0.15, 0.07, 0.04, 0.04]),
  (3309.887, [58.07, 97.8, 100, 68.71, 39.62, 18.3, 7.03, 2.36, 0.59, 0.16]),
  (3319.967, [54.94, 100, 96.81, 64.48, 38.11, 17.14, 5.74, 1.82, 0.65, 0.23, 0.04]),
  (3329.857, [54.94, 100, 97.29, 67.7, 36.73, 15.88, 6.3, 2.18, 0.57, 0.15, 0.04, 0.04]),
  (3339.937, [54.66, 100, 97.18, 67.25, 36.83, 16.72, 5.99, 1.91, 0.8, 0.27, 0.08]),
  (3350.122, [54.53, 98, 100, 66.39, 38.53, 15.66, 7.18, 2.61, 0.61, 0.15, 0.08]),
  (3359.883, [55.16, 100, 98.8, 68.77, 36.45, 17.7, 6.61, 2.13, 0.73, 0.12, 0.08]),
  (3369.878, [52.92, 100, 96.24, 66.43, 36.68, 17.22, 6.3, 2.35, 1.1, 0.08, 0.04]),
  (3379.958, [51.35, 100, 98.73, 69.41, 37.2, 17.95, 6.42, 2.31, 0.58, 0.31, 0.04, 0.04]),
  (3389.953, [54.14, 100, 99.65, 71.65, 39.38, 17.35, 6.64, 2.91, 0.67, 0.12, 0.08, 0.04]),
  (3399.928, [54.03, 98.91, 100, 71.03, 39.72, 16.69, 6.96, 2.58, 0.51, 0.43, 0.04, 0.04]),
  (3409.923, [54.63, 100, 95.16, 68.28, 39.25, 17.15, 6.04, 2.92, 0.65, 0.27, 0.08, 0.04]),
  (3420.003, [53.59, 98.15, 100, 67.09, 37.75, 17.45, 7, 2.54, 0.85, 0.04]),
  (3429.954, [53.52, 100, 95.65, 72.87, 39.64, 17.76, 6.41, 2.18, 0.39, 0.23]),
  (3439.949, [52.28, 100, 95.78, 65.54, 39.89, 16.53, 6.57, 2.51, 0.65, 0.15, 0.04]),
  (3450.029, [52.69, 96.92, 100, 70.15, 39.87, 19.25, 6.94, 2.69, 0.9, 0.31]),
  (3460.024, [52.04, 97.44, 100, 71.42, 39.15, 17.44, 7.03, 2.41, 0.78, 0.58, 0.08]),
  (3470.104, [54.18, 100, 99.96, 71.96, 40.54, 18.84, 7.42, 2.38, 0.99, 0.36, 0.04]),
  (3479.994, [54.46, 100, 98.04, 69.77, 39.3, 18.85, 8.28, 2.59, 0.9, 0.27, 0.08, 0.04, 0.04]),
  (3490.074, [51.88, 97.23, 100, 72.33, 36.24, 17.03, 6.11, 2.19, 1.04, 0.12, 0.12, 0.04]),
  (3500.259, [54.7, 99.84, 100, 70.24, 40.51, 19.17, 7.55, 2.02, 0.59, 0.4, 0.24]),
  (3510.02, [51.21, 100, 96.63, 74.93, 41.09, 20.83, 7.54, 2.98, 1.07, 0.32, 0.08]),
  (3520.1, [50, 94.37, 100, 67.19, 39.09, 18.61, 8.81, 3.37, 1, 0.31, 0.11]),
  (3530.095, [51.68, 93.16, 100, 70.35, 41.05, 18.28, 8.04, 2.59, 1.01, 0.27, 0.08, 0.04]),
  (3540.175, [52.87, 96.07, 100, 76.29, 43.76, 19.94, 7.34, 3.45, 1, 0.32, 0.04, 0.04]),
  (3550.17, [50.55, 97.73, 100, 71.55, 39.97, 19.2, 8.66, 2.7, 0.86, 0.31, 0.31]),
  (3560.25, [50.44, 94.08, 100, 68.04, 40.57, 19.4, 7.18, 3.15, 1.04, 0.19, 0.04, 0.04]),
  (3570.14, [47.68, 94.32, 100, 70.81, 40.04, 20.54, 8.38, 3.01, 0.89, 0.35, 0.04, 0.04]),
  (3580.091, [51.42, 99.88, 100, 74.85, 41.74, 19.47, 8.2, 3.16, 0.88, 0.12, 0.12]),
  (3590.405, [46.74, 93.56, 100, 70.92, 38.89, 20.11, 8.7, 2.87, 1.03, 0.27, 0.04]),
  (3600.166, [48.92, 93.09, 100, 72.63, 39.69, 19.34, 8.3, 2.9, 1, 0.15, 0.04, 0.04]),
  (3610.246, [50.94, 99.68, 100, 75.43, 42.98, 20.71, 8.24, 2.69, 1.01, 0.2, 0.16, 0.04]),
  (3620.241, [50.14, 93.13, 100, 71.36, 41.02, 20.18, 8.15, 2.76, 0.74, 0.43, 0.16]),
  (3630.321, [49.49, 93.5, 100, 72.61, 42.24, 21.39, 8.07, 3.06, 1.14, 0.27, 0.04, 0.04]),
  (3640.316, [47.69, 93.32, 100, 72.2, 43.98, 20.64, 8.37, 3.4, 0.9, 0.39, 0.04]),
  (3650.162, [49.14, 100, 99.88, 78.62, 47.01, 21.79, 9.05, 2.91, 0.82, 0.2, 0.08]),
  (3660.476, [47.36, 91.87, 100, 75.24, 42.2, 20.88, 8.02, 3.79, 1.41, 0.27, 0.04]),
  (3670.237, [47.74, 92.66, 100, 71.86, 40.16, 19.98, 8.74, 3.56, 1.28, 0.39, 0.08, 0.08, 0.04]),
  (3680.232, [47.77, 95.81, 100, 73.33, 41.53, 21.81, 9.72, 3.63, 1.07, 0.24, 0.16, 0.04]),
  (3690.312, [44.13, 95.25, 100, 76.15, 42.63, 22.24, 8.21, 2.83, 1.22, 0.28])]

/-- Entries of `averagine_table` with keys from 3700.392 to 3999.848. -/
def averagine_rows_9 : List (ℚ × List ℚ) := [
  (3700.392, [46.08, 91.27, 100, 75.53, 43.74, 21.65, 8.93, 2.66, 1.06, 0.51, 0.08, 0.04]),
  (3710.387, [46.14, 94.97, 100, 76.59, 42.65, 20.95, 9.5, 3.52, 1.43, 0.28]),
  (3720.467, [44.56, 92.3, 100, 74.56, 45.19, 21.48, 9.31, 3.57, 1.14, 0.39, 0.12]),
  (3730.547, [46.8, 93.31, 100, 77.66, 43.35, 23.82, 10.29, 3.28, 0.92, 0.52, 0.32, 0.04]),
  (3740.308, [47.35, 91.58, 100, 74.51, 45.38, 20.43, 10.12, 4.11, 1.23, 0.43, 0.08, 0.04]),
  (3750.303, [47.08, 93.53, 100, 76.66, 41.89, 23.94, 10.67, 3.64, 1.28, 0.76, 0.2, 0.04]),
  (3760.383, [45.6, 94.71, 100, 78.49, 46.73, 22.24, 9.44, 3.87, 1.74, 0.44, 0.16, 0.12]),
  (3770.378, [47.08, 89.57, 100, 74.53, 45.26, 23.42, 9.6, 3.95, 0.91, 0.43, 0.16, 0.04]),
  (3780.458, [43.28, 90.68, 100, 76.44, 47.68, 22.17, 10.39, 4.32, 1.03, 0.48, 0.16, 0.04]),
  (3790.538, [45, 95.77, 100, 76.94, 45.93, 24.07, 9.52, 4.19, 1.21, 0.4, 0.16, 0.04]),
  (3800.404, [46.08, 92.12, 100, 79.6, 47.09, 23.42, 9.98, 3.68, 1.09, 0.61, 0.2]),
  (3810.379, [43.46, 94.51, 100, 78.37, 48.51, 23.37, 9.08, 4.28, 1.45, 0.36, 0.16]),
  (3820.374, [46.84, 93.34, 100, 78.77, 47.9, 24.5, 10.53, 4.21, 1.51, 0.61, 0.12]),
  (3830.454, [43.94, 90.36, 100, 77.89, 46.69, 22.87, 10.2, 4.38, 1.39, 0.4, 0.2, 0.08]),
  (3840.449, [43.72, 87.71, 100, 75.23, 47.42, 23.28, 10.36, 4.61, 1.1, 0.32, 0.12]),
  (3850.529, [42.91, 92.23, 100, 79.41, 48.52, 22.48, 9.33, 3.89, 1.04, 0.68, 0.12, 0.04]),
  (3860.524, [41.57, 88.3, 100, 78.25, 45.51, 23.6, 10.76, 4.1, 1.34, 0.28, 0.2, 0.08, 0.04]),
  (3870.604, [44.01, 87.23, 100, 75.41, 47.12, 24.39, 9.93, 3.74, 1.26, 0.71, 0.12, 0.08]),
  (3880.555, [43.63, 88.56, 100, 82.44, 47.36, 24.78, 12.17, 4.1, 1.91, 0.32, 0.16, 0.04, 0.04]),
  (3890.445, [43.81, 92.49, 100, 82.16, 50.21, 26.34, 11.35, 4.75, 1.28, 0.41, 0.04, 0.04]),
  (3900.525, [38.7, 92.48, 100, 80.41, 49.24, 24.3, 10.5, 4.55, 1.53, 0.36, 0.12, 0.08]),
  (3910.52, [41.26, 87.71, 100, 77.91, 46.17, 25.22, 10.71, 4.51, 0.99, 0.51, 0.16, 0.08, 0.04]),
  (3920.6, [42.03, 91.87, 100, 75.36, 49.04, 24.88, 11.26, 4.25, 1.52, 0.4, 0.04]),
  (3930.595, [41.83, 89.94, 100, 78.08, 47.99, 26.55, 11.06, 4.14, 2.21, 0.4, 0.04]),
  (3940.675, [40.48, 87.62, 100, 78.2, 52.14, 24.21, 11.54, 4.13, 1.8, 0.48, 0.16, 0.04]),
  (3950.541, [40.36, 90.73, 100, 80.11, 49.75, 29.17, 11.4, 5.23, 1.18, 0.41, 0.12, 0.04]),
  (3960.621, [43.11, 92.13, 100, 82.98, 49.57, 27.41, 11.97, 4.68, 1.7, 0.37, 0.08, 0.08]),
  (3969.588, [41.8, 86.39, 100, 78.25, 51.87, 25.9, 11.84, 4.27, 1.73, 0.52, 0.16]),
  (3979.583, [39.34, 88.42, 100, 77.24, 48.6, 26, 11.58, 5.31, 2.16, 0.56, 0.12, 0.04]),
  (3989.663, [39.83, 89.06, 100, 78.97, 52.26, 24.9, 12.07, 4.32, 1.57, 0.44, 0.08, 0.04]),
  (3999.848, [42.17, 89.57, 100, 78.98, 49.11, 27.68, 11.32, 4.83, 1.46, 0.45, 0.16, 0.12])]

/-- The compiled-in `averagine_table` (lines 570-1106): approximate total mass
and the relative isotope heights expected for it, in key order. -/
def averagine_table : List (ℚ × List ℚ) :=
  averagine_rows_0 ++
  averagine_rows_1 ++
  averagine_rows_2 ++
  averagine_rows_3 ++
  averagine_rows_4 ++
  averagine_rows_5 ++
  averagine_rows_6 ++
  averagine_rows_7 ++
  averagine_rows_8 ++
  averagine_rows_9

/-- The call `averagine_table.lower_bound(x)`: the position of the first key that
is not below `x`, given as the rest of the table from there on (`end()` is the
empty rest). -/
def lower_bound (table : List (ℚ × List ℚ)) (x : ℚ) : List (ℚ × List ℚ) :=
  table.dropWhile (fun e => decide (e.1 < x))

/-- The envelope lookup of `detect_features` (lines 1167-1180): `none` is the
`continue` taken when `lower_bound` returns `end()`. -/
def lookup_ref_heights (table : List (ℚ × List ℚ)) (ref_mz : ℚ) : Option (List ℚ) :=
  match lower_bound table ref_mz with
  | [] => none
  | ref_key_it :: ref_key_it_next =>
    match ref_key_it_next with
    | [] => some ref_key_it.2
    | next :: _ =>
      if ref_mz - ref_key_it.1 > next.1 - ref_mz then some next.2 else some ref_key_it.2

/-! ## `detect_features` -/

/-- The constant `carbon_diff`. -/
def carbon_diff : ℚ := 1.0033

/-- The loop that fills `sorted_peaks[i] = {i, peaks[i].fitted_mz}`; the second
argument is the index of the head. -/
def index_keys : List Peak → Nat → List KeySort
  | [], _ => []
  | p :: ps, i => ⟨i, p.fitted_mz⟩ :: index_keys ps (i + 1)

/-- The call `std::stable_sort` with the comparator
`p1.sorting_key < p2.sorting_key`: the sorted arrangement in which records with
equal keys keep their input order, computed here by insertion. -/
def stable_sort_keys (l : List KeySort) : List KeySort :=
  l.insertionSort (fun p1 p2 => p1.sorting_key ≤ p2.sorting_key)

/-- The peaks in mz order: entry `i` is `peaks[sorted_peaks[i].index]`. -/
def ref_peaks (peaks : List Peak) : List Peak :=
  (stable_sort_keys (index_keys peaks 0)).map (fun s => peaks.getD s.index default)

/-- The access `peaks[sorted_peaks[x].index]` for a node index `x`. -/
def peak_of (ref : List Peak) (x : Nat) : Peak := ref.getD x default

/-- The loop `for (size_t j = i + 1; j < sorted_peaks.size(); ++j)` that collects
the successors of one node; the list holds the peaks from position `j` on. -/
def scan_successors (min_mz max_mz min_rt max_rt : ℚ) : List Peak → Nat → List Nat
  | [], _ => []
  | peak :: rest, j =>
    if peak.fitted_mz > max_mz then []
    else if peak.fitted_mz > min_mz ∧ peak.fitted_rt > min_rt ∧ peak.fitted_rt < max_rt then
      j :: scan_successors min_mz max_mz min_rt max_rt rest (j + 1)
    else scan_successors min_mz max_mz min_rt max_rt rest (j + 1)

/-- Node `i` of the graph of `charge_state`; `rest` holds the peaks that follow
`ref_peak` in mz order. -/
def build_node (charge_state : Nat) (i : Nat) (ref_peak : Peak) (rest : List Peak) :
    CandidateNode :=
  let tol_mz := ref_peak.fitted_sigma_mz
  let tol_rt := ref_peak.fitted_sigma_rt
  let min_rt := ref_peak.fitted_rt - tol_rt
  let max_rt := ref_peak.fitted_rt + tol_rt
  if charge_state = 0 then ⟨ref_peak.id, false, []⟩
  else
    let mz_diff := carbon_diff / (charge_state : ℚ)
    let min_mz := (ref_peak.fitted_mz + mz_diff) - tol_mz
    let max_mz := (ref_peak.fitted_mz + mz_diff) + tol_mz
    ⟨ref_peak.id, false, scan_successors min_mz max_mz min_rt max_rt rest (i + 1)⟩

/-- The graph of one charge state over the peaks from position `i` on. -/
def build_graph (charge_state : Nat) : List Peak → Nat → CandidateGraph
  | [], _ => []
  | ref_peak :: rest, i =>
    build_node charge_state i ref_peak rest :: build_graph charge_state rest (i + 1)

/-- The assignment `graph[graph_idx].visited = true`. -/
def set_visited : CandidateGraph → Nat → CandidateGraph
  | [], _ => []
  | n :: g, 0 => { n with visited := true } :: g
  | n :: g, i + 1 => n :: set_visited g i

/-- The best candidate of one seed: `best_dot`, `best_path`, `best_charge_state`. -/
structure Best where
  best_dot : ℚ
  best_path : List Nat
  best_charge_state : Nat
deriving DecidableEq, Inhabited

/-- The loop `for (const auto &path : paths)` of one charge state. The copy
`best_path[k] = path[i]` for `sim.min_i <= i < sim.max_i` is the part of `path`
between the two bounds. -/
def score_paths (rt : Runtime) (ref : List Peak) (ref_heights : List ℚ) (charge_state : Nat) :
    List (List Nat) → Best → Best
  | [], best => best
  | path :: rest, best =>
    if path.length < 2 then score_paths rt ref ref_heights charge_state rest best
    else
      let path_heights := path.map (fun x => (peak_of ref x).fitted_height)
      let sim := rolling_weighted_cosine_sim rt path_heights ref_heights
      if sim.dot > best.best_dot then
        score_paths rt ref ref_heights charge_state rest
          ⟨sim.dot, (path.drop sim.min_i).take (sim.max_i - sim.min_i), charge_state⟩
      else score_paths rt ref ref_heights charge_state rest best

/-- The loop `for (size_t k = 0; k < charge_states.size(); ++k)` of one seed `i`,
over the charge states and their graphs side by side. -/
def score_charges (rt : Runtime) (fuel : Nat) (table : List (ℚ × List ℚ)) (ref : List Peak)
    (i : Nat) : List Nat → List CandidateGraph → Best → Option Best
  | charge_state :: cs, graph :: gs, best =>
    match find_all_paths fuel graph i with
    | none => none
    | some paths =>
      let ref_mz := (peak_of ref i).fitted_mz * (charge_state : ℚ)
      match lookup_ref_heights table ref_mz with
      | none => score_charges rt fuel table ref i cs gs best
      | some ref_heights =>
        score_charges rt fuel table ref i cs gs
          (score_paths rt ref ref_heights charge_state paths best)
  | _, _, best => some best

/-- The body of the loop that builds a feature, for position `i` of `best_path`;
`peak_ids[i] = peak.id` fills the list from the left. -/
def add_peak (feature : Feature) (i : Nat) (peak : Peak) : Feature :=
  { feature with
    peak_ids := feature.peak_ids ++ [peak.id]
    average_rt := feature.average_rt + peak.fitted_rt
    average_rt_sigma := feature.average_rt_sigma + peak.fitted_sigma_rt
    average_rt_delta := feature.average_rt_delta + peak.rt_delta
    average_mz := feature.average_mz + peak.fitted_mz * peak.fitted_height
    average_mz_sigma := feature.average_mz_sigma + peak.fitted_sigma_mz
    total_height := feature.total_height + peak.fitted_height
    total_volume := feature.total_volume + peak.fitted_volume
    max_height := if peak.fitted_height > feature.max_height then peak.fitted_height
      else feature.max_height
    max_volume := if peak.fitted_volume > feature.max_volume then peak.fitted_volume
      else feature.max_volume
    monoisotopic_mz := if i = 0 then peak.fitted_mz else feature.monoisotopic_mz
    monoisotopic_rt := if i = 0 then peak.fitted_rt else feature.monoisotopic_rt
    monoisotopic_height := if i = 0 then peak.fitted_height else feature.monoisotopic_height
    monoisotopic_volume := if i = 0 then peak.fitted_volume else feature.monoisotopic_volume }

/-- The loop `for (size_t i = 0; i < best_path.size(); ++i)` over the winning
window; the second argument is `i`. -/
def add_peaks (ref : List Peak) : List Nat → Nat → Feature → Feature
  | [], _, feature => feature
  | graph_idx :: rest, i, feature =>
    add_peaks ref rest (i + 1) (add_peak feature i (peak_of ref graph_idx))

/-- The feature built from the winning window (lines 1212-1260). -/
def build_feature (ref : List Peak) (best : Best) : Feature :=
  let feature : Feature :=
    { id := 0, score := best.best_dot, average_rt := 0, average_rt_delta := 0
      average_rt_sigma := 0, average_mz := 0, average_mz_sigma := 0, total_height := 0
      total_volume := 0, max_height := 0, max_volume := 0, monoisotopic_mz := 0
      monoisotopic_rt := 0, monoisotopic_height := 0, monoisotopic_volume := 0
      charge_state := best.best_charge_state, peak_ids := [] }
  let feature := add_peaks ref best.best_path 0 feature
  { feature with
    average_rt := feature.average_rt / (best.best_path.length : ℚ)
    average_rt_delta := feature.average_rt_delta / (best.best_path.length : ℚ)
    average_rt_sigma := feature.average_rt_sigma / (best.best_path.length : ℚ)
    average_mz := feature.average_mz / feature.total_height
    average_mz_sigma := feature.average_mz_sigma / (best.best_path.length : ℚ) }

/-- The variables of the seed loop: the cursor `i`, the graphs of all charge
states and the features emitted so far. -/
structure SeedState where
  i : Nat
  graphs : List CandidateGraph
  features : List Feature
deriving DecidableEq, Inhabited

/-- The marking of one winning window: every node of `best_path` becomes
visited in the graph of every charge state. -/
def mark_path (graphs : List CandidateGraph) (best_path : List Nat) : List CandidateGraph :=
  graphs.map (fun g => best_path.foldl set_visited g)

/-- One iteration of `while (i < sorted_peaks.size())` (lines 1159-1262). -/
def seed_step (rt : Runtime) (fuel : Nat) (table : List (ℚ × List ℚ)) (ref : List Peak)
    (charge_states : List Nat) (st : SeedState) : Option SeedState :=
  match score_charges rt fuel table ref st.i charge_states st.graphs ⟨0, [], 0⟩ with
  | none => none
  | some best =>
    if best.best_path.length < 2 then some { st with i := st.i + 1 }
    else
      some
        { i := if best.best_path.head? = some st.i then st.i + 1 else st.i
          graphs := mark_path st.graphs best.best_path
          features := st.features ++ [build_feature ref best] }

/-- The loop `while (i < sorted_peaks.size())`; the first argument bounds the
number of iterations. -/
def seed_loop (rt : Runtime) (fuel : Nat) (table : List (ℚ × List ℚ)) (ref : List Peak)
    (charge_states : List Nat) : Nat → SeedState → Option (List Feature)
  | 0, st => if st.i < ref.length then none else some st.features
  | n + 1, st =>
    if st.i < ref.length then
      match seed_step rt fuel table ref charge_states st with
      | none => none
      | some st' => seed_loop rt fuel table ref charge_states n st'
    else some st.features

/-- The comparator `sort_features` of the post-pass. -/
def sort_features (a b : Feature) : Bool := decide (a.total_volume ≥ b.total_volume)

/-- The loop `features[i].id = i`; the second argument is `i`. -/
def assign_ids : List Feature → Nat → List Feature
  | [], _ => []
  | feature :: rest, i => { feature with id := i } :: assign_ids rest (i + 1)

/-- The features in the order the greedy loop emits them, before the post-pass,
for the lookup table `table`. -/
def greedy_features (rt : Runtime) (fuel : Nat) (table : List (ℚ × List ℚ)) (peaks : List Peak)
    (charge_states : List Nat) : Option (List Feature) :=
  let ref := ref_peaks peaks
  let charge_state_graphs := charge_states.map (fun c => build_graph c ref 0)
  seed_loop rt fuel table ref charge_states fuel ⟨0, charge_state_graphs, []⟩

/-- The function `FeatureDetection::detect_features` (lines 1107-1276); `fuel`
bounds the iterations of the seed loop and of each `find_all_paths` call. -/
def detect_features (rt : Runtime) (fuel : Nat) (peaks : List Peak) (charge_states : List Nat) :
    Option (List Feature) :=
  match greedy_features rt fuel averagine_table peaks charge_states with
  | none => none
  | some features => some (assign_ids (rt.sort sort_features features) 0)

/-! ## A concrete runtime for evaluation -/

/-- Binary search for the integer square root, most significant bit first. -/
def isqrt_bits (n : Nat) : Nat → Nat → Nat
  | 0, r => r
  | b + 1, r => if (r + 2 ^ b) * (r + 2 ^ b) ≤ n then isqrt_bits n b (r + 2 ^ b) else isqrt_bits n b r

/-- The number of binary digits of `m`; the first argument bounds the recursion. -/
def bit_len : Nat → Nat → Nat
  | 0, _ => 0
  | f + 1, m => if m = 0 then 0 else 1 + bit_len f (m / 2)

/-- The square root rounded down to twelve decimal places. -/
def sqrt_fixed (x : ℚ) : ℚ :=
  if x ≤ 0 then 0
  else
    let n := x.num.toNat * 10 ^ 24 / x.den
    (isqrt_bits n (bit_len n n) 0 : ℚ) / 10 ^ 12

/-- A runtime in which `sqrt` is `sqrt_fixed`, memory past the end of a vector
reads as `0`, and `sort` is an insertion sort driven by the comparator. -/
def zero_runtime : Runtime where
  sqrt := sqrt_fixed
  oob := fun _ _ => 0
  sort := fun cmp l => l.insertionSort (fun a b => cmp a b = true)


/-! ## Vocabulary for the statements about `find_all_paths` -/

/-- The flag `graph[x].visited`, read as `false` outside the graph. -/
def node_visited (graph : CandidateGraph) (x : Nat) : Bool :=
  match graph[x]? with
  | some n => n.visited
  | none => false

/-- Node `x` exists in the graph and its `visited` flag is `false`. -/
def is_unvisited (graph : CandidateGraph) (x : Nat) : Prop :=
  ∃ n, graph[x]? = some n ∧ n.visited = false

/-- Node `b` is listed among the successors `graph[a].nodes`. -/
def is_successor (graph : CandidateGraph) (a b : Nat) : Prop :=
  ∃ n, graph[a]? = some n ∧ b ∈ n.nodes

/-- What `find_all_paths` promises of a returned path: it starts at the root,
follows successor edges, visits only unvisited nodes and ends in a node with no
unvisited successor. -/
def is_maximal_path (graph : CandidateGraph) (root : Nat) (p : List Nat) : Prop :=
  p.head? = some root ∧ List.Chain' (is_successor graph) p ∧
  (∀ x ∈ p, is_unvisited graph x) ∧
  ∃ last, p.getLast? = some last ∧ ∀ j, is_successor graph last j → ¬ is_unvisited graph j


/-! ## Vocabulary for the statements about the matcher -/

/-- The position `max_b_index` that `rolling_weighted_cosine_sim` computes for `B`. -/
def max_b_index_of (B : List ℚ) : Nat := (scan_b B 0 ⟨0, 0, 0⟩).max_b_index

/-- The test that lets a walk continue: `A[ia]`, normalised by `A[k]`, deviates
from `B[ib] / 100` by less than `0.35`. -/
def within_tolerance (rt : Runtime) (A B : List ℚ) (k ia ib : Nat) : Prop :=
  ¬ fabs (vec_at rt A ia / vec_at rt A k - vec_at rt B ib / 100) ≥ 0.35


/-! ## Vocabulary for the statements about the candidate graphs -/

/-- The shape of a candidate graph over `n` peaks: `n` nodes, each with at most
`n` successors, all of them above the node and below `n`. -/
def graph_ok (n : Nat) (g : CandidateGraph) : Prop :=
  g.length = n ∧
  ∀ a node, g[a]? = some node → node.nodes.length ≤ n ∧ ∀ b ∈ node.nodes, a < b ∧ b < n

/-- The graph `g` after every node of `path` has been marked visited. -/
def mark_nodes (g : CandidateGraph) (path : List Nat) : CandidateGraph :=
  path.foldl set_visited g


/-! ## Vocabulary for the statements about one seed -/

/-- The candidate that `detect_features` forms from one path of one charge
state: the matcher's score, the part of the path inside the matcher's window,
and the charge state. -/
def candidate (rt : Runtime) (ref : List Peak) (ref_heights : List ℚ) (charge_state : Nat)
    (path : List Nat) : Best :=
  ⟨(rolling_weighted_cosine_sim rt (path.map (fun x => (peak_of ref x).fitted_height))
      ref_heights).dot,
   (path.drop (rolling_weighted_cosine_sim rt (path.map (fun x => (peak_of ref x).fitted_height))
      ref_heights).min_i).take
     ((rolling_weighted_cosine_sim rt (path.map (fun x => (peak_of ref x).fitted_height))
        ref_heights).max_i -
      (rolling_weighted_cosine_sim rt (path.map (fun x => (peak_of ref x).fitted_height))
        ref_heights).min_i),
   charge_state⟩


/-! ## Vocabulary for the statements about the seed loop -/

/-- The node indices claimed by a list of accepted candidates, in order. -/
def claimed (bests : List Best) : List Nat := (bests.map (fun b => b.best_path)).flatten

/-- What holds of the candidates accepted so far: no node index is claimed
twice, and every window has at least two nodes, in strictly increasing order,
all below the number of peaks. -/
def windows_ok (ref : List Peak) (bests : List Best) : Prop :=
  (claimed bests).Nodup ∧
  ∀ b ∈ bests, 2 ≤ b.best_path.length ∧ b.best_path.Pairwise (· < ·) ∧
    ∀ x ∈ b.best_path, x < ref.length

/-- The invariant of the seed loop, stated for the list `bests` of candidates
accepted so far: every graph is the initial graph of its charge state with
exactly the claimed nodes marked, and the features are those built from the
accepted candidates. -/
def seed_inv (ref : List Peak) (charge_states : List Nat) (bests : List Best)
    (st : SeedState) : Prop :=
  st.graphs = charge_states.map (fun c => mark_nodes (build_graph c ref 0) (claimed bests)) ∧
  st.features = bests.map (build_feature ref) ∧
  windows_ok ref bests


/-! ## Vocabulary for the statements about the emitted features -/

/-- Peak exclusivity of a feature list: no identifier occurs twice inside one
feature's `peak_ids`, and none occurs in the `peak_ids` of two features. -/
def peak_exclusive (fs : List Feature) : Prop :=
  (∀ f ∈ fs, f.peak_ids.Nodup) ∧
  fs.Pairwise (fun f g => ∀ x ∈ f.peak_ids, x ∉ g.peak_ids)

/-- The input peaks named by a list of identifiers, in the order of the list. -/
def named_peaks (peaks : List Peak) (ids : List Nat) : List Peak :=
  ids.filterMap (fun pid => peaks.find? (fun p => p.id == pid))

/-- The library contract assumed of `std::sort` where a statement is about the
list after the post-pass: the result is a rearrangement of the input. -/
def sort_permutes (rt : Runtime) : Prop :=
  ∀ (cmp : Feature → Feature → Bool) (l : List Feature), (rt.sort cmp l).Perm l


/-! ## Vocabulary for the termination statements -/

/-- The weight of a path waiting on the stack of `find_all_paths`, for a graph
of `n` nodes with at most `L` successors each: `(L + 1) ^ (n - last)`. -/
def path_weight (L n : Nat) (p : List Nat) : Nat :=
  match p.getLast? with
  | some l => (L + 1) ^ (n - l)
  | none => 0

/-- The measure of the seed loop: peaks still to be passed by the cursor plus
peaks not yet claimed. -/
def seed_measure (n : Nat) (bests : List Best) (st : SeedState) : Nat :=
  (n - st.i) + (n - (claimed bests).length)


/-! ## The matcher as the specification words it -/

/-- The index of the (first) maximum of `B`. -/
def argmax_index (B : List ℚ) : Nat := B.indexOf (B.foldl max (B.headD 0))

/-- The specification's test for keeping index `i` in the alignment of `A[k]`
with the maximum `B[m]`: `|A[i]/A[k] - B[m+i-k]/100| < 0.35`. -/
def reference_keeps (A B : List ℚ) (m k i : Nat) : Bool :=
  decide (|A.getD i 0 / A.getD k 0 - B.getD (m + i - k) 0 / 100| < 0.35)

/-- One alignment of the specification: `A[i]` is paired with `B[m + i - k]`
over the clipped range `max(0, k-m) <= i < min(|A|, k + |B| - m)`; the walk
from `k-1` downwards and the walk from `k` upwards each stop at the first index
that is not kept; `dot` and `normA` are summed over the surviving pairs. -/
def reference_alignment (sqrt : ℚ → ℚ) (A B : List ℚ) (m k : Nat) : OptimalPath :=
  let lo := k - m
  let hi := min A.length (k + B.length - m)
  let down := ((List.range' lo (k - lo)).reverse).takeWhile (reference_keeps A B m k)
  let up := (List.range' k (hi - k)).takeWhile (reference_keeps A B m k)
  let surviving := down ++ up
  let dot := (surviving.map (fun i => A.getD i 0 * B.getD (m + i - k) 0 ^ 2)).sum
  let normA := (surviving.map (fun i => A.getD i 0 ^ 2 * B.getD (m + i - k) 0)).sum
  let normB := sqrt ((B.map (fun b => b ^ 3)).sum)
  ⟨dot / (sqrt normA * normB), k - down.length, k + up.length⟩

/-- The reference matcher of the specification: the best-scoring alignment
whose surviving window has more than one element, `(0, 0, 0)` when there is
none or an input has fewer than two elements. -/
def reference_matcher (sqrt : ℚ → ℚ) (A B : List ℚ) : OptimalPath :=
  if A.length < 2 ∨ B.length < 2 then ⟨0, 0, 0⟩
  else
    (List.range A.length).foldl
      (fun best k =>
        let r := reference_alignment sqrt A B (argmax_index B) k
        if r.max_i - r.min_i > 1 ∧ r.dot > best.dot then r else best)
      ⟨0, 0, 0⟩

/-! ## Concrete inputs -/

/-- The runtime `zero_runtime` with every read past the end of a vector
yielding `v`. -/
def junk_runtime (v : ℚ) : Runtime := { zero_runtime with oob := fun _ _ => v }

/-- The end-to-end scenario of the specification: three peaks one carbon
spacing apart, equal rt, `sigma_mz = 0.01`, `sigma_rt = 1.0`, heights 100, 40, 10. -/
def scenario_peaks : List Peak :=
  [⟨0, 500.0, 10, 100, 100, 0.01, 1.0, 0⟩, ⟨1, 501.0033, 10, 40, 40, 0.01, 1.0, 0⟩,
   ⟨2, 502.0066, 10, 10, 10, 0.01, 1.0, 0⟩]

/-- Two isotope envelopes: a singly charged pair at mz 500 and a doubly charged
pair at mz 600. -/
def two_envelopes : List Peak :=
  [⟨10, 500, 10, 100, 100, 0.01, 1, 0⟩, ⟨11, 501.0033, 10, 28, 28, 0.01, 1, 0⟩,
   ⟨12, 600, 10, 100, 100, 0.01, 1, 0⟩, ⟨13, 600.50165, 10, 60, 60, 0.01, 1, 0⟩]


/-! ## Vocabulary for the completeness of `find_all_paths` -/

/-- The path `q` is an initial segment of the path `p`. -/
def begins_with (p q : List Nat) : Bool := decide (p.take q.length = q)

/-- A three-node graph with the edges `0 → 1`, `0 → 2` and `1 → 2`, nothing
visited. -/
def branching_graph : CandidateGraph :=
  [⟨7, false, [1, 2]⟩, ⟨8, false, [2]⟩, ⟨9, false, []⟩]


/-! ## The states of the seed loop -/

/-- The states in which the seed loop of `detect_features` can be at the start
of an iteration: the state built before the loop, and every state that one
iteration (taken while `i < sorted_peaks.size()`) produces from such a state. -/
inductive seed_reachable (rt : Runtime) (fuel : Nat) (table : List (ℚ × List ℚ))
    (ref : List Peak) (charge_states : List Nat) : SeedState → Prop
  | init : seed_reachable rt fuel table ref charge_states
      ⟨0, charge_states.map (fun c => build_graph c ref 0), []⟩
  | step (st st' : SeedState) :
      seed_reachable rt fuel table ref charge_states st →
      st.i < ref.length →
      seed_step rt fuel table ref charge_states st = some st' →
      seed_reachable rt fuel table ref charge_states st'

/-- Two peaks whose mass exceeds the largest key of the averagine table for
every charge state. -/
def heavy_peaks : List Peak :=
  [⟨0, 4100, 10, 100, 100, 0.01, 1, 0⟩, ⟨1, 4101.0033, 10, 60, 60, 0.01, 1, 0⟩]


/-! ## Vocabulary for the statements about the post-pass -/

/-- A feature without its identifier, the only field the post-pass rewrites. -/
def erase_id (f : Feature) : Feature := { f with id := 0 }

/-- One step of straight insertion: `val` is moved towards the front of the
already sorted `sorted`, past every element at its end that the comparator
puts `val` before. -/
def insert_from_back (cmp : Feature → Feature → Bool) (val : Feature) (sorted : List Feature) :
    List Feature :=
  (sorted.reverse.dropWhile (cmp val)).reverse ++ val :: (sorted.reverse.takeWhile (cmp val)).reverse

/-- Straight insertion sort, the algorithm that `std::sort` implementations
apply to short ranges: the elements are inserted one by one, left to right. -/
def straight_insertion_sort (cmp : Feature → Feature → Bool) (l : List Feature) : List Feature :=
  l.foldl (fun sorted val => insert_from_back cmp val sorted) []

/-- The runtime `zero_runtime` with `std::sort` computed by straight insertion. -/
def insertion_runtime : Runtime := { zero_runtime with sort := straight_insertion_sort }

/-- The isotope pair number `k`: two peaks one carbon spacing apart at mz
`500 + 10 k`, with heights and volumes 100 and 28. -/
def tied_pair (k : Nat) : List Peak :=
  [⟨2 * k, 500 + 10 * (k : ℚ), 10, 100, 100, 0.01, 1, 0⟩,
   ⟨2 * k + 1, 501.0033 + 10 * (k : ℚ), 10, 28, 28, 0.01, 1, 0⟩]

/-- Seventeen isotope pairs whose features all have the total volume 128. -/
def tied_peaks : List Peak := ((List.range 17).map tied_pair).flatten

/-- Two isotope pairs whose features both have the total volume 128. -/
def tied_envelopes : List Peak := ((List.range 2).map tied_pair).flatten


/-! ## Vocabulary for the statements about the fields of a feature -/

/-- The candidate `best` is the winning window of an iteration of the seed
loop: in a state in which the loop starts an iteration, the scan over the
charge states ends with `best`, whose window has at least two nodes. -/
def wins_iteration (rt : Runtime) (fuel : Nat) (table : List (ℚ × List ℚ)) (ref : List Peak)
    (charge_states : List Nat) (best : Best) : Prop :=
  ∃ st, seed_reachable rt fuel table ref charge_states st ∧ st.i < ref.length ∧
    score_charges rt fuel table ref st.i charge_states st.graphs ⟨0, [], 0⟩ = some best ∧
    2 ≤ best.best_path.length

/-- The constituent peaks of a window of node indices, in path order. -/
def constituents (ref : List Peak) (window : List Nat) : List Peak := window.map (peak_of ref)

/-- The value `m` is the largest of the list `l`. -/
def is_largest (m : ℚ) (l : List ℚ) : Prop := m ∈ l ∧ ∀ x ∈ l, x ≤ m

/-- An isotope pair with heights 100 and 28 whose fitted volumes are negative. -/
def negative_volume_peaks : List Peak :=
  [⟨0, 500, 10, 100, -5, 0.01, 1, 0⟩, ⟨1, 501.0033, 10, 28, -7, 0.01, 1, 0⟩]


/-- The peak list and the monoisotopic fields of feature `f`, as the
specification words them for the winning window `window`: `peak_ids` lists the
identifiers of the window's peaks in path order, the monoisotopic fields are
those of the first peak of the window, and no constituent peak has a smaller
fitted mz than that first peak. -/
def monoisotopic_of (ref : List Peak) (window : List Nat) (f : Feature) : Prop :=
  f.peak_ids = (constituents ref window).map (fun p => p.id) ∧
  ∃ first, (constituents ref window).head? = some first ∧
    f.monoisotopic_mz = first.fitted_mz ∧ f.monoisotopic_rt = first.fitted_rt ∧
    f.monoisotopic_height = first.fitted_height ∧
    f.monoisotopic_volume = first.fitted_volume ∧
    ∀ p ∈ constituents ref window, first.fitted_mz ≤ p.fitted_mz

/-- The sums and maxima of feature `f` over the peaks of `window`: the totals
are the sums of the fitted heights and volumes; each maximum is the largest
value among the constituent peaks when one of them is positive, and `0` when
none is. -/
def sums_and_maxima_of (ref : List Peak) (window : List Nat) (f : Feature) : Prop :=
  f.total_height = ((constituents ref window).map (fun p => p.fitted_height)).sum ∧
  f.total_volume = ((constituents ref window).map (fun p => p.fitted_volume)).sum ∧
  ((∃ p ∈ constituents ref window, 0 < p.fitted_height) →
    is_largest f.max_height ((constituents ref window).map (fun p => p.fitted_height))) ∧
  ((∀ p ∈ constituents ref window, p.fitted_height ≤ 0) → f.max_height = 0) ∧
  ((∃ p ∈ constituents ref window, 0 < p.fitted_volume) →
    is_largest f.max_volume ((constituents ref window).map (fun p => p.fitted_volume))) ∧
  ((∀ p ∈ constituents ref window, p.fitted_volume ≤ 0) → f.max_volume = 0)

/-- The averages of feature `f` over the `n` peaks of `window`: `average_mz` is
the height-weighted mean of the fitted mz, the other four are arithmetic means
`sum / n`; `n` is also the number of entries of `peak_ids`. -/
def averages_of (ref : List Peak) (window : List Nat) (f : Feature) : Prop :=
  f.peak_ids.length = (constituents ref window).length ∧
  f.average_mz =
    ((constituents ref window).map (fun p => p.fitted_mz * p.fitted_height)).sum /
      ((constituents ref window).map (fun p => p.fitted_height)).sum ∧
  f.average_rt =
    ((constituents ref window).map (fun p => p.fitted_rt)).sum /
      ((constituents ref window).length : ℚ) ∧
  f.average_rt_sigma =
    ((constituents ref window).map (fun p => p.fitted_sigma_rt)).sum /
      ((constituents ref window).length : ℚ) ∧
  f.average_rt_delta =
    ((constituents ref window).map (fun p => p.rt_delta)).sum /
      ((constituents ref window).length : ℚ) ∧
  f.average_mz_sigma =
    ((constituents ref window).map (fun p => p.fitted_sigma_mz)).sum /
      ((constituents ref window).length : ℚ)


/-! ## Vocabulary for the statements about the edges of the candidate graphs -/

/-- The edge test of the specification for the graph of charge `c`: the fitted
mz of `peak` lies in the half-open interval
`(mz + 1.0033/c - sigma_mz, mz + 1.0033/c + sigma_mz]` around the expected
isotope position of `ref_peak`, and its fitted rt lies strictly inside
`(rt - sigma_rt, rt + sigma_rt)`. -/
def qualifies (c : Nat) (ref_peak peak : Peak) : Bool :=
  decide
    (ref_peak.fitted_mz + 1.0033 / (c : ℚ) - ref_peak.fitted_sigma_mz < peak.fitted_mz ∧
     peak.fitted_mz ≤ ref_peak.fitted_mz + 1.0033 / (c : ℚ) + ref_peak.fitted_sigma_mz ∧
     ref_peak.fitted_rt - ref_peak.fitted_sigma_rt < peak.fitted_rt ∧
     peak.fitted_rt < ref_peak.fitted_rt + ref_peak.fitted_sigma_rt)

/-- The scan of the specification without the early exit: every peak of the
list is tested, and the positions of those that qualify are collected; `j` is
the position of the head. -/
def full_scan (c : Nat) (ref_peak : Peak) : List Peak → Nat → List Nat
  | [], _ => []
  | peak :: rest, j =>
    if qualifies c ref_peak peak then j :: full_scan c ref_peak rest (j + 1)
    else full_scan c ref_peak rest (j + 1)

/-- The sum of the lengths of all successor lists of a graph. -/
def fan_out (g : CandidateGraph) : Nat := (g.map (fun node => node.nodes.length)).sum


/-! ## Vocabulary for the statements about one iteration of the seed loop -/

/-- The state that `detect_features` builds before its seed loop: cursor 0, the
graphs of all charge states with nothing visited, and no feature. -/
def initial_state (ref : List Peak) (charge_states : List Nat) : SeedState :=
  ⟨0, charge_states.map (fun c => build_graph c ref 0), []⟩


/-! ## Vocabulary for the statement about the best alignment -/

/-- The score and the truncated window that `rolling_weighted_cosine_sim`
computes for the alignment position `k` of `A` against `B`. -/
def alignment (rt : Runtime) (A B : List ℚ) (k : Nat) : OptimalPath :=
  ⟨roll_dot rt (rt.sqrt (scan_b B 0 ⟨0, 0, 0⟩).norm_b)
      (roll_walk rt A B (scan_b B 0 ⟨0, 0, 0⟩).max_b_index k),
   (roll_walk rt A B (scan_b B 0 ⟨0, 0, 0⟩).max_b_index k).true_min_i,
   (roll_walk rt A B (scan_b B 0 ⟨0, 0, 0⟩).max_b_index k).true_max_i⟩

/-- The alignment position `k` has a truncated window of more than one
element. -/
def wide_window (rt : Runtime) (A B : List ℚ) (k : Nat) : Prop :=
  (alignment rt A B k).min_i + 1 < (alignment rt A B k).max_i

/-- The alignment position `k` of `A` counts for the result: its truncated
window has more than one element and its score is positive. -/
def alignment_counts (rt : Runtime) (A B : List ℚ) (k : Nat) : Prop :=
  k < A.length ∧ wide_window rt A B k ∧ 0 < (alignment rt A B k).dot


/-! ## Vocabulary for the statement about the best candidate of a seed -/

/-- The replacement rule of the scan over the candidates of one seed: a
candidate replaces the best one so far when its score is strictly higher. -/
def better (best x : Best) : Best := if x.best_dot > best.best_dot then x else best

/-- The candidates that one charge state contributes, in enumeration order:
one for every path of at least two nodes. -/
def path_candidates (rt : Runtime) (ref : List Peak) (ref_heights : List ℚ) (charge_state : Nat)
    (paths : List (List Nat)) : List Best :=
  (paths.filter (fun path => decide (2 ≤ path.length))).map
    (candidate rt ref ref_heights charge_state)

/-- All candidates of the seed `i` in the order in which they are met: the
charge states in list order, skipping those whose table lookup fails, and for
each of them the paths that `find_all_paths` returns, in enumeration order. -/
def seed_candidates (rt : Runtime) (fuel : Nat) (table : List (ℚ × List ℚ)) (ref : List Peak)
    (i : Nat) : List Nat → List CandidateGraph → Option (List Best)
  | charge_state :: cs, graph :: gs =>
    match find_all_paths fuel graph i with
    | none => none
    | some paths =>
      match lookup_ref_heights table ((peak_of ref i).fitted_mz * (charge_state : ℚ)) with
      | none => seed_candidates rt fuel table ref i cs gs
      | some ref_heights =>
        (seed_candidates rt fuel table ref i cs gs).map
          (fun later => path_candidates rt ref ref_heights charge_state paths ++ later)
  | _, _ => some []


/-! ## Vocabulary for the statements about degenerate totals and the lookup -/

/-- Five peaks one carbon spacing apart from mz 270 on, equal rt, with the
fitted heights 100, -20, -30, -30 and -20, which sum to zero. -/
def zero_sum_peaks : List Peak :=
  [⟨0, 270, 10, 100, 1, 0.01, 1, 0⟩, ⟨1, 271.0033, 10, -20, 1, 0.01, 1, 0⟩,
   ⟨2, 272.0066, 10, -30, 1, 0.01, 1, 0⟩, ⟨3, 273.0099, 10, -30, 1, 0.01, 1, 0⟩,
   ⟨4, 274.0132, 10, -20, 1, 0.01, 1, 0⟩]

/-- The keys of a table are strictly ascending, as the iteration order of a
`std::map` is. -/
def keys_ascending : List (ℚ × List ℚ) → Bool
  | [] => true
  | a :: rest =>
    match rest with
    | [] => true
    | b :: _ => decide (a.1 < b.1) && keys_ascending rest


/-! ## Concrete inputs for the matcher's reads past the end -/

/-- Four peaks one carbon spacing apart from mz 99 on, equal rt, with the
fitted heights 100, 100, 5 and 1. -/
def shoulder_peaks : List Peak :=
  [⟨0, 99, 10, 100, 100, 0.01, 1, 0⟩, ⟨1, 100.0033, 10, 100, 100, 0.01, 1, 0⟩,
   ⟨2, 101.0066, 10, 5, 5, 0.01, 1, 0⟩, ⟨3, 102.0099, 10, 1, 1, 0.01, 1, 0⟩]


/-! ## Vocabulary for the statement about an added charge state 0 -/

/-- The graph has no edge: every successor list is empty. -/
def edgeless (g : CandidateGraph) : Prop :=
  ∀ (a : Nat) (node : CandidateNode), g[a]? = some node → node.nodes = []

/-- The states `st` and `st0` of two runs of the seed loop, the second with one
more charge state at position `k` of the list, agree: same cursor, same
features, and the graphs of `st0` are those of `st` with one edgeless graph of
`n` nodes inserted at position `k`. -/
def same_but_slot (n k : Nat) (st st0 : SeedState) : Prop :=
  st0.i = st.i ∧ st0.features = st.features ∧
  ∃ gpre g0 gpost, st.graphs = gpre ++ gpost ∧ st0.graphs = gpre ++ g0 :: gpost ∧
    gpre.length = k ∧ g0.length = n ∧ edgeless g0


/-! ## `assign_peaks` (`main.cpp`, lines 177-198)

The types `Grid::Peak`, `Grid::Bounds` and `Grid::Parameters` and the helper
`Grid::sigma_rt` are declared in `grid.hpp`, which is not among the sources.
The records below hold the fields that `main.cpp` uses, and the helper is a
parameter of `assign_peaks`. -/

/-- The record `Grid::Peak`: a raw point with its `mz`, `rt` and `value`, of
which `assign_peaks` reads `rt`. -/
structure Grid.Peak where
  mz : ℚ
  rt : ℚ
  value : ℚ
deriving DecidableEq, Inhabited

/-- The record `Grid::Bounds` as `main.cpp` prints it. -/
structure Grid.Bounds where
  min_rt : ℚ
  max_rt : ℚ
  min_mz : ℚ
  max_mz : ℚ
deriving DecidableEq, Inhabited

/-- The part of `Grid::Parameters` that `assign_peaks` reads: the bounds. -/
structure Grid.Parameters where
  bounds : Grid.Bounds
deriving DecidableEq, Inhabited

/-- The loop `for (size_t i = 0; i < all_parameters.size(); ++i)` for one peak,
over the parameter sets from position `i` on and their groups: the peak is
pushed to the first group whose parameters satisfy
`peak.rt + 4 * sigma_rt < parameters.bounds.max_rt` (and the loop breaks), or
to the group of the last parameter set (`i == all_parameters.size() - 1`). -/
def place_peak (sigma_rt : Grid.Parameters → ℚ) (peak : Grid.Peak) :
    List Grid.Parameters → List (List Grid.Peak) → List (List Grid.Peak)
  | [], groups => groups
  | parameters :: rest, groups =>
    match groups with
    | [] => []
    | group :: others =>
      if peak.rt + 4 * sigma_rt parameters < parameters.bounds.max_rt then
        (group ++ [peak]) :: others
      else if rest.isEmpty then (group ++ [peak]) :: others
      else group :: place_peak sigma_rt peak rest others

/-- The function `assign_peaks`: `groups` starts with one empty group per
parameter set, and the peaks are placed one by one in input order. -/
def assign_peaks (sigma_rt : Grid.Parameters → ℚ) (all_parameters : List Grid.Parameters)
    (peaks : List Grid.Peak) : List (List Grid.Peak) :=
  peaks.foldl (fun groups peak => place_peak sigma_rt peak all_parameters groups)
    (List.replicate all_parameters.length [])

/-- The group that the statement about `assign_peaks` names for a peak: the
position of the first parameter set whose `max_rt` exceeds
`peak.rt + 4 * sigma_rt`, otherwise the last position. -/
def group_of (sigma_rt : Grid.Parameters → ℚ) (all_parameters : List Grid.Parameters)
    (peak : Grid.Peak) : Nat :=
  min (all_parameters.findIdx
        (fun parameters => decide (peak.rt + 4 * sigma_rt parameters < parameters.bounds.max_rt)))
    (all_parameters.length - 1)

/-- Two parameter sets with the upper rt bounds 100 and 200. -/
def two_splits : List Grid.Parameters := [⟨⟨0, 100, 0, 1000⟩⟩, ⟨⟨90, 200, 0, 1000⟩⟩]

/-- Four raw points with the retention times 150, 10, 250 and 95. -/
def four_points : List Grid.Peak := [⟨500, 150, 1⟩, ⟨501, 10, 2⟩, ⟨502, 250, 3⟩, ⟨503, 95, 4⟩]


/-! ## `find_all_paths`: soundness -/

theorem is_unvisited_iff (graph : CandidateGraph) (x : Nat) :
    is_unvisited graph x ↔ x < graph.length ∧ node_visited graph x = false := by
  unfold is_unvisited node_visited
  constructor
  · rintro ⟨n, hn, hv⟩
    have hx : x < graph.length := by
      by_contra hc
      rw [List.getElem?_eq_none (by omega)] at hn
      cases hn
    exact ⟨hx, by rw [hn]; exact hv⟩
  · rintro ⟨hx, hv⟩
    rw [List.getElem?_eq_getElem hx] at hv ⊢
    exact ⟨_, rfl, hv⟩

/-- The successor loop pushes exactly the unvisited successors, last one on
top, and leaves `path_finished` set only when there is none. -/
theorem push_successors_eq (graph : CandidateGraph) (curr_path : List Nat) :
    ∀ (nodes : List Nat) (pf : Bool) (stack : List (List Nat)) (r : Bool × List (List Nat)),
      push_successors graph curr_path nodes (pf, stack) = some r →
      r = (pf && nodes.all (node_visited graph),
           ((nodes.filter (fun x => !node_visited graph x)).map
              (fun x => curr_path ++ [x])).reverse ++ stack) ∧
      ∀ x ∈ nodes, x < graph.length := by
  intro nodes
  induction nodes with
  | nil =>
    intro pf stack r h
    simp [push_successors] at h
    subst h
    simp
  | cons node rest ih =>
    intro pf stack r h
    unfold push_successors at h
    cases hg : graph[node]? with
    | none => rw [hg] at h; simp at h
    | some n =>
      rw [hg] at h
      have hlt : node < graph.length := by
        by_contra hc
        rw [List.getElem?_eq_none (by omega)] at hg
        cases hg
      have hnv : node_visited graph node = n.visited := by
        unfold node_visited; rw [hg]
      by_cases hv : n.visited = true
      · simp only [hv, if_true] at h
        obtain ⟨h1, h2⟩ := ih pf stack r h
        refine ⟨?_, ?_⟩
        · rw [h1]; simp [hnv, hv]
        · intro x hx
          rcases List.mem_cons.1 hx with rfl | hx
          · exact hlt
          · exact h2 x hx
      · have hv' : n.visited = false := by simpa using hv
        simp only [hv', Bool.false_eq_true, if_false] at h
        obtain ⟨h1, h2⟩ := ih false _ r h
        refine ⟨?_, ?_⟩
        · rw [h1]; simp [hnv, hv']
        · intro x hx
          rcases List.mem_cons.1 hx with rfl | hx
          · exact hlt
          · exact h2 x hx


/-- The paths waiting on the stack of `find_all_paths`: rooted, edge-connected,
and unvisited up to (not including) their last node. -/
theorem stack_path_extend (graph : CandidateGraph) (root last x : Nat) (p : List Nat)
    (n : CandidateNode) (hhead : p.head? = some root)
    (hchain : List.Chain' (is_successor graph) p)
    (hlast : p.getLast? = some last) (hn : graph[last]? = some n) (hx : x ∈ n.nodes) :
    (p ++ [x]).head? = some root ∧ List.Chain' (is_successor graph) (p ++ [x]) := by
  have hne : p ≠ [] := by
    intro h; subst h; simp at hhead
  refine ⟨?_, ?_⟩
  · cases p with
    | nil => exact absurd rfl hne
    | cons a t => simpa using hhead
  · refine List.Chain'.append hchain (List.chain'_singleton x) ?_
    intro a ha b hb
    rw [hlast] at ha
    simp at ha hb
    subst ha; subst hb
    exact ⟨n, hn, hx⟩

theorem find_all_paths_loop_sound (graph : CandidateGraph) (root : Nat) :
    ∀ (fuel : Nat) (stack paths res : List (List Nat)),
      (∀ p ∈ stack, p.head? = some root ∧ List.Chain' (is_successor graph) p ∧
        ∀ x ∈ p.dropLast, is_unvisited graph x) →
      (∀ p ∈ paths, is_maximal_path graph root p) →
      find_all_paths_loop graph fuel stack paths = some res →
      ∀ p ∈ res, is_maximal_path graph root p := by
  intro fuel
  induction fuel with
  | zero =>
    intro stack paths res _ hp h
    cases stack with
    | nil => simp [find_all_paths_loop] at h; subst h; exact hp
    | cons c s => simp [find_all_paths_loop] at h
  | succ fuel ih =>
    intro stack paths res hs hp h
    cases stack with
    | nil => simp [find_all_paths_loop] at h; subst h; exact hp
    | cons curr_path stack =>
      have hc := hs curr_path (List.mem_cons_self _ _)
      have hs' : ∀ p ∈ stack, p.head? = some root ∧ List.Chain' (is_successor graph) p ∧
          ∀ x ∈ p.dropLast, is_unvisited graph x :=
        fun p hp' => hs p (List.mem_cons_of_mem _ hp')
      unfold find_all_paths_loop at h
      cases hl : curr_path.getLast? with
      | none => rw [hl] at h; simp at h
      | some last =>
        rw [hl] at h
        simp only at h
        cases hg : graph[last]? with
        | none => rw [hg] at h; simp at h
        | some root_node =>
          rw [hg] at h
          simp only at h
          by_cases hv : root_node.visited = true
          · simp only [hv, if_true] at h
            exact ih stack paths res hs' hp h
          · have hv' : root_node.visited = false := by simpa using hv
            simp only [hv', Bool.false_eq_true, if_false] at h
            cases hpush : push_successors graph curr_path root_node.nodes (true, stack) with
            | none => rw [hpush] at h; simp at h
            | some r =>
              rw [hpush] at h
              obtain ⟨hr, _⟩ := push_successors_eq graph curr_path _ _ _ _ hpush
              obtain ⟨pf, stack'⟩ := r
              simp only [Prod.mk.injEq] at hr
              obtain ⟨hpf, hst⟩ := hr
              have hall : ∀ x ∈ curr_path, is_unvisited graph x := by
                intro x hx
                rw [← List.dropLast_append_getLast? last hl] at hx
                rcases List.mem_append.1 hx with hx | hx
                · exact hc.2.2 x hx
                · simp at hx; subst hx; exact ⟨root_node, hg, hv'⟩
              have hstack' : ∀ p ∈ stack', p.head? = some root ∧
                  List.Chain' (is_successor graph) p ∧
                  ∀ x ∈ p.dropLast, is_unvisited graph x := by
                intro p hp'
                rw [hst] at hp'
                rcases List.mem_append.1 hp' with hp' | hp'
                · simp only [List.mem_reverse, List.mem_map, List.mem_filter] at hp'
                  obtain ⟨x, ⟨hx, _⟩, rfl⟩ := hp'
                  obtain ⟨h1, h2⟩ := stack_path_extend graph root last x curr_path root_node
                    hc.1 hc.2.1 hl hg hx
                  refine ⟨h1, h2, ?_⟩
                  intro y hy
                  rw [List.dropLast_concat] at hy
                  exact hall y hy
                · exact hs' p hp'
              simp only at h
              by_cases hfin : pf = true
              · simp only [hfin, if_true] at h
                refine ih stack' _ res hstack' ?_ h
                intro p hp'
                rcases List.mem_append.1 hp' with hp' | hp'
                · exact hp p hp'
                · simp at hp'; subst hp'
                  refine ⟨hc.1, hc.2.1, hall, last, hl, ?_⟩
                  rintro j ⟨n, hn, hj⟩ hun
                  rw [hg] at hn
                  cases hn
                  rw [hfin] at hpf
                  have := (is_unvisited_iff graph j).1 hun
                  simp only [Bool.true_and] at hpf
                  have hall' := List.all_eq_true.1 hpf.symm j hj
                  rw [this.2] at hall'
                  cases hall'
              · have hfin' : pf = false := by simpa using hfin
                simp only [hfin', Bool.false_eq_true, if_false] at h
                exact ih stack' paths res hstack' hp h

/-- Every path returned by `find_all_paths` is a maximal unvisited path from
the root. -/
theorem find_all_paths_maximal (fuel : Nat) (graph : CandidateGraph) (root : Nat)
    (paths : List (List Nat)) (h : find_all_paths fuel graph root = some paths) :
    ∀ p ∈ paths, is_maximal_path graph root p :=
  find_all_paths_loop_sound graph root fuel [[root]] [] paths
    (by
      intro q hq
      simp at hq
      subst hq
      simp)
    (by intro q hq; cases hq) h

/-- C10. Path enumerator soundness: every path returned by `find_all_paths`
starts with the root (so it is non-empty), has each element among the
successors of the element before it, contains only nodes whose visited flag is
false, and ends in a node with no unvisited successor; if the root is visited
the result is empty. -/
theorem find_all_paths_sound (fuel : Nat) (graph : CandidateGraph) (root : Nat)
    (paths : List (List Nat)) (h : find_all_paths fuel graph root = some paths) :
    (∀ p ∈ paths, p ≠ [] ∧ p.head? = some root ∧ List.Chain' (is_successor graph) p ∧
      (∀ x ∈ p, is_unvisited graph x) ∧
      ∃ last, p.getLast? = some last ∧
        ∀ j, is_successor graph last j → ¬ is_unvisited graph j) ∧
    ((∃ n, graph[root]? = some n ∧ n.visited = true) → paths = []) := by
  refine ⟨?_, ?_⟩
  · intro p hp
    have hmax := find_all_paths_maximal fuel graph root paths h p hp
    refine ⟨?_, hmax⟩
    intro he
    subst he
    have := hmax.1
    simp at this
  · rintro ⟨n, hn, hv⟩
    unfold find_all_paths at h
    cases fuel with
    | zero => simp [find_all_paths_loop] at h
    | succ fuel =>
      unfold find_all_paths_loop at h
      simp only [List.getLast?_singleton, hn, hv, if_true] at h
      cases fuel <;> simp [find_all_paths_loop] at h <;> exact h

set_option maxRecDepth 100000 in
/-- C10 (witness): on the three-node chain `0 → 1 → 2` with node 2 visited the
enumerator returns the single path `[0, 1]`, and the soundness theorem applies. -/
theorem find_all_paths_sound_witness :
    find_all_paths 5 [⟨7, false, [1]⟩, ⟨8, false, [2]⟩, ⟨9, true, []⟩] 0 = some [[0, 1]] ∧
    ((∀ p ∈ [[0, 1]], p ≠ [] ∧ p.head? = some 0 ∧
      List.Chain' (is_successor [⟨7, false, [1]⟩, ⟨8, false, [2]⟩, ⟨9, true, []⟩]) p ∧
      (∀ x ∈ p, is_unvisited [⟨7, false, [1]⟩, ⟨8, false, [2]⟩, ⟨9, true, []⟩] x) ∧
      ∃ last, p.getLast? = some last ∧
        ∀ j, is_successor [⟨7, false, [1]⟩, ⟨8, false, [2]⟩, ⟨9, true, []⟩] last j →
          ¬ is_unvisited [⟨7, false, [1]⟩, ⟨8, false, [2]⟩, ⟨9, true, []⟩] j) ∧
    ((∃ n, ([⟨7, false, [1]⟩, ⟨8, false, [2]⟩, ⟨9, true, []⟩] : CandidateGraph)[0]? = some n ∧
      n.visited = true) → ([[0, 1]] : List (List Nat)) = [])) :=
  ⟨by decide, find_all_paths_sound 5 _ 0 _ (by decide)⟩


/-! ## The matcher: what a returned window guarantees -/

theorem fabs_eq_abs (x : ℚ) : fabs x = |x| := by
  unfold fabs
  split
  · next h => rw [abs_of_neg h]
  · next h => rw [abs_of_nonneg (not_lt.1 h)]

theorem vec_at_of_lt (rt : Runtime) (v : List ℚ) (i : Nat) (h : i < v.length) :
    v[i]? = some (vec_at rt v i) := by
  unfold vec_at
  rw [List.getElem?_eq_getElem h]

theorem scan_b_index (B : List ℚ) :
    ∀ (i : Nat) (s : ScanB),
      (scan_b B i s).max_b_index = s.max_b_index ∨
      (i ≤ (scan_b B i s).max_b_index ∧ (scan_b B i s).max_b_index < i + B.length) := by
  induction B with
  | nil => intro i s; left; rfl
  | cons b rest ih =>
    intro i s
    unfold scan_b
    rcases ih (i + 1) _ with h | h
    · rw [h]
      by_cases hb : b > s.max_b
      · right; simp [hb]
      · left; simp [hb]
    · right
      simp only [List.length_cons]
      omega

theorem max_b_index_lt (B : List ℚ) (h : 0 < B.length) : max_b_index_of B < B.length := by
  unfold max_b_index_of
  rcases scan_b_index B 0 ⟨0, 0, 0⟩ with h' | h'
  · rw [h']; exact h
  · omega

/-- The left walk leaves `true_max_i` alone; it either checks every step and
leaves `true_min_i` alone, or stops at a step `t` and sets `true_min_i` just
above the index read there, having accepted all steps before `t`. -/
theorem center_left_spec (rt : Runtime) (A B : List ℚ) (min_i min_j k : Nat) :
    ∀ (n i : Nat) (w : Walk),
      (center_left rt A B min_i min_j k n i w).true_max_i = w.true_max_i ∧
      (((center_left rt A B min_i min_j k n i w).true_min_i = w.true_min_i ∧
          ∀ t, i ≤ t → t < i + n →
            within_tolerance rt A B k (min_i + k - t) (min_j + k - t)) ∨
        ∃ t, i ≤ t ∧ t < i + n ∧
          (center_left rt A B min_i min_j k n i w).true_min_i = min_i + k - t + 1 ∧
          ∀ t', i ≤ t' → t' < t →
            within_tolerance rt A B k (min_i + k - t') (min_j + k - t')) := by
  intro n
  induction n with
  | zero =>
    intro i w
    refine ⟨rfl, Or.inl ⟨rfl, ?_⟩⟩
    intro t h1 h2
    omega
  | succ n ih =>
    intro i w
    unfold center_left
    simp only
    by_cases hbrk : fabs (vec_at rt A (min_i + k - i) / vec_at rt A k
        - vec_at rt B (min_j + k - i) / 100) ≥ 0.35
    · rw [if_pos hbrk]
      refine ⟨rfl, Or.inr ⟨i, le_refl _, by omega, rfl, ?_⟩⟩
      intro t' h1 h2
      omega
    · rw [if_neg hbrk]
      obtain ⟨h1, h2⟩ := ih (i + 1)
        { w with norm_a := w.norm_a + vec_at rt A (min_i + k - i) * vec_at rt A (min_i + k - i)
                   * vec_at rt B (min_j + k - i),
                 dot := w.dot + vec_at rt A (min_i + k - i) * vec_at rt B (min_j + k - i)
                   * vec_at rt B (min_j + k - i) }
      refine ⟨h1, ?_⟩
      rcases h2 with ⟨h3, h4⟩ | ⟨t, ht1, ht2, ht3, ht4⟩
      · refine Or.inl ⟨h3, ?_⟩
        intro t ht1 ht2
        by_cases hti : t = i
        · subst hti; exact hbrk
        · exact h4 t (by omega) (by omega)
      · refine Or.inr ⟨t, by omega, by omega, ht3, ?_⟩
        intro t' ht1' ht2'
        by_cases hti : t' = i
        · subst hti; exact hbrk
        · exact ht4 t' (by omega) ht2'

/-- The right walk leaves `true_min_i` alone; it either checks every step and
leaves `true_max_i` alone, or stops at a step `t` and sets `true_max_i = t`,
having accepted all steps before `t`. -/
theorem center_right_spec (rt : Runtime) (A B : List ℚ) (min_i min_j k : Nat) :
    ∀ (n i : Nat) (w : Walk),
      (center_right rt A B min_i min_j k n i w).true_min_i = w.true_min_i ∧
      (((center_right rt A B min_i min_j k n i w).true_max_i = w.true_max_i ∧
          ∀ t, i ≤ t → t < i + n → within_tolerance rt A B k (min_i + t) (min_j + t)) ∨
        ∃ t, i ≤ t ∧ t < i + n ∧
          (center_right rt A B min_i min_j k n i w).true_max_i = t ∧
          ∀ t', i ≤ t' → t' < t → within_tolerance rt A B k (min_i + t') (min_j + t')) := by
  intro n
  induction n with
  | zero =>
    intro i w
    refine ⟨rfl, Or.inl ⟨rfl, ?_⟩⟩
    intro t h1 h2
    omega
  | succ n ih =>
    intro i w
    unfold center_right
    simp only
    by_cases hbrk : fabs (vec_at rt A (min_i + i) / vec_at rt A k
        - vec_at rt B (min_j + i) / 100) ≥ 0.35
    · rw [if_pos hbrk]
      refine ⟨rfl, Or.inr ⟨i, le_refl _, by omega, rfl, ?_⟩⟩
      intro t' h1 h2
      omega
    · rw [if_neg hbrk]
      obtain ⟨h1, h2⟩ := ih (i + 1)
        { w with norm_a := w.norm_a + vec_at rt A (min_i + i) * vec_at rt A (min_i + i)
                   * vec_at rt B (min_j + i),
                 dot := w.dot + vec_at rt A (min_i + i) * vec_at rt B (min_j + i)
                   * vec_at rt B (min_j + i) }
      refine ⟨h1, ?_⟩
      rcases h2 with ⟨h3, h4⟩ | ⟨t, ht1, ht2, ht3, ht4⟩
      · refine Or.inl ⟨h3, ?_⟩
        intro t ht1 ht2
        by_cases hti : t = i
        · subst hti; exact hbrk
        · exact h4 t (by omega) (by omega)
      · refine Or.inr ⟨t, by omega, by omega, ht3, ?_⟩
        intro t' ht1' ht2'
        by_cases hti : t' = i
        · subst hti; exact hbrk
        · exact ht4 t' (by omega) ht2'


theorem within_tolerance_congr (rt : Runtime) (A B : List ℚ) (k : Nat) {ia ib ia' ib' : Nat}
    (h : within_tolerance rt A B k ia ib) (ha : ia = ia') (hb : ib = ib') :
    within_tolerance rt A B k ia' ib' := by
  subst ha; subst hb; exact h

/-- The window left by the two walks of alignment `k` lies inside `A`, and
every index `p` in it was compared with `B[max_b_index + p - k]` and accepted. -/
theorem roll_walk_window (rt : Runtime) (A B : List ℚ) (m k : Nat) (hk : k < A.length)
    (hm : m < B.length) :
    (roll_walk rt A B m k).true_max_i ≤ A.length ∧
    ∀ p, (roll_walk rt A B m k).true_min_i ≤ p → p < (roll_walk rt A B m k).true_max_i →
      k ≤ m + p ∧ m + p - k < B.length ∧ within_tolerance rt A B k p (m + p - k) := by
  unfold roll_walk
  simp only
  generalize hmin_i : (if k < m then 0 else k - m) = min_i
  generalize hmin_j : (if k < m then m - k else 0) = min_j
  generalize hmax_i : min A.length (B.length - m + k) = max_i
  have hmax1 : max_i ≤ A.length := by rw [← hmax_i]; exact Nat.min_le_left _ _
  have hmax2 : max_i ≤ B.length - m + k := by rw [← hmax_i]; exact Nat.min_le_right _ _
  have hmax3 : k < max_i := by
    rw [← hmax_i]; exact lt_min hk (by omega)
  have hij : min_i + m = min_j + k ∧ min_i ≤ k := by
    by_cases hkm : k < m
    · simp only [hkm, if_true] at hmin_i hmin_j
      omega
    · simp only [hkm, if_false] at hmin_i hmin_j
      omega
  obtain ⟨hl1, hl2⟩ := center_left_spec rt A B min_i min_j k k 1 ⟨0, 0, min_i, max_i⟩
  obtain ⟨hr1, hr2⟩ := center_right_spec rt A B min_i min_j k (min_i + (max_i - min_i) - k) k
    (center_left rt A B min_i min_j k k 1 ⟨0, 0, min_i, max_i⟩)
  simp only at hl1 hl2
  rw [hr1]
  refine ⟨?_, ?_⟩
  · rcases hr2 with ⟨h, _⟩ | ⟨t, _, ht2, h, _⟩
    · rw [h, hl1]; exact hmax1
    · rw [h]; omega
  · intro p hp1 hp2
    have hupper : (center_right rt A B min_i min_j k (min_i + (max_i - min_i) - k) k
        (center_left rt A B min_i min_j k k 1 ⟨0, 0, min_i, max_i⟩)).true_max_i ≤ max_i := by
      rcases hr2 with ⟨h, _⟩ | ⟨t, _, ht2, h, _⟩
      · rw [h, hl1]
      · rw [h]; omega
    have hlower : min_i ≤
        (center_left rt A B min_i min_j k k 1 ⟨0, 0, min_i, max_i⟩).true_min_i := by
      rcases hl2 with ⟨h, _⟩ | ⟨t, _, ht2, h, _⟩
      · rw [h]
      · rw [h]; omega
    have hpm : p < max_i := lt_of_lt_of_le hp2 hupper
    have hpl : min_i ≤ p := le_trans hlower hp1
    refine ⟨by clear hl2 hr2; omega, by clear hl2 hr2; omega, ?_⟩
    by_cases hside : p < min_i + k
    · -- checked by the left walk at step `min_i + k - p`
      have hstep : within_tolerance rt A B k (min_i + k - (min_i + k - p))
          (min_j + k - (min_i + k - p)) := by
        rcases hl2 with ⟨_, h⟩ | ⟨t, ht1, ht2, h, h'⟩
        · exact h (min_i + k - p) (by omega) (by omega)
        · rw [h] at hp1
          exact h' (min_i + k - p) (by omega) (by omega)
      exact within_tolerance_congr rt A B k hstep (by omega) (by omega)
    · -- checked by the right walk at step `p - min_i`
      have hstep : within_tolerance rt A B k (min_i + (p - min_i)) (min_j + (p - min_i)) := by
        rcases hr2 with ⟨_, h⟩ | ⟨t, ht1, ht2, h, h'⟩
        · exact h (p - min_i) (by omega) (by omega)
        · rw [h] at hp2
          exact h' (p - min_i) (by omega) (by omega)
      exact within_tolerance_congr rt A B k hstep (by omega) (by omega)

/-- The best alignment after some cycles is the one it started from, or comes
from a cycle `k` whose window has more than one element and whose score beat it. -/
theorem roll_loop_cases (rt : Runtime) (A B : List ℚ) (norm_b : ℚ) (m : Nat) :
    ∀ (n k : Nat) (best : OptimalPath),
      (roll_loop rt A B norm_b m n k best = best ∨
        ∃ k', k ≤ k' ∧ k' < k + n ∧
          roll_loop rt A B norm_b m n k best =
            ⟨roll_dot rt norm_b (roll_walk rt A B m k'),
             (roll_walk rt A B m k').true_min_i, (roll_walk rt A B m k').true_max_i⟩ ∧
          (roll_walk rt A B m k').true_min_i + 1 < (roll_walk rt A B m k').true_max_i ∧
          best.dot < roll_dot rt norm_b (roll_walk rt A B m k')) ∧
      best.dot ≤ (roll_loop rt A B norm_b m n k best).dot := by
  intro n
  induction n with
  | zero => intro k best; exact ⟨Or.inl rfl, le_refl _⟩
  | succ n ih =>
    intro k best
    unfold roll_loop
    obtain ⟨h1, h2⟩ := ih (k + 1) (roll_step rt A B norm_b m k best)
    have hstep : (roll_step rt A B norm_b m k best = best) ∨
        (roll_step rt A B norm_b m k best =
            ⟨roll_dot rt norm_b (roll_walk rt A B m k),
             (roll_walk rt A B m k).true_min_i, (roll_walk rt A B m k).true_max_i⟩ ∧
          (roll_walk rt A B m k).true_min_i + 1 < (roll_walk rt A B m k).true_max_i ∧
          best.dot < roll_dot rt norm_b (roll_walk rt A B m k)) := by
      unfold roll_step
      simp only
      split
      · next hc =>
        right
        refine ⟨rfl, ?_, hc.1⟩
        have := hc.2.2
        omega
      · left; rfl
    have hmono : best.dot ≤ (roll_step rt A B norm_b m k best).dot := by
      rcases hstep with h | ⟨h, _, h'⟩
      · rw [h]
      · rw [h]; exact le_of_lt h'
    refine ⟨?_, le_trans hmono h2⟩
    rcases h1 with h1 | ⟨k', hk1, hk2, hk3, hk4, hk5⟩
    · rw [h1]
      rcases hstep with h | ⟨h, h', h''⟩
      · left; exact h
      · right; exact ⟨k, le_refl _, by omega, h, h', h''⟩
    · right
      exact ⟨k', by omega, by omega, hk3, hk4, lt_of_le_of_lt hmono hk5⟩

/-- A non-empty window returned by the matcher is the window of one alignment
`k < |A|`, has more than one element and comes with a positive score. -/
theorem rolling_window_origin (rt : Runtime) (A B : List ℚ)
    (h : (rolling_weighted_cosine_sim rt A B).min_i < (rolling_weighted_cosine_sim rt A B).max_i) :
    2 ≤ A.length ∧ 2 ≤ B.length ∧
    ∃ k, k < A.length ∧
      (rolling_weighted_cosine_sim rt A B).min_i = (roll_walk rt A B (max_b_index_of B) k).true_min_i ∧
      (rolling_weighted_cosine_sim rt A B).max_i = (roll_walk rt A B (max_b_index_of B) k).true_max_i ∧
      (rolling_weighted_cosine_sim rt A B).min_i + 1 < (rolling_weighted_cosine_sim rt A B).max_i ∧
      0 < (rolling_weighted_cosine_sim rt A B).dot := by
  unfold rolling_weighted_cosine_sim at h ⊢
  by_cases hlen : A.length < 2 ∨ B.length < 2
  · rw [if_pos hlen] at h; simp at h
  · rw [if_neg hlen] at h ⊢
    simp only at h ⊢
    have hA : 2 ≤ A.length := by omega
    have hB : 2 ≤ B.length := by omega
    refine ⟨hA, hB, ?_⟩
    split at h
    · simp at h
    · next hsz =>
      rw [if_neg hsz]
      obtain ⟨hc, _⟩ := roll_loop_cases rt A B (rt.sqrt (scan_b B 0 ⟨0, 0, 0⟩).norm_b)
        (scan_b B 0 ⟨0, 0, 0⟩).max_b_index A.length 0 ⟨0, 0, 0⟩
      rcases hc with hc | ⟨k, _, hk2, hk3, hk4, hk5⟩
      · rw [hc] at h; simp at h
      · refine ⟨k, by omega, ?_⟩
        rw [hk3]
        exact ⟨rfl, rfl, hk4, hk5⟩


theorem rolling_window_checked (rt : Runtime) (A B : List ℚ)
    (h : (rolling_weighted_cosine_sim rt A B).min_i < (rolling_weighted_cosine_sim rt A B).max_i) :
    (rolling_weighted_cosine_sim rt A B).min_i + 1 < (rolling_weighted_cosine_sim rt A B).max_i ∧
    (rolling_weighted_cosine_sim rt A B).max_i ≤ A.length ∧
    ∃ k, k < A.length ∧
      ∀ p, (rolling_weighted_cosine_sim rt A B).min_i ≤ p →
        p < (rolling_weighted_cosine_sim rt A B).max_i →
        k ≤ max_b_index_of B + p ∧ max_b_index_of B + p - k < B.length ∧
        within_tolerance rt A B k p (max_b_index_of B + p - k) := by
  obtain ⟨_, hB, k, hk, h1, h2, h3, _⟩ := rolling_window_origin rt A B h
  obtain ⟨hw1, hw2⟩ := roll_walk_window rt A B (max_b_index_of B) k hk
    (max_b_index_lt B (by omega))
  refine ⟨h3, by rw [h2]; exact hw1, k, hk, ?_⟩
  intro p hp1 hp2
  rw [h1] at hp1
  rw [h2] at hp2
  exact hw2 p hp1 hp2

/-- The scan of `B` keeps the larger of the running maximum and the entries of
`B`; when an entry beats the running maximum, `max_b_index` is the position of
the first entry that attains the new maximum. -/
theorem scan_b_max (B : List ℚ) :
    ∀ (i : Nat) (s : ScanB),
      s.max_b ≤ (scan_b B i s).max_b ∧ (∀ b ∈ B, b ≤ (scan_b B i s).max_b) ∧
      (((scan_b B i s).max_b = s.max_b ∧ (scan_b B i s).max_b_index = s.max_b_index) ∨
        ∃ j, (scan_b B i s).max_b_index = i + j ∧ B[j]? = some (scan_b B i s).max_b ∧
          s.max_b < (scan_b B i s).max_b ∧
          ∀ j', j' < j → ∀ b, B[j']? = some b → b < (scan_b B i s).max_b) := by
  induction B with
  | nil =>
    intro i s
    exact ⟨le_refl _, by simp, Or.inl ⟨rfl, rfl⟩⟩
  | cons b rest ih =>
    intro i s
    unfold scan_b
    by_cases hb : b > s.max_b
    · simp only [hb, if_true]
      obtain ⟨h1, h2, h3⟩ := ih (i + 1) ⟨s.norm_b + b * b * b, b, i⟩
      simp only at h1 h3
      refine ⟨le_trans (le_of_lt hb) h1, ?_, Or.inr ?_⟩
      · intro x hx
        rcases List.mem_cons.1 hx with rfl | hx
        · exact h1
        · exact h2 x hx
      · rcases h3 with ⟨h3, h4⟩ | ⟨j, hj1, hj2, hj3, hj4⟩
        · refine ⟨0, by rw [h4]; rfl, by rw [h3]; simp, by rw [h3]; exact hb, ?_⟩
          intro j' hj'
          omega
        · refine ⟨j + 1, by rw [hj1]; omega, by simpa using hj2, lt_trans hb hj3, ?_⟩
          intro j' hj' x hx
          cases j' with
          | zero =>
            simp only [List.getElem?_cons_zero, Option.some.injEq] at hx
            rw [← hx]; exact hj3
          | succ j' =>
            simp only [List.getElem?_cons_succ] at hx
            exact hj4 j' (by omega) x hx
    · simp only [hb, if_false]
      obtain ⟨h1, h2, h3⟩ := ih (i + 1) ⟨s.norm_b + b * b * b, s.max_b, s.max_b_index⟩
      simp only at h1 h3
      refine ⟨h1, ?_, ?_⟩
      · intro x hx
        rcases List.mem_cons.1 hx with rfl | hx
        · exact le_trans (not_lt.1 hb) h1
        · exact h2 x hx
      · rcases h3 with h3 | ⟨j, hj1, hj2, hj3, hj4⟩
        · exact Or.inl h3
        · refine Or.inr ⟨j + 1, by rw [hj1]; omega, by simpa using hj2, hj3, ?_⟩
          intro j' hj' x hx
          cases j' with
          | zero =>
            simp only [List.getElem?_cons_zero, Option.some.injEq] at hx
            rw [← hx]; exact lt_of_le_of_lt (not_lt.1 hb) hj3
          | succ j' =>
            simp only [List.getElem?_cons_succ] at hx
            exact hj4 j' (by omega) x hx

/-- When `B` has a positive entry, `max_b_index` is the position of the first
maximum of `B`. -/
theorem max_b_index_first_max (B : List ℚ) (hpos : ∃ b ∈ B, 0 < b) :
    ∃ mx, B[max_b_index_of B]? = some mx ∧ (∀ b ∈ B, b ≤ mx) ∧
      ∀ j, j < max_b_index_of B → ∀ b, B[j]? = some b → b < mx := by
  obtain ⟨b0, hb0, hb0pos⟩ := hpos
  obtain ⟨_, h2, h3⟩ := scan_b_max B 0 ⟨0, 0, 0⟩
  unfold max_b_index_of
  rcases h3 with ⟨h3, _⟩ | ⟨j, hj1, hj2, _, hj4⟩
  · have := h2 b0 hb0
    rw [h3] at this
    simp only at this
    exact absurd hb0pos (not_lt.2 this)
  · refine ⟨_, ?_, h2, ?_⟩
    · rw [hj1, Nat.zero_add]; exact hj2
    · intro j' hj' b hb
      rw [hj1, Nat.zero_add] at hj'
      exact hj4 j' hj' b hb

/-- C7. Similarity pruning: when `rolling_weighted_cosine_sim` returns a
non-empty window `[min_i, max_i)` there is an alignment position `k` in `A` such
that every index `i` of the window satisfies
`|A[i]/A[k] - B[max_b_index + i - k]/100| < 0.35`, all three reads being inside
the vectors; `max_b_index` is the position of the first maximum of `B` as soon
as `B` has a positive entry; and for `A = [100, 200, 202]`, `B = [100, 50, 25]`
the returned window has at most 2 elements and does not contain index 2,
whatever the runtime. -/
theorem rolling_window_within_tolerance (rt : Runtime) (A B : List ℚ) :
    ((rolling_weighted_cosine_sim rt A B).min_i < (rolling_weighted_cosine_sim rt A B).max_i →
      ∃ k ak, A[k]? = some ak ∧
        ∀ i, (rolling_weighted_cosine_sim rt A B).min_i ≤ i →
          i < (rolling_weighted_cosine_sim rt A B).max_i →
          ∃ a b, A[i]? = some a ∧ k ≤ max_b_index_of B + i ∧
            B[max_b_index_of B + i - k]? = some b ∧ |a / ak - b / 100| < 0.35) ∧
    ((∃ b ∈ B, 0 < b) →
      ∃ mx, B[max_b_index_of B]? = some mx ∧ (∀ b ∈ B, b ≤ mx) ∧
        ∀ j, j < max_b_index_of B → ∀ b, B[j]? = some b → b < mx) ∧
    ((rolling_weighted_cosine_sim rt [100, 200, 202] [100, 50, 25]).max_i
        - (rolling_weighted_cosine_sim rt [100, 200, 202] [100, 50, 25]).min_i ≤ 2 ∧
      ¬ ((rolling_weighted_cosine_sim rt [100, 200, 202] [100, 50, 25]).min_i ≤ 2 ∧
          2 < (rolling_weighted_cosine_sim rt [100, 200, 202] [100, 50, 25]).max_i)) := by
  refine ⟨?_, max_b_index_first_max B, ?_⟩
  · intro h
    obtain ⟨_, hmax, k, hk, hw⟩ := rolling_window_checked rt A B h
    refine ⟨k, vec_at rt A k, vec_at_of_lt rt A k hk, ?_⟩
    intro i hi1 hi2
    obtain ⟨h1, h2, h3⟩ := hw i hi1 hi2
    refine ⟨vec_at rt A i, vec_at rt B (max_b_index_of B + i - k),
      vec_at_of_lt rt A i (by omega), h1, vec_at_of_lt rt B _ h2, ?_⟩
    unfold within_tolerance at h3
    rw [fabs_eq_abs] at h3
    exact not_le.1 h3
  · have hempty : ¬ ((rolling_weighted_cosine_sim rt [100, 200, 202] [100, 50, 25]).min_i
        < (rolling_weighted_cosine_sim rt [100, 200, 202] [100, 50, 25]).max_i) := by
      intro h
      obtain ⟨hsz, hmax, k, hk, hw⟩ := rolling_window_checked rt _ _ h
      have hm : max_b_index_of [100, 50, 25] = 0 := by
        simp only [max_b_index_of, scan_b]
        norm_num
      rw [hm] at hw
      simp only [List.length_cons, List.length_nil] at hmax hk
      obtain ⟨h1, _, h3⟩ := hw 1 (by omega) (by omega)
      have hk01 : k = 0 ∨ k = 1 := by omega
      rcases hk01 with rfl | rfl
      · apply h3
        simp only [vec_at, fabs]
        norm_num
      · obtain ⟨h1', _⟩ := hw _ (le_refl _) h
        obtain ⟨_, _, h3'⟩ := hw 2 (by omega) (by omega)
        apply h3'
        simp only [vec_at, fabs]
        norm_num
    omega

set_option maxRecDepth 100000 in
/-- C7 (witness): on `A = [100, 28]` and the envelope `[100, 28.48, 5.02]` the
matcher returns the non-empty window `[0, 2)`, to which the pruning theorem
applies. -/
theorem rolling_window_within_tolerance_witness :
    (rolling_weighted_cosine_sim zero_runtime [100, 28] [100, 28.48, 5.02]).min_i = 0 ∧
    (rolling_weighted_cosine_sim zero_runtime [100, 28] [100, 28.48, 5.02]).max_i = 2 ∧
    ∃ k ak, ([100, 28] : List ℚ)[k]? = some ak ∧
      ∀ i, (rolling_weighted_cosine_sim zero_runtime [100, 28] [100, 28.48, 5.02]).min_i ≤ i →
        i < (rolling_weighted_cosine_sim zero_runtime [100, 28] [100, 28.48, 5.02]).max_i →
        ∃ a b, ([100, 28] : List ℚ)[i]? = some a ∧
          k ≤ max_b_index_of [100, 28.48, 5.02] + i ∧
          ([100, 28.48, 5.02] : List ℚ)[max_b_index_of [100, 28.48, 5.02] + i - k]? = some b ∧
          |a / ak - b / 100| < 0.35 :=
  ⟨by decide!, by decide!,
    (rolling_window_within_tolerance zero_runtime [100, 28] [100, 28.48, 5.02]).1 (by decide!)⟩


/-! ## Candidate graphs: construction and marking -/

theorem scan_successors_bounds (min_mz max_mz min_rt max_rt : ℚ) :
    ∀ (l : List Peak) (j : Nat),
      (scan_successors min_mz max_mz min_rt max_rt l j).length ≤ l.length ∧
      ∀ x ∈ scan_successors min_mz max_mz min_rt max_rt l j, j ≤ x ∧ x < j + l.length := by
  intro l
  induction l with
  | nil => intro j; simp [scan_successors]
  | cons p rest ih =>
    intro j
    obtain ⟨h1, h2⟩ := ih (j + 1)
    unfold scan_successors
    split
    · simp
    · split
      · refine ⟨by simp only [List.length_cons]; omega, ?_⟩
        intro x hx
        rcases List.mem_cons.1 hx with rfl | hx
        · simp only [List.length_cons]; omega
        · have := h2 x hx
          simp only [List.length_cons]; omega
      · refine ⟨by simp only [List.length_cons]; omega, ?_⟩
        intro x hx
        have := h2 x hx
        simp only [List.length_cons]; omega

theorem build_node_bounds (c i : Nat) (p : Peak) (rest : List Peak) :
    (build_node c i p rest).visited = false ∧ (build_node c i p rest).id = p.id ∧
    (build_node c i p rest).nodes.length ≤ rest.length ∧
    ∀ b ∈ (build_node c i p rest).nodes, i < b ∧ b < i + 1 + rest.length := by
  unfold build_node
  simp only
  split
  · simp
  · refine ⟨rfl, rfl, (scan_successors_bounds _ _ _ _ rest (i + 1)).1, ?_⟩
    intro b hb
    have := (scan_successors_bounds _ _ _ _ rest (i + 1)).2 b hb
    omega

theorem build_graph_spec (c : Nat) :
    ∀ (l : List Peak) (i : Nat),
      (build_graph c l i).length = l.length ∧
      ∀ a node, (build_graph c l i)[a]? = some node →
        node.visited = false ∧ node.nodes.length ≤ l.length ∧
        ∀ b ∈ node.nodes, i + a < b ∧ b < i + l.length := by
  intro l
  induction l with
  | nil => intro i; simp [build_graph]
  | cons p rest ih =>
    intro i
    obtain ⟨h1, h2⟩ := ih (i + 1)
    unfold build_graph
    refine ⟨by simp [h1], ?_⟩
    intro a node ha
    cases a with
    | zero =>
      simp only [List.getElem?_cons_zero, Option.some.injEq] at ha
      subst ha
      obtain ⟨hv, _, hl, hb⟩ := build_node_bounds c i p rest
      refine ⟨hv, by simp only [List.length_cons]; omega, ?_⟩
      intro b hb'
      have := hb b hb'
      simp only [List.length_cons]; omega
    | succ a =>
      simp only [List.getElem?_cons_succ] at ha
      obtain ⟨hv, hl, hb⟩ := h2 a node ha
      refine ⟨hv, by simp only [List.length_cons]; omega, ?_⟩
      intro b hb'
      have := hb b hb'
      simp only [List.length_cons]; omega

theorem build_graph_ok (c : Nat) (ref : List Peak) : graph_ok ref.length (build_graph c ref 0) := by
  obtain ⟨h1, h2⟩ := build_graph_spec c ref 0
  refine ⟨h1, ?_⟩
  intro a node ha
  obtain ⟨_, hl, hb⟩ := h2 a node ha
  refine ⟨hl, ?_⟩
  intro b hb'
  have := hb b hb'
  omega

theorem build_graph_unvisited (c : Nat) (ref : List Peak) (a : Nat) :
    node_visited (build_graph c ref 0) a = false := by
  unfold node_visited
  cases h : (build_graph c ref 0)[a]? with
  | none => rfl
  | some node => exact ((build_graph_spec c ref 0).2 a node h).1

theorem set_visited_getElem? :
    ∀ (g : CandidateGraph) (x a : Nat),
      (set_visited g x)[a]? =
        (g[a]?).map (fun n => if a = x then { n with visited := true } else n) := by
  intro g
  induction g with
  | nil => intro x a; simp [set_visited]
  | cons n g ih =>
    intro x a
    cases x with
    | zero =>
      cases a with
      | zero => simp [set_visited]
      | succ a => simp [set_visited]
    | succ x =>
      cases a with
      | zero => simp [set_visited]
      | succ a =>
        simp only [set_visited, List.getElem?_cons_succ, ih x a]
        simp

theorem mark_nodes_getElem? (path : List Nat) :
    ∀ (g : CandidateGraph) (a : Nat),
      (mark_nodes g path)[a]? =
        (g[a]?).map (fun n => if a ∈ path then { n with visited := true } else n) := by
  induction path with
  | nil => intro g a; simp [mark_nodes]
  | cons x path ih =>
    intro g a
    have h := ih (set_visited g x) a
    unfold mark_nodes at h ⊢
    rw [List.foldl_cons, h, set_visited_getElem?]
    cases hg : g[a]? with
    | none => rfl
    | some n =>
      simp only [Option.map_some', Option.some.injEq, List.mem_cons]
      by_cases h1 : a = x
      · by_cases h2 : a ∈ path <;> simp [h1, h2]
      · by_cases h2 : a ∈ path <;> simp [h1, h2]

theorem mark_nodes_length (g : CandidateGraph) (path : List Nat) :
    (mark_nodes g path).length = g.length := by
  apply Nat.le_antisymm
  · by_contra hc
    have h := mark_nodes_getElem? path g g.length
    rw [List.getElem?_eq_getElem (by omega), List.getElem?_eq_none (le_refl _)] at h
    simp at h
  · by_contra hc
    have h := mark_nodes_getElem? path g (mark_nodes g path).length
    rw [List.getElem?_eq_none (le_refl _), List.getElem?_eq_getElem (by omega)] at h
    simp at h

theorem mark_nodes_successor (g : CandidateGraph) (path : List Nat) (a b : Nat) :
    is_successor (mark_nodes g path) a b ↔ is_successor g a b := by
  unfold is_successor
  rw [mark_nodes_getElem?]
  cases hg : g[a]? with
  | none => simp
  | some n =>
    simp only [Option.map_some', Option.some.injEq]
    constructor
    · rintro ⟨n', rfl, hb⟩
      refine ⟨n, rfl, ?_⟩
      split at hb <;> exact hb
    · rintro ⟨n', rfl, hb⟩
      refine ⟨_, rfl, ?_⟩
      split <;> exact hb

theorem mark_nodes_ok (n : Nat) (g : CandidateGraph) (path : List Nat) (h : graph_ok n g) :
    graph_ok n (mark_nodes g path) := by
  refine ⟨by rw [mark_nodes_length]; exact h.1, ?_⟩
  intro a node ha
  rw [mark_nodes_getElem?] at ha
  cases hg : g[a]? with
  | none => rw [hg] at ha; simp at ha
  | some n' =>
    rw [hg] at ha
    simp only [Option.map_some', Option.some.injEq] at ha
    have := h.2 a n' hg
    subst ha
    split <;> exact this

theorem mark_nodes_visited (g : CandidateGraph) (path : List Nat) (a : Nat) (ha : a < g.length) :
    node_visited (mark_nodes g path) a = (node_visited g a || decide (a ∈ path)) := by
  unfold node_visited
  rw [mark_nodes_getElem?, List.getElem?_eq_getElem ha]
  simp only [Option.map_some']
  by_cases h : a ∈ path <;> simp [h]

theorem mark_nodes_append (g : CandidateGraph) (p q : List Nat) :
    mark_nodes (mark_nodes g p) q = mark_nodes g (p ++ q) := by
  unfold mark_nodes
  rw [List.foldl_append]


/-! ## One seed: where the best candidate comes from -/

theorem candidate_sublist (rt : Runtime) (ref : List Peak) (ref_heights : List ℚ) (c : Nat)
    (path : List Nat) : (candidate rt ref ref_heights c path).best_path.Sublist path :=
  (List.take_sublist _ _).trans (List.drop_sublist _ _)

theorem score_paths_cases (rt : Runtime) (ref : List Peak) (ref_heights : List ℚ) (c : Nat) :
    ∀ (paths : List (List Nat)) (best : Best),
      (score_paths rt ref ref_heights c paths best = best ∨
        ∃ path ∈ paths, 2 ≤ path.length ∧
          score_paths rt ref ref_heights c paths best = candidate rt ref ref_heights c path ∧
          best.best_dot < (candidate rt ref ref_heights c path).best_dot) ∧
      best.best_dot ≤ (score_paths rt ref ref_heights c paths best).best_dot := by
  intro paths
  induction paths with
  | nil => intro best; exact ⟨Or.inl rfl, le_refl _⟩
  | cons path rest ih =>
    intro best
    unfold score_paths
    by_cases hlen : path.length < 2
    · rw [if_pos hlen]
      obtain ⟨h1, h2⟩ := ih best
      refine ⟨?_, h2⟩
      rcases h1 with h1 | ⟨p, hp, h3, h4, h5⟩
      · exact Or.inl h1
      · exact Or.inr ⟨p, List.mem_cons_of_mem _ hp, h3, h4, h5⟩
    · rw [if_neg hlen]
      simp only
      by_cases hbetter : (rolling_weighted_cosine_sim rt
          (path.map (fun x => (peak_of ref x).fitted_height)) ref_heights).dot > best.best_dot
      · rw [if_pos hbetter]
        obtain ⟨h1, h2⟩ := ih (candidate rt ref ref_heights c path)
        have hcand : (candidate rt ref ref_heights c path).best_dot =
            (rolling_weighted_cosine_sim rt
              (path.map (fun x => (peak_of ref x).fitted_height)) ref_heights).dot := rfl
        change (score_paths rt ref ref_heights c rest (candidate rt ref ref_heights c path) = best ∨
          ∃ p ∈ path :: rest, 2 ≤ p.length ∧
            score_paths rt ref ref_heights c rest (candidate rt ref ref_heights c path)
              = candidate rt ref ref_heights c p ∧
            best.best_dot < (candidate rt ref ref_heights c p).best_dot) ∧
          best.best_dot ≤
            (score_paths rt ref ref_heights c rest (candidate rt ref ref_heights c path)).best_dot
        refine ⟨Or.inr ?_, le_trans (le_of_lt (hcand ▸ hbetter)) h2⟩
        rcases h1 with h1 | ⟨p, hp, h3, h4, h5⟩
        · exact ⟨path, List.mem_cons_self _ _, by omega, h1, hcand ▸ hbetter⟩
        · exact ⟨p, List.mem_cons_of_mem _ hp, h3, h4, lt_trans (hcand ▸ hbetter) h5⟩
      · rw [if_neg hbetter]
        obtain ⟨h1, h2⟩ := ih best
        refine ⟨?_, h2⟩
        rcases h1 with h1 | ⟨p, hp, h3, h4, h5⟩
        · exact Or.inl h1
        · exact Or.inr ⟨p, List.mem_cons_of_mem _ hp, h3, h4, h5⟩

/-- The best candidate of a seed is the one the loop over the charge states
started from, or the candidate of a supplied charge state whose lookup
succeeded and of a path of at least two nodes that `find_all_paths` returned
for the graph of that charge state. -/
theorem score_charges_cases (rt : Runtime) (fuel : Nat) (table : List (ℚ × List ℚ))
    (ref : List Peak) (i : Nat) :
    ∀ (cs : List Nat) (gs : List CandidateGraph) (best r : Best),
      score_charges rt fuel table ref i cs gs best = some r →
      (r = best ∨
        ∃ c g paths ref_heights path, (c, g) ∈ cs.zip gs ∧
          find_all_paths fuel g i = some paths ∧
          lookup_ref_heights table ((peak_of ref i).fitted_mz * (c : ℚ)) = some ref_heights ∧
          path ∈ paths ∧ 2 ≤ path.length ∧
          r = candidate rt ref ref_heights c path ∧ best.best_dot < r.best_dot) ∧
      best.best_dot ≤ r.best_dot := by
  intro cs
  induction cs with
  | nil =>
    intro gs best r h
    simp [score_charges] at h
    subst h
    exact ⟨Or.inl rfl, le_refl _⟩
  | cons c cs ih =>
    intro gs best r h
    cases gs with
    | nil =>
      simp [score_charges] at h
      subst h
      exact ⟨Or.inl rfl, le_refl _⟩
    | cons g gs =>
      unfold score_charges at h
      cases hp : find_all_paths fuel g i with
      | none => rw [hp] at h; simp at h
      | some paths =>
        rw [hp] at h
        simp only at h
        cases hl : lookup_ref_heights table ((peak_of ref i).fitted_mz * (c : ℚ)) with
        | none =>
          rw [hl] at h
          simp only at h
          obtain ⟨h1, h2⟩ := ih gs best r h
          refine ⟨?_, h2⟩
          rcases h1 with h1 | ⟨c', g', ps, rh, p, hm, h3, h4, h5, h6, h7, h8⟩
          · exact Or.inl h1
          · exact Or.inr ⟨c', g', ps, rh, p, by simp [hm], h3, h4, h5, h6, h7, h8⟩
        | some ref_heights =>
          rw [hl] at h
          simp only at h
          obtain ⟨h1, h2⟩ := ih gs _ r h
          obtain ⟨s1, s2⟩ := score_paths_cases rt ref ref_heights c paths best
          refine ⟨?_, le_trans s2 h2⟩
          rcases h1 with h1 | ⟨c', g', ps, rh, p, hm, h3, h4, h5, h6, h7, h8⟩
          · rcases s1 with s1 | ⟨p, hp1, hp2, hp3, hp4⟩
            · left; rw [h1, s1]
            · right
              refine ⟨c, g, paths, ref_heights, p, by simp, hp, hl, hp1, hp2, ?_, ?_⟩
              · rw [h1, hp3]
              · rw [h1, hp3]; exact hp4
          · exact Or.inr ⟨c', g', ps, rh, p, by simp [hm], h3, h4, h5, h6, h7,
              lt_of_le_of_lt s2 h8⟩

/-- In a well-shaped graph a path returned by `find_all_paths` lists strictly
increasing node indices below the number of peaks. -/
theorem maximal_path_increasing (n : Nat) (g : CandidateGraph) (root : Nat) (p : List Nat)
    (hg : graph_ok n g) (hp : is_maximal_path g root p) :
    p.Pairwise (· < ·) ∧ ∀ x ∈ p, x < n := by
  obtain ⟨_, hchain, hun, _⟩ := hp
  refine ⟨?_, ?_⟩
  · have hc : List.Chain' (· < ·) p := by
      refine List.Chain'.imp ?_ hchain
      rintro a b ⟨node, hnode, hb⟩
      exact ((hg.2 a node hnode).2 b hb).1
    exact List.chain'_iff_pairwise.1 hc
  · intro x hx
    have := ((is_unvisited_iff g x).1 (hun x hx)).1
    rw [hg.1] at this
    exact this


/-! ## The seed loop: invariant -/

theorem claimed_append (bests : List Best) (b : Best) :
    claimed (bests ++ [b]) = claimed bests ++ b.best_path := by
  simp [claimed]

theorem mark_path_eq (graphs : List CandidateGraph) (path : List Nat) :
    mark_path graphs path = graphs.map (fun g => mark_nodes g path) := rfl

/-- An accepted window consists of nodes that were unvisited, and so not yet
claimed, when it was found. -/
theorem accepted_window_fresh (rt : Runtime) (fuel : Nat) (table : List (ℚ × List ℚ))
    (ref : List Peak) (cs : List Nat) (bests : List Best) (st : SeedState) (best : Best)
    (hinv : seed_inv ref cs bests st)
    (hbest : score_charges rt fuel table ref st.i cs st.graphs ⟨0, [], 0⟩ = some best)
    (hlen : ¬ best.best_path.length < 2) :
    best.best_path.Pairwise (· < ·) ∧ (∀ x ∈ best.best_path, x < ref.length) ∧
    ∀ x ∈ best.best_path, x ∉ claimed bests := by
  obtain ⟨hgraphs, _, _⟩ := hinv
  obtain ⟨hc, _⟩ := score_charges_cases rt fuel table ref st.i cs st.graphs _ best hbest
  rcases hc with hc | ⟨c, g, paths, rh, path, hzip, hfind, _, hpath, _, hr, _⟩
  · rw [hc] at hlen; simp at hlen
  · have hg : g ∈ st.graphs := (List.of_mem_zip hzip).2
    rw [hgraphs] at hg
    obtain ⟨c', _, rfl⟩ := List.mem_map.1 hg
    have hok : graph_ok ref.length (mark_nodes (build_graph c' ref 0) (claimed bests)) :=
      mark_nodes_ok _ _ _ (build_graph_ok c' ref)
    have hmax : is_maximal_path (mark_nodes (build_graph c' ref 0) (claimed bests)) st.i path :=
      find_all_paths_maximal fuel _ st.i paths hfind path hpath
    obtain ⟨hinc, hlt⟩ := maximal_path_increasing ref.length _ st.i path hok hmax
    have hsub : best.best_path.Sublist path := by rw [hr]; exact candidate_sublist _ _ _ _ _
    refine ⟨hinc.sublist hsub, fun x hx => hlt x (hsub.subset hx), ?_⟩
    intro x hx hcl
    have hx' := hsub.subset hx
    have hun := (is_unvisited_iff _ x).1 (hmax.2.2.1 x hx')
    have hxl : x < (build_graph c' ref 0).length := by
      rw [(build_graph_ok c' ref).1]; exact hlt x hx'
    rw [mark_nodes_visited _ _ _ hxl] at hun
    simp [hcl] at hun

/-- One iteration of the seed loop keeps the invariant: it either accepts
nothing and advances the cursor, or accepts one more candidate and leaves the
cursor where it is or advances it by one. -/
theorem seed_step_inv (rt : Runtime) (fuel : Nat) (table : List (ℚ × List ℚ))
    (ref : List Peak) (cs : List Nat) (bests : List Best) (st st' : SeedState)
    (hinv : seed_inv ref cs bests st)
    (hstep : seed_step rt fuel table ref cs st = some st') :
    (seed_inv ref cs bests st' ∧ st'.i = st.i + 1) ∨
    ∃ b, seed_inv ref cs (bests ++ [b]) st' ∧ (st'.i = st.i + 1 ∨ st'.i = st.i) ∧
      score_charges rt fuel table ref st.i cs st.graphs ⟨0, [], 0⟩ = some b ∧
      2 ≤ b.best_path.length := by
  unfold seed_step at hstep
  cases hbest : score_charges rt fuel table ref st.i cs st.graphs ⟨0, [], 0⟩ with
  | none => rw [hbest] at hstep; simp at hstep
  | some best =>
    rw [hbest] at hstep
    simp only at hstep
    by_cases hlen : best.best_path.length < 2
    · rw [if_pos hlen] at hstep
      simp only [Option.some.injEq] at hstep
      subst hstep
      left
      exact ⟨⟨hinv.1, hinv.2.1, hinv.2.2⟩, rfl⟩
    · rw [if_neg hlen] at hstep
      simp only [Option.some.injEq] at hstep
      subst hstep
      right
      obtain ⟨hinc, hlt, hfresh⟩ :=
        accepted_window_fresh rt fuel table ref cs bests st best hinv hbest hlen
      obtain ⟨hgraphs, hfeat, hnodup, hwin⟩ := hinv
      refine ⟨best, ⟨?_, ?_, ?_, ?_⟩, ?_, rfl, by omega⟩
      · simp only [mark_path_eq, hgraphs, List.map_map, claimed_append]
        apply List.map_congr_left
        intro c _
        simp only [Function.comp, mark_nodes_append]
      · simp [hfeat]
      · rw [claimed_append]
        refine List.nodup_append.2 ⟨hnodup, ?_, ?_⟩
        · exact hinc.imp (fun h => Nat.ne_of_lt h)
        · intro x hx1 hx2
          exact hfresh x hx2 hx1
      · intro b hb
        rcases List.mem_append.1 hb with hb | hb
        · exact hwin b hb
        · simp only [List.mem_singleton] at hb
          subst hb
          exact ⟨by omega, hinc, hlt⟩
      · simp only
        split
        · left; rfl
        · right; rfl

/-- The seed loop ends with the features built from a list of accepted
candidates that satisfies `windows_ok`. -/
theorem seed_loop_inv (rt : Runtime) (fuel : Nat) (table : List (ℚ × List ℚ))
    (ref : List Peak) (cs : List Nat) :
    ∀ (n : Nat) (bests : List Best) (st : SeedState) (fs : List Feature),
      seed_inv ref cs bests st →
      seed_loop rt fuel table ref cs n st = some fs →
      ∃ bests', fs = bests'.map (build_feature ref) ∧ windows_ok ref bests' := by
  intro n
  induction n with
  | zero =>
    intro bests st fs hinv h
    unfold seed_loop at h
    split at h
    · simp at h
    · simp only [Option.some.injEq] at h
      exact ⟨bests, by rw [← h, hinv.2.1], hinv.2.2⟩
  | succ n ih =>
    intro bests st fs hinv h
    unfold seed_loop at h
    split at h
    · cases hstep : seed_step rt fuel table ref cs st with
      | none => rw [hstep] at h; simp at h
      | some st' =>
        rw [hstep] at h
        simp only at h
        rcases seed_step_inv rt fuel table ref cs bests st st' hinv hstep with
          ⟨hinv', _⟩ | ⟨b, hinv', _, _, _⟩
        · exact ih bests st' fs hinv' h
        · exact ih (bests ++ [b]) st' fs hinv' h
    · simp only [Option.some.injEq] at h
      exact ⟨bests, by rw [← h, hinv.2.1], hinv.2.2⟩

theorem seed_inv_init (ref : List Peak) (cs : List Nat) :
    seed_inv ref cs [] ⟨0, cs.map (fun c => build_graph c ref 0), []⟩ := by
  refine ⟨?_, rfl, ?_, ?_⟩
  · simp [claimed, mark_nodes]
  · simp [claimed]
  · intro b hb; cases hb

/-- The features emitted by the greedy loop are built from accepted candidates
whose windows are pairwise disjoint, strictly increasing and of length at
least two. -/
theorem greedy_features_windows (rt : Runtime) (fuel : Nat) (table : List (ℚ × List ℚ))
    (peaks : List Peak) (cs : List Nat) (fs : List Feature)
    (h : greedy_features rt fuel table peaks cs = some fs) :
    ∃ bests, fs = bests.map (build_feature (ref_peaks peaks)) ∧
      windows_ok (ref_peaks peaks) bests :=
  seed_loop_inv rt fuel table (ref_peaks peaks) cs fuel [] _ fs (seed_inv_init _ cs) h


/-! ## The peaks in mz order -/

theorem index_keys_map (pre : List Peak) :
    ∀ (l : List Peak),
      (index_keys l pre.length).map (fun s => (pre ++ l).getD s.index default) = l ∧
      ∀ s ∈ index_keys l pre.length,
        ((pre ++ l).getD s.index default).fitted_mz = s.sorting_key := by
  intro l
  induction l generalizing pre with
  | nil => simp [index_keys]
  | cons p rest ih =>
    have h := ih (pre ++ [p])
    simp only [List.length_append, List.length_singleton, List.append_assoc,
      List.singleton_append] at h
    unfold index_keys
    have hp : (pre ++ p :: rest).getD pre.length default = p := by
      rw [List.getD_eq_getElem?_getD, List.getElem?_append_right (le_refl _)]
      simp
    refine ⟨?_, ?_⟩
    · simp only [List.map_cons, hp, h.1]
    · intro s hs
      rcases List.mem_cons.1 hs with rfl | hs
      · simp only [hp]
      · exact h.2 s hs

theorem ref_peaks_perm (peaks : List Peak) : (ref_peaks peaks).Perm peaks := by
  have h := (index_keys_map [] peaks).1
  simp only [List.length_nil, List.nil_append] at h
  unfold ref_peaks stable_sort_keys
  have hp := (List.perm_insertionSort (fun p1 p2 : KeySort => p1.sorting_key ≤ p2.sorting_key)
    (index_keys peaks 0)).map (fun s => peaks.getD s.index default)
  rw [h] at hp
  exact hp

theorem ref_peaks_sorted (peaks : List Peak) :
    ((ref_peaks peaks).map (fun p => p.fitted_mz)).Pairwise (· ≤ ·) := by
  have hkey := (index_keys_map [] peaks).2
  simp only [List.length_nil, List.nil_append] at hkey
  unfold ref_peaks stable_sort_keys
  haveI : IsTotal KeySort (fun p1 p2 : KeySort => p1.sorting_key ≤ p2.sorting_key) :=
    ⟨fun a b => le_total a.sorting_key b.sorting_key⟩
  haveI : IsTrans KeySort (fun p1 p2 : KeySort => p1.sorting_key ≤ p2.sorting_key) :=
    ⟨fun a b c h1 h2 => le_trans h1 h2⟩
  have hs := List.sorted_insertionSort (fun p1 p2 : KeySort => p1.sorting_key ≤ p2.sorting_key)
    (index_keys peaks 0)
  have hperm := List.perm_insertionSort
    (fun p1 p2 : KeySort => p1.sorting_key ≤ p2.sorting_key) (index_keys peaks 0)
  rw [List.map_map, List.pairwise_map]
  refine List.Pairwise.imp_of_mem ?_ hs
  intro a b ha hb hab
  simp only [Function.comp]
  rw [hkey a (hperm.mem_iff.1 ha), hkey b (hperm.mem_iff.1 hb)]
  exact hab

theorem peak_of_mem (ref : List Peak) (x : Nat) (hx : x < ref.length) : peak_of ref x ∈ ref := by
  unfold peak_of
  rw [List.getD_eq_getElem _ _ hx]
  exact List.getElem_mem _

theorem peak_of_mz_le (ref : List Peak) (hs : (ref.map (fun p => p.fitted_mz)).Pairwise (· ≤ ·))
    (x y : Nat) (hxy : x < y) (hy : y < ref.length) :
    (peak_of ref x).fitted_mz ≤ (peak_of ref y).fitted_mz := by
  have h := List.pairwise_iff_getElem.1 hs x y (by simp; omega) (by simpa using hy) hxy
  unfold peak_of
  rw [List.getD_eq_getElem _ _ (by omega), List.getD_eq_getElem _ _ hy]
  simpa using h

theorem peak_of_id_inj (ref : List Peak) (hn : (ref.map (fun p => p.id)).Nodup)
    (x y : Nat) (hx : x < ref.length) (hy : y < ref.length)
    (h : (peak_of ref x).id = (peak_of ref y).id) : x = y := by
  unfold peak_of at h
  rw [List.getD_eq_getElem _ _ hx, List.getD_eq_getElem _ _ hy] at h
  have hx' : x < (ref.map (fun p => p.id)).length := by simpa using hx
  have hy' : y < (ref.map (fun p => p.id)).length := by simpa using hy
  by_contra hne
  rcases Nat.lt_or_gt_of_ne hne with hlt | hgt
  · have := List.pairwise_iff_getElem.1 hn x y hx' hy' hlt
    apply this
    simpa using h
  · have := List.pairwise_iff_getElem.1 hn y x hy' hx' hgt
    apply this
    simpa using h.symm

/-! ## The features built from accepted candidates -/

theorem add_peaks_peak_ids (ref : List Peak) :
    ∀ (path : List Nat) (i : Nat) (f : Feature),
      (add_peaks ref path i f).peak_ids = f.peak_ids ++ path.map (fun x => (peak_of ref x).id) := by
  intro path
  induction path with
  | nil => intro i f; simp [add_peaks]
  | cons x rest ih =>
    intro i f
    unfold add_peaks
    rw [ih]
    simp [add_peak]

theorem build_feature_peak_ids (ref : List Peak) (b : Best) :
    (build_feature ref b).peak_ids = b.best_path.map (fun x => (peak_of ref x).id) := by
  unfold build_feature
  simp only
  rw [add_peaks_peak_ids]
  simp

theorem assign_ids_map {β : Type} (g : Feature → β) (hg : ∀ f i, g { f with id := i } = g f) :
    ∀ (l : List Feature) (i : Nat), (assign_ids l i).map g = l.map g := by
  intro l
  induction l with
  | nil => intro i; rfl
  | cons f rest ih =>
    intro i
    unfold assign_ids
    simp only [List.map_cons, hg, ih]

/-- The `peak_ids` lists of the returned features are a rearrangement of those
of the features emitted by the greedy loop. -/
theorem detect_features_peak_ids (rt : Runtime) (fuel : Nat) (peaks : List Peak) (cs : List Nat)
    (fs : List Feature) (hsort : sort_permutes rt)
    (h : detect_features rt fuel peaks cs = some fs) :
    ∃ gs, greedy_features rt fuel averagine_table peaks cs = some gs ∧
      (fs.map (fun f => f.peak_ids)).Perm (gs.map (fun f => f.peak_ids)) := by
  unfold detect_features at h
  cases hg : greedy_features rt fuel averagine_table peaks cs with
  | none => rw [hg] at h; simp at h
  | some gs =>
    rw [hg] at h
    simp only [Option.some.injEq] at h
    refine ⟨gs, rfl, ?_⟩
    rw [← h, assign_ids_map (fun f => f.peak_ids) (fun _ _ => rfl)]
    exact (hsort sort_features gs).map _


/-! ## Properties of the emitted features -/

theorem peak_exclusive_iff (fs : List Feature) :
    peak_exclusive fs ↔ ((fs.map (fun f => f.peak_ids)).flatten).Nodup := by
  unfold peak_exclusive
  rw [List.nodup_flatten, List.pairwise_map]
  constructor
  · rintro ⟨h1, h2⟩
    refine ⟨?_, ?_⟩
    · intro l hl
      obtain ⟨f, hf, rfl⟩ := List.mem_map.1 hl
      exact h1 f hf
    · exact h2.imp (fun h x hx hy => h x hx hy)
  · rintro ⟨h1, h2⟩
    refine ⟨?_, ?_⟩
    · intro f hf
      exact h1 _ (List.mem_map_of_mem _ hf)
    · exact h2.imp (fun h x hx hy => h hx hy)

theorem claimed_lt (ref : List Peak) (bests : List Best) (h : windows_ok ref bests) :
    ∀ x ∈ claimed bests, x < ref.length := by
  intro x hx
  unfold claimed at hx
  obtain ⟨l, hl, hxl⟩ := List.mem_flatten.1 hx
  obtain ⟨b, hb, rfl⟩ := List.mem_map.1 hl
  exact (h.2 b hb).2.2 x hxl

theorem greedy_peak_exclusive (rt : Runtime) (fuel : Nat) (table : List (ℚ × List ℚ))
    (peaks : List Peak) (cs : List Nat) (gs : List Feature)
    (hids : (peaks.map (fun p => p.id)).Nodup)
    (h : greedy_features rt fuel table peaks cs = some gs) :
    ((gs.map (fun f => f.peak_ids)).flatten).Nodup := by
  obtain ⟨bests, rfl, hok⟩ := greedy_features_windows rt fuel table peaks cs gs h
  have hrefids : ((ref_peaks peaks).map (fun p => p.id)).Nodup :=
    (((ref_peaks_perm peaks).map (fun p => p.id)).nodup_iff).2 hids
  have heq : ((bests.map (build_feature (ref_peaks peaks))).map (fun f => f.peak_ids)).flatten
      = (claimed bests).map (fun x => (peak_of (ref_peaks peaks) x).id) := by
    unfold claimed
    rw [List.map_flatten, List.map_map, List.map_map]
    congr 1
    apply List.map_congr_left
    intro b _
    simp only [Function.comp, build_feature_peak_ids]
  rw [heq]
  refine List.Nodup.map_on ?_ hok.1
  intro x hx y hy hxy
  exact peak_of_id_inj _ hrefids x y (claimed_lt _ _ hok x hx) (claimed_lt _ _ hok y hy) hxy

/-- C1. Peak exclusivity: for peaks with pairwise distinct identifiers and any
charge-state list, no identifier occurs twice inside one feature's `peak_ids`
and none occurs in two features, both in the list emitted by the greedy loop
and, `std::sort` returning a rearrangement of its input, in the list returned
by `detect_features`. -/
theorem detect_features_peak_exclusive (rt : Runtime) (fuel : Nat) (peaks : List Peak)
    (cs : List Nat) (hids : (peaks.map (fun p => p.id)).Nodup) :
    (∀ gs, greedy_features rt fuel averagine_table peaks cs = some gs → peak_exclusive gs) ∧
    (sort_permutes rt →
      ∀ fs, detect_features rt fuel peaks cs = some fs → peak_exclusive fs) := by
  refine ⟨?_, ?_⟩
  · intro gs h
    exact (peak_exclusive_iff gs).2 (greedy_peak_exclusive rt fuel _ peaks cs gs hids h)
  · intro hsort fs h
    obtain ⟨gs, hg, hperm⟩ := detect_features_peak_ids rt fuel peaks cs fs hsort h
    rw [peak_exclusive_iff]
    exact (hperm.flatten.nodup_iff).2 (greedy_peak_exclusive rt fuel _ peaks cs gs hids hg)

/-- C2. Minimum envelope size: every feature emitted by the greedy loop, and
(`std::sort` returning a rearrangement of its input) every feature returned by
`detect_features`, has at least 2 entries in `peak_ids`. -/
theorem detect_features_min_envelope (rt : Runtime) (fuel : Nat) (peaks : List Peak)
    (cs : List Nat) :
    (∀ gs, greedy_features rt fuel averagine_table peaks cs = some gs →
      ∀ f ∈ gs, 2 ≤ f.peak_ids.length) ∧
    (sort_permutes rt →
      ∀ fs, detect_features rt fuel peaks cs = some fs → ∀ f ∈ fs, 2 ≤ f.peak_ids.length) := by
  have hgreedy : ∀ gs, greedy_features rt fuel averagine_table peaks cs = some gs →
      ∀ f ∈ gs, 2 ≤ f.peak_ids.length := by
    intro gs h f hf
    obtain ⟨bests, rfl, hok⟩ := greedy_features_windows rt fuel _ peaks cs gs h
    obtain ⟨b, hb, rfl⟩ := List.mem_map.1 hf
    rw [build_feature_peak_ids, List.length_map]
    exact (hok.2 b hb).1
  refine ⟨hgreedy, ?_⟩
  intro hsort fs h f hf
  obtain ⟨gs, hg, hperm⟩ := detect_features_peak_ids rt fuel peaks cs fs hsort h
  have hmem : f.peak_ids ∈ gs.map (fun f => f.peak_ids) :=
    hperm.mem_iff.1 (List.mem_map_of_mem _ hf)
  obtain ⟨g, hgm, hgf⟩ := List.mem_map.1 hmem
  rw [← hgf]
  exact hgreedy gs hg g hgm

theorem zero_runtime_sort_permutes : sort_permutes zero_runtime := by
  intro cmp l
  exact List.perm_insertionSort _ l


/-! ## Termination -/

theorem push_successors_some (graph : CandidateGraph) (curr_path : List Nat) :
    ∀ (nodes : List Nat) (acc : Bool × List (List Nat)),
      (∀ x ∈ nodes, x < graph.length) →
      ∃ r, push_successors graph curr_path nodes acc = some r := by
  intro nodes
  induction nodes with
  | nil => intro acc _; exact ⟨acc, by simp [push_successors]⟩
  | cons node rest ih =>
    intro acc h
    obtain ⟨pf, stack⟩ := acc
    unfold push_successors
    rw [List.getElem?_eq_getElem (h node (List.mem_cons_self _ _))]
    simp only
    split
    · exact ih _ (fun x hx => h x (List.mem_cons_of_mem _ hx))
    · exact ih _ (fun x hx => h x (List.mem_cons_of_mem _ hx))

theorem weight_sum_le (L n l : Nat) :
    ∀ (xs : List Nat), (∀ x ∈ xs, l < x) →
      (xs.map (fun x => (L + 1) ^ (n - x))).sum ≤ xs.length * (L + 1) ^ (n - l - 1) := by
  intro xs
  induction xs with
  | nil => intro _; simp
  | cons x rest ih =>
    intro h
    have h1 := ih (fun y hy => h y (List.mem_cons_of_mem _ hy))
    have h2 : (L + 1) ^ (n - x) ≤ (L + 1) ^ (n - l - 1) :=
      Nat.pow_le_pow_right (by omega) (by have := h x (List.mem_cons_self _ _); omega)
    simp only [List.map_cons, List.sum_cons, List.length_cons]
    rw [Nat.add_mul, Nat.one_mul]
    omega

theorem path_weight_pos (L n : Nat) (p : List Nat) (l : Nat) (h : p.getLast? = some l) :
    0 < path_weight L n p := by
  unfold path_weight
  rw [h]
  exact Nat.pos_pow_of_pos _ (by omega)

/-- The loop of `find_all_paths` ends when the fuel covers the weight of its stack. -/
theorem find_all_paths_loop_terminates (n L : Nat) (g : CandidateGraph) (hlen : g.length = n)
    (hsucc : ∀ a node, g[a]? = some node →
      node.nodes.length ≤ L ∧ ∀ b ∈ node.nodes, a < b ∧ b < n) :
    ∀ (fuel : Nat) (stack paths : List (List Nat)),
      (∀ p ∈ stack, ∃ l, p.getLast? = some l ∧ l < n) →
      (stack.map (path_weight L n)).sum ≤ fuel →
      ∃ r, find_all_paths_loop g fuel stack paths = some r := by
  intro fuel
  induction fuel with
  | zero =>
    intro stack paths hs hw
    cases stack with
    | nil => exact ⟨paths, by simp [find_all_paths_loop]⟩
    | cons c s =>
      obtain ⟨l, hl, _⟩ := hs c (List.mem_cons_self _ _)
      have := path_weight_pos L n c l hl
      simp only [List.map_cons, List.sum_cons] at hw
      omega
  | succ fuel ih =>
    intro stack paths hs hw
    cases stack with
    | nil => exact ⟨paths, by simp [find_all_paths_loop]⟩
    | cons curr stack =>
      obtain ⟨l, hl, hln⟩ := hs curr (List.mem_cons_self _ _)
      have hs' : ∀ p ∈ stack, ∃ l, p.getLast? = some l ∧ l < n :=
        fun p hp => hs p (List.mem_cons_of_mem _ hp)
      have hpos := path_weight_pos L n curr l hl
      simp only [List.map_cons, List.sum_cons] at hw
      unfold find_all_paths_loop
      rw [hl]
      simp only
      have hlg : l < g.length := by omega
      obtain ⟨node, hget⟩ : ∃ node, g[l]? = some node :=
        ⟨g[l], List.getElem?_eq_getElem hlg⟩
      rw [hget]
      simp only
      obtain ⟨hL, hb⟩ := hsucc l _ hget
      split
      · exact ih stack paths hs' (by omega)
      · obtain ⟨r, hr⟩ := push_successors_some g curr node.nodes (true, stack)
          (fun x hx => by have := (hb x hx).2; omega)
        rw [hr]
        obtain ⟨hreq, _⟩ := push_successors_eq g curr _ _ _ _ hr
        obtain ⟨pf, stack'⟩ := r
        simp only [Prod.mk.injEq] at hreq
        obtain ⟨_, hst⟩ := hreq
        have hstack' : ∀ p ∈ stack', ∃ l, p.getLast? = some l ∧ l < n := by
          intro p hp
          rw [hst] at hp
          rcases List.mem_append.1 hp with hp | hp
          · simp only [List.mem_reverse, List.mem_map, List.mem_filter] at hp
            obtain ⟨x, ⟨hx, _⟩, rfl⟩ := hp
            exact ⟨x, by simp, (hb x hx).2⟩
          · exact hs' p hp
        have hweight : (stack'.map (path_weight L n)).sum ≤ fuel := by
          rw [hst, List.map_append, List.sum_append, List.map_reverse, List.sum_reverse,
            List.map_map]
          have hfun : (path_weight L n ∘ fun x => curr ++ [x]) = fun x => (L + 1) ^ (n - x) := by
            funext x
            simp [path_weight]
          rw [hfun]
          have h1 := weight_sum_le L n l
            (node.nodes.filter (fun x => !node_visited g x))
            (fun x hx => (hb x (List.mem_filter.1 hx).1).1)
          have h2 : (node.nodes.filter (fun x => !node_visited g x)).length ≤ L :=
            le_trans (List.length_filter_le _ _) hL
          have h3 : (node.nodes.filter (fun x => !node_visited g x)).length
              * (L + 1) ^ (n - l - 1) ≤ L * (L + 1) ^ (n - l - 1) :=
            Nat.mul_le_mul_right _ h2
          have h4 : path_weight L n curr = (L + 1) * (L + 1) ^ (n - l - 1) := by
            unfold path_weight
            rw [hl]
            simp only
            have : n - l = (n - l - 1) + 1 := by omega
            rw [this, Nat.pow_succ, Nat.mul_comm]
            simp
          have h5 : 0 < (L + 1) ^ (n - l - 1) := Nat.pos_pow_of_pos _ (by omega)
          rw [h4, Nat.add_mul, Nat.one_mul] at hw
          omega
        simp only
        split
        · exact ih stack' _ hstack' hweight
        · exact ih stack' _ hstack' hweight

theorem find_all_paths_terminates (n : Nat) (g : CandidateGraph) (hg : graph_ok n g)
    (root fuel : Nat) (hroot : root < n) (hfuel : (n + 1) ^ n ≤ fuel) :
    ∃ r, find_all_paths fuel g root = some r := by
  unfold find_all_paths
  refine find_all_paths_loop_terminates n n g hg.1 hg.2 fuel [[root]] [] ?_ ?_
  · intro p hp
    simp only [List.mem_singleton] at hp
    subst hp
    exact ⟨root, by simp, hroot⟩
  · simp only [List.map_cons, List.map_nil, List.sum_cons, List.sum_nil, path_weight,
      List.getLast?_singleton, Nat.add_zero]
    exact le_trans (Nat.pow_le_pow_right (by omega) (by omega)) hfuel

theorem score_charges_some (rt : Runtime) (fuel : Nat) (table : List (ℚ × List ℚ))
    (ref : List Peak) (i : Nat) (hi : i < ref.length)
    (hfuel : (ref.length + 1) ^ ref.length ≤ fuel) :
    ∀ (cs : List Nat) (gs : List CandidateGraph) (best : Best),
      (∀ g ∈ gs, graph_ok ref.length g) →
      ∃ r, score_charges rt fuel table ref i cs gs best = some r := by
  intro cs
  induction cs with
  | nil => intro gs best _; exact ⟨best, by simp [score_charges]⟩
  | cons c cs ih =>
    intro gs best hgs
    cases gs with
    | nil => exact ⟨best, by simp [score_charges]⟩
    | cons g gs =>
      obtain ⟨paths, hp⟩ := find_all_paths_terminates ref.length g
        (hgs g (List.mem_cons_self _ _)) i fuel hi hfuel
      unfold score_charges
      rw [hp]
      simp only
      split
      · exact ih gs _ (fun g' hg' => hgs g' (List.mem_cons_of_mem _ hg'))
      · exact ih gs _ (fun g' hg' => hgs g' (List.mem_cons_of_mem _ hg'))

theorem seed_step_some (rt : Runtime) (fuel : Nat) (table : List (ℚ × List ℚ))
    (ref : List Peak) (cs : List Nat) (bests : List Best) (st : SeedState)
    (hinv : seed_inv ref cs bests st) (hi : st.i < ref.length)
    (hfuel : (ref.length + 1) ^ ref.length ≤ fuel) :
    ∃ st', seed_step rt fuel table ref cs st = some st' := by
  have hgs : ∀ g ∈ st.graphs, graph_ok ref.length g := by
    intro g hg
    rw [hinv.1] at hg
    obtain ⟨c, _, rfl⟩ := List.mem_map.1 hg
    exact mark_nodes_ok _ _ _ (build_graph_ok c ref)
  obtain ⟨best, hbest⟩ := score_charges_some rt fuel table ref st.i hi hfuel cs st.graphs
    ⟨0, [], 0⟩ hgs
  unfold seed_step
  rw [hbest]
  simp only
  split
  · exact ⟨_, rfl⟩
  · exact ⟨_, rfl⟩

theorem claimed_length_le (ref : List Peak) (bests : List Best) (h : windows_ok ref bests) :
    (claimed bests).length ≤ ref.length := by
  have hsub : claimed bests ⊆ List.range ref.length := by
    intro x hx
    exact List.mem_range.2 (claimed_lt ref bests h x hx)
  have := (List.subperm_of_subset h.1 hsub).length_le
  simpa using this

/-- Each iteration of the seed loop lowers `seed_measure`: it advances the
cursor, or claims at least two nodes that were not claimed before. -/
theorem seed_step_measure (rt : Runtime) (fuel : Nat) (table : List (ℚ × List ℚ))
    (ref : List Peak) (cs : List Nat) (bests : List Best) (st st' : SeedState)
    (hinv : seed_inv ref cs bests st) (hi : st.i < ref.length)
    (hstep : seed_step rt fuel table ref cs st = some st') :
    ∃ bests', seed_inv ref cs bests' st' ∧
      seed_measure ref.length bests' st' < seed_measure ref.length bests st := by
  rcases seed_step_inv rt fuel table ref cs bests st st' hinv hstep with
    ⟨hinv', hi'⟩ | ⟨b, hinv', hi', _, hlen⟩
  · refine ⟨bests, hinv', ?_⟩
    unfold seed_measure
    omega
  · refine ⟨bests ++ [b], hinv', ?_⟩
    have h1 := claimed_length_le ref _ hinv'.2.2
    have h2 : (claimed (bests ++ [b])).length = (claimed bests).length + b.best_path.length := by
      rw [claimed_append, List.length_append]
    unfold seed_measure
    omega

theorem seed_loop_some (rt : Runtime) (fuel : Nat) (table : List (ℚ × List ℚ))
    (ref : List Peak) (cs : List Nat) (hfuel : (ref.length + 1) ^ ref.length ≤ fuel) :
    ∀ (m : Nat) (bests : List Best) (st : SeedState),
      seed_inv ref cs bests st → seed_measure ref.length bests st ≤ m →
      ∃ fs, seed_loop rt fuel table ref cs m st = some fs := by
  intro m
  induction m with
  | zero =>
    intro bests st _ hm
    unfold seed_loop
    have : ¬ st.i < ref.length := by
      unfold seed_measure at hm
      omega
    rw [if_neg this]
    exact ⟨_, rfl⟩
  | succ m ih =>
    intro bests st hinv hm
    unfold seed_loop
    by_cases hi : st.i < ref.length
    · rw [if_pos hi]
      obtain ⟨st', hst'⟩ := seed_step_some rt fuel table ref cs bests st hinv hi hfuel
      rw [hst']
      simp only
      obtain ⟨bests', hinv', hlt⟩ := seed_step_measure rt fuel table ref cs bests st st' hinv hi hst'
      exact ih bests' st' hinv' (by omega)
    · rw [if_neg hi]
      exact ⟨_, rfl⟩

/-! ## More fuel does not change a result -/

theorem find_all_paths_loop_fuel_mono (g : CandidateGraph) :
    ∀ (fuel : Nat) (stack paths r : List (List Nat)),
      find_all_paths_loop g fuel stack paths = some r →
      ∀ fuel', fuel ≤ fuel' → find_all_paths_loop g fuel' stack paths = some r := by
  intro fuel
  induction fuel with
  | zero =>
    intro stack paths r h fuel' _
    cases stack with
    | nil =>
      simp only [find_all_paths_loop] at h
      cases fuel' <;> simpa [find_all_paths_loop] using h
    | cons c s => simp [find_all_paths_loop] at h
  | succ fuel ih =>
    intro stack paths r h fuel' hle
    cases stack with
    | nil =>
      simp only [find_all_paths_loop] at h
      cases fuel' <;> simpa [find_all_paths_loop] using h
    | cons curr stack =>
      cases fuel' with
      | zero => omega
      | succ fuel' =>
        have hle' : fuel ≤ fuel' := by omega
        unfold find_all_paths_loop at h ⊢
        cases hl : curr.getLast? with
        | none => rw [hl] at h; simp at h
        | some last =>
          rw [hl] at h
          simp only at h ⊢
          cases hg : g[last]? with
          | none => rw [hg] at h; simp at h
          | some node =>
            rw [hg] at h
            simp only at h ⊢
            split
            · next hv =>
              rw [if_pos hv] at h
              exact ih _ _ _ h fuel' hle'
            · next hv =>
              rw [if_neg hv] at h
              cases hp : push_successors g curr node.nodes (true, stack) with
              | none => rw [hp] at h; simp at h
              | some res =>
                rw [hp] at h
                obtain ⟨pf, stack'⟩ := res
                simp only at h ⊢
                split
                · next hf =>
                  rw [if_pos hf] at h
                  exact ih _ _ _ h fuel' hle'
                · next hf =>
                  rw [if_neg hf] at h
                  exact ih _ _ _ h fuel' hle'

theorem score_charges_fuel_mono (rt : Runtime) (table : List (ℚ × List ℚ)) (ref : List Peak)
    (i fuel fuel' : Nat) (hle : fuel ≤ fuel') :
    ∀ (cs : List Nat) (gs : List CandidateGraph) (best r : Best),
      score_charges rt fuel table ref i cs gs best = some r →
      score_charges rt fuel' table ref i cs gs best = some r := by
  intro cs
  induction cs with
  | nil => intro gs best r h; simpa [score_charges] using h
  | cons c cs ih =>
    intro gs best r h
    cases gs with
    | nil => simpa [score_charges] using h
    | cons g gs =>
      unfold score_charges at h ⊢
      cases hp : find_all_paths fuel g i with
      | none => rw [hp] at h; simp at h
      | some paths =>
        rw [hp] at h
        have hp' : find_all_paths fuel' g i = some paths :=
          find_all_paths_loop_fuel_mono g fuel _ _ _ hp fuel' hle
        rw [hp']
        simp only at h ⊢
        split
        · next hl => rw [hl] at h; exact ih gs _ r h
        · next rh hl => rw [hl] at h; exact ih gs _ r h

theorem seed_step_fuel_mono (rt : Runtime) (table : List (ℚ × List ℚ)) (ref : List Peak)
    (cs : List Nat) (fuel fuel' : Nat) (hle : fuel ≤ fuel') (st st' : SeedState)
    (h : seed_step rt fuel table ref cs st = some st') :
    seed_step rt fuel' table ref cs st = some st' := by
  unfold seed_step at h ⊢
  cases hb : score_charges rt fuel table ref st.i cs st.graphs ⟨0, [], 0⟩ with
  | none => rw [hb] at h; simp at h
  | some best =>
    rw [hb] at h
    rw [score_charges_fuel_mono rt table ref st.i fuel fuel' hle cs st.graphs _ best hb]
    exact h

theorem seed_loop_fuel_mono (rt : Runtime) (table : List (ℚ × List ℚ)) (ref : List Peak)
    (cs : List Nat) (fuel fuel' : Nat) (hle : fuel ≤ fuel') :
    ∀ (m : Nat) (st : SeedState) (fs : List Feature),
      seed_loop rt fuel table ref cs m st = some fs →
      ∀ m', m ≤ m' → seed_loop rt fuel' table ref cs m' st = some fs := by
  intro m
  induction m with
  | zero =>
    intro st fs h m' _
    unfold seed_loop at h
    split at h
    · simp at h
    · next hi =>
      cases m' with
      | zero => unfold seed_loop; rw [if_neg hi]; exact h
      | succ m' => unfold seed_loop; rw [if_neg hi]; exact h
  | succ m ih =>
    intro st fs h m' hm
    cases m' with
    | zero => omega
    | succ m' =>
      unfold seed_loop at h ⊢
      split
      · next hi =>
        rw [if_pos hi] at h
        cases hs : seed_step rt fuel table ref cs st with
        | none => rw [hs] at h; simp at h
        | some st' =>
          rw [hs] at h
          rw [seed_step_fuel_mono rt table ref cs fuel fuel' hle st st' hs]
          simp only at h ⊢
          exact ih st' fs h m' (by omega)
      · next hi =>
        rw [if_neg hi] at h
        exact h

/-- A result of `detect_features` does not change when more fuel is given. -/
theorem detect_features_fuel_mono (rt : Runtime) (peaks : List Peak) (cs : List Nat)
    (fuel fuel' : Nat) (hle : fuel ≤ fuel') (fs : List Feature)
    (h : detect_features rt fuel peaks cs = some fs) :
    detect_features rt fuel' peaks cs = some fs := by
  unfold detect_features at h ⊢
  cases hg : greedy_features rt fuel averagine_table peaks cs with
  | none => rw [hg] at h; simp at h
  | some gs =>
    rw [hg] at h
    have hg' : greedy_features rt fuel' averagine_table peaks cs = some gs := by
      unfold greedy_features at hg ⊢
      exact seed_loop_fuel_mono rt _ _ cs fuel fuel' hle fuel _ gs hg fuel' hle
    rw [hg']
    exact h

theorem detect_features_some (rt : Runtime) (peaks : List Peak) (cs : List Nat)
    (fuel : Nat) (hfuel : 2 * peaks.length + (peaks.length + 1) ^ peaks.length ≤ fuel) :
    ∃ fs, detect_features rt fuel peaks cs = some fs := by
  have hlen : (ref_peaks peaks).length = peaks.length := (ref_peaks_perm peaks).length_eq
  have hloop : ∃ gs, greedy_features rt fuel averagine_table peaks cs = some gs := by
    unfold greedy_features
    simp only
    refine seed_loop_some rt fuel _ (ref_peaks peaks) cs (by rw [hlen]; omega) fuel []
      _ (seed_inv_init _ cs) ?_
    unfold seed_measure
    rw [hlen]
    simp only [claimed, List.map_nil, List.flatten_nil, List.length_nil]
    omega
  obtain ⟨gs, hgs⟩ := hloop
  unfold detect_features
  rw [hgs]
  exact ⟨_, rfl⟩

/-- C9. Termination: for every list of `n` peaks and every charge-state list,
the seed loop of `detect_features` and every `find_all_paths` call inside it
end, with one and the same result for every fuel from `2n + (n+1)^n` on; each
iteration of the seed loop advances the cursor or claims at least two
unclaimed peaks, which lowers `seed_measure`. -/
theorem detect_features_terminates (rt : Runtime) (peaks : List Peak) (cs : List Nat) :
    (∃ fs, ∀ fuel, 2 * peaks.length + (peaks.length + 1) ^ peaks.length ≤ fuel →
      detect_features rt fuel peaks cs = some fs) ∧
    (∀ fuel table bests st st', seed_inv (ref_peaks peaks) cs bests st →
      st.i < (ref_peaks peaks).length →
      seed_step rt fuel table (ref_peaks peaks) cs st = some st' →
      ∃ bests', seed_inv (ref_peaks peaks) cs bests' st' ∧
        seed_measure (ref_peaks peaks).length bests' st'
          < seed_measure (ref_peaks peaks).length bests st) := by
  refine ⟨?_, ?_⟩
  · obtain ⟨fs, hfs⟩ := detect_features_some rt peaks cs
      (2 * peaks.length + (peaks.length + 1) ^ peaks.length) (le_refl _)
    exact ⟨fs, fun fuel hfuel => detect_features_fuel_mono rt peaks cs _ fuel hfuel fs hfs⟩
  · intro fuel table bests st st' hinv hi hstep
    exact seed_step_measure rt fuel table _ cs bests st st' hinv hi hstep


/-! ## Evaluation on concrete inputs -/

set_option maxRecDepth 100000 in
/-- In the end-to-end scenario the result of `detect_features` depends on the
value the matcher reads past the end of `path_heights`: when
that memory holds `0` the single feature has the two peaks 1 and 2, monoisotopic
mz 501.0033 and total height 50; when it holds `1000` the feature has all three
peaks, monoisotopic mz 500 and total height 150. -/
theorem scenario_depends_on_memory :
    (detect_features (junk_runtime 0) 10 scenario_peaks [1]).map
        (fun fs => fs.map (fun f => (f.charge_state, f.peak_ids, f.monoisotopic_mz, f.total_height)))
      = some [(1, [1, 2], 501.0033, 50)] ∧
    (detect_features (junk_runtime 1000) 10 scenario_peaks [1]).map
        (fun fs => fs.map (fun f => (f.charge_state, f.peak_ids, f.monoisotopic_mz, f.total_height)))
      = some [(1, [0, 1, 2], 500.0, 150)] := by
  decide!

set_option maxRecDepth 100000 in
/-- C4 (evaluation). For `A = [100, 40, 10]` and the envelope stored under
509.584, the walk of alignment `k = 1` reads `A[3]`, one past the end of `A`:
whatever the runtime, the upper end of its window is decided by the value found
there; accordingly the matcher returns the window `[1, 3)` when that value is
`0` and `[0, 3)` when it is `1000`. -/
theorem matcher_reads_past_end :
    (∀ rt : Runtime,
      (roll_walk rt [100, 40, 10] [100, 28.48, 5.02, 0.94, 0.09] 0 1).true_max_i =
        if fabs (rt.oob [100, 40, 10] 3 / 40 - 5.02 / 100) ≥ 0.35 then 2 else 3) ∧
    max_b_index_of [100, 28.48, 5.02, 0.94, 0.09] = 0 ∧
    (rolling_weighted_cosine_sim (junk_runtime 0) [100, 40, 10]
        [100, 28.48, 5.02, 0.94, 0.09]).min_i = 1 ∧
    (rolling_weighted_cosine_sim (junk_runtime 1000) [100, 40, 10]
        [100, 28.48, 5.02, 0.94, 0.09]).min_i = 0 := by
  refine ⟨?_, by decide!, by decide!, by decide!⟩
  intro rt
  simp only [roll_walk, center_left, center_right, vec_at]
  norm_num [fabs]
  split <;> split <;> rfl

set_option maxRecDepth 100000 in
/-- C5 (evaluation). For `A = [100, 100, 50, 100]`, `B = [100, 50, 25]` the
reference matcher of the specification returns the window `[1, 3)` with a
positive score, while `rolling_weighted_cosine_sim` returns `(0, 0, 0)`: in
alignment `k = 1` the code stops its right walk at `A[3]` but records the loop
counter `2` as the end of the window, whatever the runtime. -/
theorem matcher_differs_from_reference :
    rolling_weighted_cosine_sim zero_runtime [100, 100, 50, 100] [100, 50, 25] = ⟨0, 0, 0⟩ ∧
    (reference_matcher zero_runtime.sqrt [100, 100, 50, 100] [100, 50, 25]).min_i = 1 ∧
    (reference_matcher zero_runtime.sqrt [100, 100, 50, 100] [100, 50, 25]).max_i = 3 ∧
    0 < (reference_matcher zero_runtime.sqrt [100, 100, 50, 100] [100, 50, 25]).dot ∧
    ∀ rt : Runtime,
      (roll_walk rt [100, 100, 50, 100] [100, 50, 25] 0 1).true_min_i = 1 ∧
      (roll_walk rt [100, 100, 50, 100] [100, 50, 25] 0 1).true_max_i = 2 := by
  refine ⟨by decide!, by decide!, by decide!, by decide!, ?_⟩
  intro rt
  simp only [roll_walk, center_left, center_right, vec_at]
  norm_num [fabs]

set_option maxRecDepth 100000 in
/-- C6 (evaluation). For the query mass 105.0 the lookup of `detect_features`
selects the envelope stored under 110.221, not the one under the nearer key
100.226, with the full table and with the two-key table alike; for 106.0 it
selects 110.221 as well. -/
theorem lookup_105_selects_110 :
    lookup_ref_heights averagine_table 105.0 = some [100, 5.89, 0.4] ∧
    lookup_ref_heights [(100.226, [100, 4.79, 0.28]), (110.221, [100, 5.89, 0.4])] 105.0
      = some [100, 5.89, 0.4] ∧
    lookup_ref_heights [(100.226, [100, 4.79, 0.28]), (110.221, [100, 5.89, 0.4])] 106.0
      = some [100, 5.89, 0.4] := by
  decide!

set_option maxRecDepth 100000 in
/-- C1 (witness): on `two_envelopes` with charge states 1 and 2 the result has
the two features `[12, 13]` and `[10, 11]`, and it is peak-exclusive. -/
theorem detect_features_peak_exclusive_witness :
    (two_envelopes.map (fun p => p.id)).Nodup ∧ sort_permutes zero_runtime ∧
    (detect_features zero_runtime 10 two_envelopes [1, 2]).map
        (fun fs => fs.map (fun f => f.peak_ids)) = some [[12, 13], [10, 11]] ∧
    peak_exclusive ((detect_features zero_runtime 10 two_envelopes [1, 2]).getD []) :=
  ⟨by decide, zero_runtime_sort_permutes, by decide!,
    (detect_features_peak_exclusive zero_runtime 10 two_envelopes [1, 2] (by decide)).2
      zero_runtime_sort_permutes _ (by decide!)⟩

set_option maxRecDepth 100000 in
/-- C2 (witness): on `two_envelopes` every returned feature has at least two
peak identifiers. -/
theorem detect_features_min_envelope_witness :
    sort_permutes zero_runtime ∧
    ((detect_features zero_runtime 10 two_envelopes [1, 2]).getD []).length = 2 ∧
    ∀ f ∈ (detect_features zero_runtime 10 two_envelopes [1, 2]).getD [],
      2 ≤ f.peak_ids.length :=
  ⟨zero_runtime_sort_permutes, by decide!,
    (detect_features_min_envelope zero_runtime 10 two_envelopes [1, 2]).2
      zero_runtime_sort_permutes _ (by decide!)⟩

set_option maxRecDepth 100000 in
/-- C9 (witness): for the three scenario peaks the bound is `2 * 3 + 4 ^ 3 = 70`,
and with that fuel `detect_features` returns a list with one feature. -/
theorem detect_features_terminates_witness :
    2 * scenario_peaks.length + (scenario_peaks.length + 1) ^ scenario_peaks.length = 70 ∧
    ∃ fs, ∀ fuel, 70 ≤ fuel → detect_features zero_runtime fuel scenario_peaks [1] = some fs :=
  ⟨by decide, (detect_features_terminates zero_runtime scenario_peaks [1]).1⟩


/-! ## The matcher: short inputs and the shape of the result -/

/-- C12. Matcher on short input: when `A` or `B` has fewer than 2 elements,
`rolling_weighted_cosine_sim` returns score 0 with the empty window
`min_i = 0`, `max_i = 0`, whatever the runtime. -/
theorem rolling_short_input (rt : Runtime) (A B : List ℚ)
    (h : A.length < 2 ∨ B.length < 2) :
    rolling_weighted_cosine_sim rt A B = ⟨0, 0, 0⟩ := by
  unfold rolling_weighted_cosine_sim
  rw [if_pos h]

/-- C12 (witness): a one-element `A` against a three-element `B`. -/
theorem rolling_short_input_witness :
    (([100] : List ℚ).length < 2 ∨ ([100, 50, 25] : List ℚ).length < 2) ∧
    rolling_weighted_cosine_sim zero_runtime [100] [100, 50, 25] = ⟨0, 0, 0⟩ :=
  ⟨by decide, rolling_short_input zero_runtime [100] [100, 50, 25] (by decide)⟩

theorem rolling_zero_or_window (rt : Runtime) (A B : List ℚ) :
    rolling_weighted_cosine_sim rt A B = ⟨0, 0, 0⟩ ∨
    (rolling_weighted_cosine_sim rt A B).min_i < (rolling_weighted_cosine_sim rt A B).max_i := by
  unfold rolling_weighted_cosine_sim
  split
  · left; rfl
  · simp only
    split
    · left; rfl
    · next h => right; omega

/-- C13. Matcher output shape: `rolling_weighted_cosine_sim` returns either
`(0, 0, 0)` or a triple with `score > 0` and `min_i + 2 <= max_i <= |A|`,
whatever the runtime. -/
theorem rolling_output_shape (rt : Runtime) (A B : List ℚ) :
    rolling_weighted_cosine_sim rt A B = ⟨0, 0, 0⟩ ∨
    (0 < (rolling_weighted_cosine_sim rt A B).dot ∧
      (rolling_weighted_cosine_sim rt A B).min_i + 2 ≤ (rolling_weighted_cosine_sim rt A B).max_i ∧
      (rolling_weighted_cosine_sim rt A B).max_i ≤ A.length) := by
  rcases rolling_zero_or_window rt A B with h | h
  · exact Or.inl h
  · right
    obtain ⟨_, _, _, _, _, _, _, hdot⟩ := rolling_window_origin rt A B h
    obtain ⟨hsz, hmax, _⟩ := rolling_window_checked rt A B h
    exact ⟨hdot, by omega, hmax⟩


/-! ## `find_all_paths`: completeness -/

theorem begins_with_self (p : List Nat) : begins_with p p = true := by
  simp [begins_with]

theorem begins_with_length (p q : List Nat) (h : begins_with p q = true) :
    q.length ≤ p.length := by
  simp only [begins_with, decide_eq_true_eq] at h
  have := congrArg List.length h
  simp only [List.length_take] at this
  omega

theorem begins_with_eq (p q : List Nat) (h : begins_with p q = true)
    (hlen : p.length ≤ q.length) : q = p := by
  simp only [begins_with, decide_eq_true_eq] at h
  rw [← h]
  exact List.take_of_length_le hlen

theorem begins_with_concat (p q : List Nat) (y : Nat) :
    begins_with p (q ++ [y]) = true ↔ begins_with p q = true ∧ p[q.length]? = some y := by
  simp only [begins_with, decide_eq_true_eq, List.length_append, List.length_singleton]
  rw [List.take_succ]
  constructor
  · intro h
    have hlen := congrArg List.length h
    simp only [List.length_append, List.length_take, List.length_singleton] at hlen
    cases hy : p[q.length]? with
    | none =>
      rw [hy] at h hlen
      simp only [Option.toList, List.length_nil] at hlen
      omega
    | some z =>
      rw [hy] at h
      simp only [Option.toList] at h
      have hl : (List.take q.length p).length = q.length := by
        have := List.getElem?_eq_some.1 hy
        obtain ⟨hz, _⟩ := this
        simp only [List.length_take]
        omega
      obtain ⟨h1, h2⟩ := List.append_inj h hl
      simp only [List.cons.injEq, and_true] at h2
      exact ⟨h1, by rw [h2]⟩
  · rintro ⟨h1, h2⟩
    rw [h2, h1]
    rfl


theorem begins_with_mem (p q : List Nat) (h : begins_with p q = true) : ∀ x ∈ q, x ∈ p := by
  simp only [begins_with, decide_eq_true_eq] at h
  intro x hx
  rw [← h] at hx
  exact List.mem_of_mem_take hx

theorem begins_with_next (R : Nat → Nat → Prop) (p q : List Nat) (last : Nat)
    (h : begins_with p q = true) (hlast : q.getLast? = some last) (hlen : q.length < p.length)
    (hchain : List.Chain' R p) :
    ∃ x, p[q.length]? = some x ∧ R last x := by
  simp only [begins_with, decide_eq_true_eq] at h
  refine ⟨p[q.length], List.getElem?_eq_getElem hlen, ?_⟩
  have hsplit : p = q ++ p[q.length] :: p.drop (q.length + 1) := by
    conv_lhs => rw [← List.take_append_drop q.length p, h, List.drop_eq_getElem_cons hlen]
  rw [hsplit] at hchain
  have := (List.chain'_append.1 hchain).2.2 last (by rw [hlast]; rfl) p[q.length] (by simp)
  exact this

/-- The number of copies of a maximal path `p` in the final result is the
number already collected plus the number of stacked paths that are initial
segments of `p`. -/
theorem find_all_paths_loop_count (g : CandidateGraph)
    (hdup : ∀ (a : Nat) (node : CandidateNode), g[a]? = some node → node.nodes.Nodup)
    (root : Nat) (p : List Nat) (hp : is_maximal_path g root p) :
    ∀ (fuel : Nat) (stack paths res : List (List Nat)),
      find_all_paths_loop g fuel stack paths = some res →
      res.count p = paths.count p + stack.countP (begins_with p) := by
  obtain ⟨_, hchain, hun, plast, hplast, hpmax⟩ := hp
  intro fuel
  induction fuel with
  | zero =>
    intro stack paths res h
    cases stack with
    | nil => simp [find_all_paths_loop] at h; subst h; simp
    | cons c s => simp [find_all_paths_loop] at h
  | succ fuel ih =>
    intro stack paths res h
    cases stack with
    | nil => simp [find_all_paths_loop] at h; subst h; simp
    | cons curr stack =>
      unfold find_all_paths_loop at h
      cases hl : curr.getLast? with
      | none => rw [hl] at h; simp at h
      | some last =>
        rw [hl] at h
        simp only at h
        cases hg : g[last]? with
        | none => rw [hg] at h; simp at h
        | some node =>
          rw [hg] at h
          simp only at h
          rw [List.countP_cons]
          by_cases hv : node.visited = true
          · simp only [hv, if_true] at h
            have hnb : begins_with p curr = false := by
              by_contra hb
              have hb' : begins_with p curr = true := by simpa using hb
              have hmem : last ∈ curr := List.mem_of_getLast?_eq_some hl
              obtain ⟨n', hn', hv'⟩ := hun last (begins_with_mem p curr hb' last hmem)
              rw [hg] at hn'
              cases hn'
              rw [hv] at hv'
              cases hv'
            rw [ih stack paths res h, hnb]
            simp
          · have hv' : node.visited = false := by simpa using hv
            simp only [hv', Bool.false_eq_true, if_false] at h
            cases hpush : push_successors g curr node.nodes (true, stack) with
            | none => rw [hpush] at h; simp at h
            | some r =>
              rw [hpush] at h
              obtain ⟨hr, hrange⟩ := push_successors_eq g curr _ _ _ _ hpush
              obtain ⟨pf, stack'⟩ := r
              simp only [Prod.mk.injEq, Bool.true_and] at hr
              obtain ⟨hpf, hst⟩ := hr
              simp only at h
              have hcount' : stack'.countP (begins_with p) =
                  (node.nodes.filter (fun x => !node_visited g x)).countP
                    (fun y => begins_with p (curr ++ [y])) + stack.countP (begins_with p) := by
                rw [hst, List.countP_append, List.countP_reverse, List.countP_map]
                rfl
              have hres : res.count p =
                  (if pf then (paths ++ [curr]).count p else paths.count p) +
                    stack'.countP (begins_with p) := by
                by_cases hfin : pf = true
                · simp only [hfin, if_true] at h ⊢
                  exact ih stack' _ res h
                · have hfin' : pf = false := by simpa using hfin
                  simp only [hfin', Bool.false_eq_true, if_false] at h ⊢
                  exact ih stack' _ res h
              rw [hres, hcount']
              by_cases hb : begins_with p curr = true
              · by_cases hlen : curr.length < p.length
                · -- a proper initial segment: exactly one extension continues `p`
                  obtain ⟨x, hx, hsucc⟩ :=
                    begins_with_next (is_successor g) p curr last hb hl hlen hchain
                  obtain ⟨n', hn', hxn⟩ := hsucc
                  rw [hg] at hn'
                  cases hn'
                  have hxun := (is_unvisited_iff g x).1 (hun x (List.getElem?_mem hx))
                  have hxf : x ∈ node.nodes.filter (fun x => !node_visited g x) := by
                    rw [List.mem_filter]
                    exact ⟨hxn, by simp [hxun.2]⟩
                  have hpf' : pf = false := by
                    rw [hpf]
                    apply Bool.eq_false_iff.2
                    intro hall
                    have := List.all_eq_true.1 hall x hxn
                    rw [hxun.2] at this
                    cases this
                  have hcnt : (node.nodes.filter (fun x => !node_visited g x)).countP
                      (fun y => begins_with p (curr ++ [y])) = 1 := by
                    have hcongr : (node.nodes.filter (fun x => !node_visited g x)).countP
                        (fun y => begins_with p (curr ++ [y])) =
                        (node.nodes.filter (fun x => !node_visited g x)).countP (fun y => y == x) := by
                      apply List.countP_congr
                      intro y _
                      rw [begins_with_concat, hx]
                      simp only [hb, true_and, Option.some.injEq, beq_iff_eq]
                      exact eq_comm
                    rw [hcongr]
                    exact List.count_eq_one_of_mem ((hdup last node hg).filter _) hxf
                  have hne : curr ≠ p := by
                    intro he
                    rw [he] at hlen
                    omega
                  rw [hcnt, hpf', hb]
                  simp
                  omega
                · -- the whole path: nothing is pushed and the path is emitted
                  have hcp : curr = p := begins_with_eq p curr hb (by omega)
                  have hlast_eq : plast = last := by
                    rw [hcp, hplast] at hl
                    exact Option.some.inj hl
                  have hallv : ∀ x ∈ node.nodes, node_visited g x = true := by
                    intro x hx
                    have hnot := hpmax x ⟨node, by rw [hlast_eq]; exact hg, hx⟩
                    rw [is_unvisited_iff] at hnot
                    by_contra hc
                    exact hnot ⟨hrange x hx, by simpa using hc⟩
                  have hfilter : node.nodes.filter (fun x => !node_visited g x) = [] := by
                    rw [List.filter_eq_nil_iff]
                    intro x hx
                    simp [hallv x hx]
                  have hpf' : pf = true := by
                    rw [hpf]
                    exact List.all_eq_true.2 hallv
                  rw [hfilter, hpf', hb, hcp]
                  simp
                  omega
              · have hb' : begins_with p curr = false := by simpa using hb
                have hcnt : (node.nodes.filter (fun x => !node_visited g x)).countP
                    (fun y => begins_with p (curr ++ [y])) = 0 := by
                  rw [List.countP_eq_zero]
                  intro y _ hy
                  have := ((begins_with_concat p curr y).1 hy).1
                  rw [hb'] at this
                  cases this
                have hne : curr ≠ p := by
                  intro he
                  rw [he, begins_with_self] at hb'
                  cases hb'
                have hcnt2 : (paths ++ [curr]).count p = paths.count p := by
                  rw [List.count_append, List.count_singleton]
                  simp [hne]
                rw [hcnt, hb']
                split <;> simp [hcnt2]

theorem find_all_paths_count_one (fuel : Nat) (g : CandidateGraph) (root : Nat)
    (paths : List (List Nat))
    (hdup : ∀ (a : Nat) (node : CandidateNode), g[a]? = some node → node.nodes.Nodup)
    (h : find_all_paths fuel g root = some paths)
    (p : List Nat) (hp : is_maximal_path g root p) :
    paths.count p = 1 := by
  have hcount := find_all_paths_loop_count g hdup root p hp fuel [[root]] [] paths h
  rw [hcount]
  have hb : begins_with p [root] = true := by
    obtain ⟨hhead, _⟩ := hp
    cases p with
    | nil => simp at hhead
    | cons a t =>
      simp only [List.head?_cons, Option.some.injEq] at hhead
      subst hhead
      simp [begins_with]
  simp [hb]

theorem nodup_range_length (l : List Nat) (n : Nat) (hd : l.Nodup) (hr : ∀ b ∈ l, b < n) :
    l.length ≤ n := by
  have hsub : l ⊆ List.range n := fun x hx => List.mem_range.2 (hr x hx)
  have := (List.subperm_of_subset hd hsub).length_le
  simpa using this

/-- C11. Path enumerator completeness: in a graph whose successor lists are
duplicate-free and contain only indices larger than their node (and inside the
graph), every maximal path of unvisited nodes that starts at the root occurs
exactly once in every result of `find_all_paths`, whatever its length, and
`find_all_paths` does return a result once the fuel reaches `(n+1)^n` for `n`
nodes. -/
theorem find_all_paths_complete (g : CandidateGraph) (root : Nat)
    (hgraph : ∀ (a : Nat) (node : CandidateNode), g[a]? = some node →
      node.nodes.Nodup ∧ ∀ b ∈ node.nodes, a < b ∧ b < g.length)
    (p : List Nat) (hp : is_maximal_path g root p) :
    (∀ fuel paths, find_all_paths fuel g root = some paths → paths.count p = 1) ∧
    (∀ fuel, (g.length + 1) ^ g.length ≤ fuel →
      ∃ paths, find_all_paths fuel g root = some paths ∧ paths.count p = 1) := by
  have hcount : ∀ fuel paths, find_all_paths fuel g root = some paths → paths.count p = 1 :=
    fun fuel paths h =>
      find_all_paths_count_one fuel g root paths (fun a node ha => (hgraph a node ha).1) h p hp
  refine ⟨hcount, ?_⟩
  intro fuel hfuel
  have hok : graph_ok g.length g := by
    refine ⟨rfl, ?_⟩
    intro a node ha
    obtain ⟨hd, hr⟩ := hgraph a node ha
    exact ⟨nodup_range_length _ _ hd (fun b hb => (hr b hb).2), hr⟩
  have hroot : root < g.length := by
    obtain ⟨hhead, _, hun, _⟩ := hp
    cases p with
    | nil => simp at hhead
    | cons a t =>
      simp only [List.head?_cons, Option.some.injEq] at hhead
      subst hhead
      exact ((is_unvisited_iff g a).1 (hun a (List.mem_cons_self _ _))).1
  obtain ⟨paths, hpaths⟩ := find_all_paths_terminates g.length g hok root fuel hroot hfuel
  exact ⟨paths, hpaths, hcount fuel paths hpaths⟩

theorem branching_graph_shape :
    ∀ (a : Nat) (node : CandidateNode), branching_graph[a]? = some node →
      node.nodes.Nodup ∧ ∀ b ∈ node.nodes, a < b ∧ b < branching_graph.length := by
  intro a node h
  match a, h with
  | 0, h => simp [branching_graph] at h; subst h; decide
  | 1, h => simp [branching_graph] at h; subst h; decide
  | 2, h => simp [branching_graph] at h; subst h; decide
  | a + 3, h => simp [branching_graph] at h

theorem branching_graph_short_path : is_maximal_path branching_graph 0 [0, 2] := by
  refine ⟨rfl, ?_, ?_, 2, rfl, ?_⟩
  · simp only [List.chain'_cons, List.chain'_singleton, and_true]
    exact ⟨⟨7, false, [1, 2]⟩, rfl, by decide⟩
  · intro x hx
    simp only [List.mem_cons, List.mem_singleton, List.not_mem_nil, or_false] at hx
    rcases hx with rfl | rfl
    · exact ⟨_, rfl, rfl⟩
    · exact ⟨_, rfl, rfl⟩
  · rintro j ⟨n, hn, hj⟩
    simp only [branching_graph, List.getElem?_cons_succ, List.getElem?_cons_zero,
      Option.some.injEq] at hn
    subst hn
    cases hj

/-- C11 (witness): in `branching_graph` the enumerator returns `[0, 2]` and
`[0, 1, 2]`, and the short maximal path `[0, 2]` occurs exactly once. -/
theorem find_all_paths_complete_witness :
    find_all_paths 10 branching_graph 0 = some [[0, 2], [0, 1, 2]] ∧
    is_maximal_path branching_graph 0 [0, 2] ∧
    ([[0, 2], [0, 1, 2]] : List (List Nat)).count [0, 2] = 1 :=
  ⟨by decide, branching_graph_short_path,
    (find_all_paths_complete branching_graph 0 branching_graph_shape
      [0, 2] branching_graph_short_path).1 10 _ (by decide)⟩


/-! ## The seed loop: reachable states -/

theorem seed_reachable_inv (rt : Runtime) (fuel : Nat) (table : List (ℚ × List ℚ))
    (ref : List Peak) (cs : List Nat) (st : SeedState)
    (h : seed_reachable rt fuel table ref cs st) : ∃ bests, seed_inv ref cs bests st := by
  induction h with
  | init => exact ⟨[], seed_inv_init ref cs⟩
  | step st st' _ _ hstep ih =>
    obtain ⟨bests, hinv⟩ := ih
    rcases seed_step_inv rt fuel table ref cs bests st st' hinv hstep with
      ⟨hinv', _⟩ | ⟨b, hinv', _, _, _⟩
    · exact ⟨bests, hinv'⟩
    · exact ⟨bests ++ [b], hinv'⟩

/-- A property of features that holds of every feature built from the best
candidate of a reachable state holds of every feature the loop returns. -/
theorem seed_loop_accepts (rt : Runtime) (fuel : Nat) (table : List (ℚ × List ℚ))
    (ref : List Peak) (cs : List Nat) (Q : Feature → Prop)
    (hQ : ∀ st best, seed_reachable rt fuel table ref cs st → st.i < ref.length →
      score_charges rt fuel table ref st.i cs st.graphs ⟨0, [], 0⟩ = some best →
      2 ≤ best.best_path.length → Q (build_feature ref best)) :
    ∀ (n : Nat) (st : SeedState) (fs : List Feature),
      seed_reachable rt fuel table ref cs st → (∀ f ∈ st.features, Q f) →
      seed_loop rt fuel table ref cs n st = some fs → ∀ f ∈ fs, Q f := by
  intro n
  induction n with
  | zero =>
    intro st fs _ hfeat h
    unfold seed_loop at h
    split at h
    · simp at h
    · simp only [Option.some.injEq] at h
      rw [← h]; exact hfeat
  | succ n ih =>
    intro st fs hreach hfeat h
    unfold seed_loop at h
    split at h
    · next hi =>
      cases hstep : seed_step rt fuel table ref cs st with
      | none => rw [hstep] at h; simp at h
      | some st' =>
        rw [hstep] at h
        simp only at h
        refine ih st' fs (seed_reachable.step st st' hreach hi hstep) ?_ h
        unfold seed_step at hstep
        cases hbest : score_charges rt fuel table ref st.i cs st.graphs ⟨0, [], 0⟩ with
        | none => rw [hbest] at hstep; simp at hstep
        | some best =>
          rw [hbest] at hstep
          simp only at hstep
          by_cases hlen : best.best_path.length < 2
          · rw [if_pos hlen] at hstep
            simp only [Option.some.injEq] at hstep
            rw [← hstep]
            exact hfeat
          · rw [if_neg hlen] at hstep
            simp only [Option.some.injEq] at hstep
            rw [← hstep]
            intro f hf
            simp only [List.mem_append, List.mem_singleton] at hf
            rcases hf with hf | rfl
            · exact hfeat f hf
            · exact hQ st best hreach hi hbest (by omega)
    · simp only [Option.some.injEq] at h
      rw [← h]; exact hfeat

theorem greedy_features_accepts (rt : Runtime) (fuel : Nat) (table : List (ℚ × List ℚ))
    (peaks : List Peak) (cs : List Nat) (Q : Feature → Prop)
    (hQ : ∀ st best, seed_reachable rt fuel table (ref_peaks peaks) cs st →
      st.i < (ref_peaks peaks).length →
      score_charges rt fuel table (ref_peaks peaks) st.i cs st.graphs ⟨0, [], 0⟩ = some best →
      2 ≤ best.best_path.length → Q (build_feature (ref_peaks peaks) best))
    (fs : List Feature) (h : greedy_features rt fuel table peaks cs = some fs) :
    ∀ f ∈ fs, Q f :=
  seed_loop_accepts rt fuel table (ref_peaks peaks) cs Q hQ fuel _ fs seed_reachable.init
    (by intro f hf; cases hf) h

theorem greedy_features_some (rt : Runtime) (table : List (ℚ × List ℚ)) (peaks : List Peak)
    (cs : List Nat) (fuel : Nat)
    (hfuel : 2 * peaks.length + (peaks.length + 1) ^ peaks.length ≤ fuel) :
    ∃ gs, greedy_features rt fuel table peaks cs = some gs := by
  have hlen : (ref_peaks peaks).length = peaks.length := (ref_peaks_perm peaks).length_eq
  unfold greedy_features
  simp only
  refine seed_loop_some rt fuel _ (ref_peaks peaks) cs (by rw [hlen]; omega) fuel []
    _ (seed_inv_init _ cs) ?_
  unfold seed_measure
  rw [hlen]
  simp only [claimed, List.map_nil, List.flatten_nil, List.length_nil]
  omega

theorem sort_nil (rt : Runtime) (hsort : sort_permutes rt) (cmp : Feature → Feature → Bool) :
    rt.sort cmp [] = [] :=
  List.Perm.eq_nil (hsort cmp [])

theorem detect_features_of_greedy (rt : Runtime) (fuel : Nat) (peaks : List Peak)
    (cs : List Nat) (gs : List Feature)
    (h : greedy_features rt fuel averagine_table peaks cs = some gs) :
    detect_features rt fuel peaks cs = some (assign_ids (rt.sort sort_features gs) 0) := by
  unfold detect_features
  rw [h]

/-- The flag of node `p` in any graph of a state that satisfies the invariant
tells whether `p` has been claimed. -/
theorem seed_inv_visited (ref : List Peak) (cs : List Nat) (bests : List Best) (st : SeedState)
    (hinv : seed_inv ref cs bests st) (g : CandidateGraph) (hg : g ∈ st.graphs) (p : Nat)
    (hp : p < ref.length) : node_visited g p = decide (p ∈ claimed bests) := by
  rw [hinv.1] at hg
  obtain ⟨c, _, rfl⟩ := List.mem_map.1 hg
  rw [mark_nodes_visited _ _ _ (by rw [(build_graph_ok c ref).1]; exact hp),
    build_graph_unvisited]
  simp


theorem node_visited_out_of_range (g : CandidateGraph) (p : Nat) (hp : g.length ≤ p) :
    node_visited g p = false := by
  unfold node_visited
  rw [List.getElem?_eq_none hp]

theorem seed_inv_graph_length (ref : List Peak) (cs : List Nat) (bests : List Best)
    (st : SeedState) (hinv : seed_inv ref cs bests st) (g : CandidateGraph)
    (hg : g ∈ st.graphs) : g.length = ref.length := by
  rw [hinv.1] at hg
  obtain ⟨c, _, rfl⟩ := List.mem_map.1 hg
  exact (mark_nodes_ok _ _ _ (build_graph_ok c ref)).1

theorem mem_claimed (bests : List Best) (p : Nat) :
    p ∈ claimed bests ↔ ∃ b ∈ bests, p ∈ b.best_path := by
  unfold claimed
  rw [List.mem_flatten]
  constructor
  · rintro ⟨l, hl, hp⟩
    obtain ⟨b, hb, rfl⟩ := List.mem_map.1 hl
    exact ⟨b, hb, hp⟩
  · rintro ⟨b, hb, hp⟩
    exact ⟨_, List.mem_map_of_mem _ hb, hp⟩

/-- C20. Visited flags are synchronised: in every state in which the seed loop
of `detect_features` starts an iteration, the visited flag of node `p` is the
same in the graphs of all charge states, and (the peak identifiers being
pairwise distinct) node `p` is visited if and only if the identifier of its
peak is listed in an already emitted feature. -/
theorem visited_flags_synchronised (rt : Runtime) (fuel : Nat) (peaks : List Peak)
    (cs : List Nat) (st : SeedState)
    (hreach : seed_reachable rt fuel averagine_table (ref_peaks peaks) cs st) :
    (∀ g1 ∈ st.graphs, ∀ g2 ∈ st.graphs, ∀ p, node_visited g1 p = node_visited g2 p) ∧
    ((peaks.map (fun q => q.id)).Nodup →
      ∀ g ∈ st.graphs, ∀ p, p < (ref_peaks peaks).length →
        (node_visited g p = true ↔
          ∃ f ∈ st.features, (peak_of (ref_peaks peaks) p).id ∈ f.peak_ids)) := by
  obtain ⟨bests, hinv⟩ := seed_reachable_inv rt fuel _ _ cs st hreach
  refine ⟨?_, ?_⟩
  · intro g1 hg1 g2 hg2 p
    by_cases hp : p < (ref_peaks peaks).length
    · rw [seed_inv_visited _ cs bests st hinv g1 hg1 p hp,
        seed_inv_visited _ cs bests st hinv g2 hg2 p hp]
    · rw [node_visited_out_of_range g1 p
          (by rw [seed_inv_graph_length _ cs bests st hinv g1 hg1]; omega),
        node_visited_out_of_range g2 p
          (by rw [seed_inv_graph_length _ cs bests st hinv g2 hg2]; omega)]
  · intro hids g hg p hp
    have hrefids : ((ref_peaks peaks).map (fun q => q.id)).Nodup :=
      (((ref_peaks_perm peaks).map (fun q => q.id)).nodup_iff).2 hids
    rw [seed_inv_visited _ cs bests st hinv g hg p hp, decide_eq_true_eq, mem_claimed,
      hinv.2.1]
    constructor
    · rintro ⟨b, hb, hpb⟩
      refine ⟨build_feature (ref_peaks peaks) b, List.mem_map_of_mem _ hb, ?_⟩
      rw [build_feature_peak_ids]
      exact List.mem_map_of_mem (fun x => (peak_of (ref_peaks peaks) x).id) hpb
    · rintro ⟨f, hf, hpf⟩
      obtain ⟨b, hb, rfl⟩ := List.mem_map.1 hf
      rw [build_feature_peak_ids] at hpf
      obtain ⟨x, hx, hxp⟩ := List.mem_map.1 hpf
      have hxlt : x < (ref_peaks peaks).length := (hinv.2.2.2 b hb).2.2 x hx
      have : x = p := peak_of_id_inj _ hrefids x p hxlt hp hxp
      exact ⟨b, hb, this ▸ hx⟩

set_option maxRecDepth 100000 in
/-- C20 (witness): the state of the seed loop on `two_envelopes` after its first
iteration is reachable; it has one feature, and the flags of its two graphs
agree at every node. -/
theorem visited_flags_synchronised_witness :
    ((seed_step zero_runtime 10 averagine_table (ref_peaks two_envelopes) [1, 2]
        ⟨0, [1, 2].map (fun c => build_graph c (ref_peaks two_envelopes) 0), []⟩).getD
          default).features.length = 1 ∧
    (∀ g1 ∈ ((seed_step zero_runtime 10 averagine_table (ref_peaks two_envelopes) [1, 2]
        ⟨0, [1, 2].map (fun c => build_graph c (ref_peaks two_envelopes) 0), []⟩).getD
          default).graphs,
      ∀ g2 ∈ ((seed_step zero_runtime 10 averagine_table (ref_peaks two_envelopes) [1, 2]
        ⟨0, [1, 2].map (fun c => build_graph c (ref_peaks two_envelopes) 0), []⟩).getD
          default).graphs,
      ∀ p, node_visited g1 p = node_visited g2 p) :=
  ⟨by decide!,
    (visited_flags_synchronised zero_runtime 10 two_envelopes [1, 2] _
      (seed_reachable.step _ _ seed_reachable.init (by decide!) (by decide!))).1⟩


/-! ## Lookup misses -/

theorem lookup_none_iff (table : List (ℚ × List ℚ)) (x : ℚ) :
    lookup_ref_heights table x = none ↔ ∀ e ∈ table, e.1 < x := by
  unfold lookup_ref_heights lower_bound
  constructor
  · intro h
    have hnil : table.dropWhile (fun e => decide (e.1 < x)) = [] := by
      cases hd : table.dropWhile (fun e => decide (e.1 < x)) with
      | nil => rfl
      | cons e rest =>
        rw [hd] at h
        cases rest with
        | nil => simp at h
        | cons e' rest' =>
          simp only at h
          split at h <;> simp at h
    intro e he
    have := List.dropWhile_eq_nil_iff.1 hnil e he
    simpa using this
  · intro h
    have hnil : table.dropWhile (fun e => decide (e.1 < x)) = [] := by
      rw [List.dropWhile_eq_nil_iff]
      intro e he
      simpa using h e he
    rw [hnil]

set_option maxRecDepth 100000 in
theorem averagine_keys_le : ∀ e ∈ averagine_table, e.1 ≤ 3999.848 := by
  decide!

set_option maxRecDepth 100000 in
theorem averagine_last_key :
    averagine_table.getLast? =
      some (3999.848, [42.17, 89.57, 100, 78.98, 49.11, 27.68, 11.32, 4.83, 1.46, 0.45, 0.16,
        0.12]) := by
  decide!

theorem averagine_lookup_none_iff (x : ℚ) :
    lookup_ref_heights averagine_table x = none ↔ 3999.848 < x := by
  rw [lookup_none_iff]
  constructor
  · intro h
    exact h _ (List.mem_of_getLast?_eq_some averagine_last_key)
  · intro h e he
    exact lt_of_le_of_lt (averagine_keys_le e he) h

theorem score_charges_skip (rt : Runtime) (fuel : Nat) (table : List (ℚ × List ℚ))
    (ref : List Peak) (i c : Nat) (cs : List Nat) (g : CandidateGraph)
    (gs : List CandidateGraph) (best : Best) (paths : List (List Nat))
    (hpaths : find_all_paths fuel g i = some paths)
    (hmiss : lookup_ref_heights table ((peak_of ref i).fitted_mz * (c : ℚ)) = none) :
    score_charges rt fuel table ref i (c :: cs) (g :: gs) best =
      score_charges rt fuel table ref i cs gs best := by
  conv_lhs => unfold score_charges
  rw [hpaths]
  simp only
  rw [hmiss]

/-- When no candidate of at least two nodes can win in a reachable state, the
greedy loop emits nothing. -/
theorem greedy_features_nil (rt : Runtime) (fuel : Nat) (table : List (ℚ × List ℚ))
    (peaks : List Peak) (cs : List Nat)
    (hno : ∀ st best, seed_reachable rt fuel table (ref_peaks peaks) cs st →
      st.i < (ref_peaks peaks).length →
      score_charges rt fuel table (ref_peaks peaks) st.i cs st.graphs ⟨0, [], 0⟩ = some best →
      ¬ 2 ≤ best.best_path.length)
    (fs : List Feature) (h : greedy_features rt fuel table peaks cs = some fs) : fs = [] := by
  have := greedy_features_accepts rt fuel table peaks cs (fun _ => False)
    (fun st best hr hi hb hl => hno st best hr hi hb hl) fs h
  cases fs with
  | nil => rfl
  | cons f rest => exact absurd (this f (List.mem_cons_self _ _)) id

theorem greedy_features_all_miss (rt : Runtime) (fuel : Nat) (table : List (ℚ × List ℚ))
    (peaks : List Peak) (cs : List Nat)
    (hmiss : ∀ p ∈ peaks, ∀ c ∈ cs, lookup_ref_heights table (p.fitted_mz * (c : ℚ)) = none)
    (fs : List Feature) (h : greedy_features rt fuel table peaks cs = some fs) : fs = [] := by
  refine greedy_features_nil rt fuel table peaks cs ?_ fs h
  intro st best _ hi hbest hlen
  obtain ⟨hc, _⟩ := score_charges_cases rt fuel table _ st.i cs st.graphs _ best hbest
  rcases hc with hc | ⟨c, g, paths, rh, path, hzip, _, hlook, _, _, _, _⟩
  · rw [hc] at hlen
    simp at hlen
  · have hp : peak_of (ref_peaks peaks) st.i ∈ peaks :=
      (ref_peaks_perm peaks).mem_iff.1 (peak_of_mem _ _ hi)
    rw [hmiss _ hp c (List.of_mem_zip hzip).1] at hlook
    cases hlook

/-- C14. Lookup miss: the envelope lookup of `detect_features` fails exactly
when the query mass `fitted_mz(seed) * charge` is greater than the largest table
key 3999.848; in that case the paths of that charge state are not scored for
that seed; and if `fitted_mz * charge` exceeds 3999.848 for every peak and every
supplied charge state, `detect_features` returns no feature. -/
theorem lookup_miss (rt : Runtime) :
    (∀ x : ℚ, lookup_ref_heights averagine_table x = none ↔ 3999.848 < x) ∧
    (∀ (fuel : Nat) (ref : List Peak) (i c : Nat) (cs : List Nat) (g : CandidateGraph)
        (gs : List CandidateGraph) (best : Best) (paths : List (List Nat)),
      find_all_paths fuel g i = some paths →
      3999.848 < (peak_of ref i).fitted_mz * (c : ℚ) →
      score_charges rt fuel averagine_table ref i (c :: cs) (g :: gs) best =
        score_charges rt fuel averagine_table ref i cs gs best) ∧
    (∀ (peaks : List Peak) (cs : List Nat),
      (∀ p ∈ peaks, ∀ c ∈ cs, 3999.848 < p.fitted_mz * (c : ℚ)) →
      (∀ fuel gs, greedy_features rt fuel averagine_table peaks cs = some gs → gs = []) ∧
      (sort_permutes rt →
        ∀ fuel, 2 * peaks.length + (peaks.length + 1) ^ peaks.length ≤ fuel →
          detect_features rt fuel peaks cs = some [])) := by
  refine ⟨averagine_lookup_none_iff, ?_, ?_⟩
  · intro fuel ref i c cs g gs best paths hpaths hbig
    exact score_charges_skip rt fuel _ ref i c cs g gs best paths hpaths
      ((averagine_lookup_none_iff _).2 hbig)
  · intro peaks cs hbig
    have hmiss : ∀ p ∈ peaks, ∀ c ∈ cs,
        lookup_ref_heights averagine_table (p.fitted_mz * (c : ℚ)) = none :=
      fun p hp c hc => (averagine_lookup_none_iff _).2 (hbig p hp c hc)
    refine ⟨fun fuel gs h => greedy_features_all_miss rt fuel _ peaks cs hmiss gs h, ?_⟩
    intro hsort fuel hfuel
    obtain ⟨gs, hgs⟩ := greedy_features_some rt averagine_table peaks cs fuel hfuel
    have hnil := greedy_features_all_miss rt fuel _ peaks cs hmiss gs hgs
    rw [detect_features_of_greedy rt fuel peaks cs gs hgs, hnil, sort_nil rt hsort]
    rfl


set_option maxRecDepth 100000 in
/-- C14 (witness): for `heavy_peaks` and the charge states 1 and 2 every query
mass exceeds 3999.848, and `detect_features` returns the empty list. -/
theorem lookup_miss_witness :
    (∀ p ∈ heavy_peaks, ∀ c ∈ [1, 2], 3999.848 < p.fitted_mz * ((c : Nat) : ℚ)) ∧
    detect_features zero_runtime 100 heavy_peaks [1, 2] = some [] :=
  ⟨by decide!,
    ((lookup_miss zero_runtime).2.2 heavy_peaks [1, 2] (by decide!)).2
      zero_runtime_sort_permutes 100 (by decide)⟩

/-! ## Charge state 0 -/

theorem build_graph_zero :
    ∀ (l : List Peak) (i a : Nat) (node : CandidateNode),
      (build_graph 0 l i)[a]? = some node → node.nodes = [] := by
  intro l
  induction l with
  | nil => intro i a node h; simp [build_graph] at h
  | cons p rest ih =>
    intro i a node h
    unfold build_graph at h
    cases a with
    | zero =>
      simp only [List.getElem?_cons_zero, Option.some.injEq] at h
      rw [← h]
      simp [build_node]
    | succ a =>
      simp only [List.getElem?_cons_succ] at h
      exact ih (i + 1) a node h

theorem mark_nodes_edgeless (g : CandidateGraph) (path : List Nat)
    (h : ∀ (a : Nat) (node : CandidateNode), g[a]? = some node → node.nodes = []) :
    ∀ (a : Nat) (node : CandidateNode), (mark_nodes g path)[a]? = some node → node.nodes = [] := by
  intro a node ha
  rw [mark_nodes_getElem?] at ha
  cases hg : g[a]? with
  | none => rw [hg] at ha; simp at ha
  | some n =>
    rw [hg] at ha
    simp only [Option.map_some', Option.some.injEq] at ha
    have := h a n hg
    rw [← ha]
    split <;> exact this

theorem mem_zip_map (F : Nat → CandidateGraph) :
    ∀ (l : List Nat) (c : Nat) (g : CandidateGraph), (c, g) ∈ l.zip (l.map F) → g = F c := by
  intro l
  induction l with
  | nil => intro c g h; simp at h
  | cons a rest ih =>
    intro c g h
    simp only [List.map_cons, List.zip_cons_cons, List.mem_cons, Prod.mk.injEq] at h
    rcases h with ⟨rfl, rfl⟩ | h
    · rfl
    · exact ih c g h

theorem edgeless_paths_short (g : CandidateGraph)
    (h : ∀ (a : Nat) (node : CandidateNode), g[a]? = some node → node.nodes = [])
    (fuel i : Nat) (paths : List (List Nat)) (hp : find_all_paths fuel g i = some paths) :
    ∀ p ∈ paths, p.length < 2 := by
  intro p hpm
  obtain ⟨_, hchain, _, _⟩ := find_all_paths_maximal fuel g i paths hp p hpm
  match p, hchain with
  | [], _ => simp
  | [_], _ => simp
  | a :: b :: t, hchain =>
    obtain ⟨node, hnode, hb⟩ := (List.chain'_cons.1 hchain).1
    rw [h a node hnode] at hb
    cases hb

theorem score_paths_short (rt : Runtime) (ref : List Peak) (rh : List ℚ) (c : Nat) :
    ∀ (paths : List (List Nat)) (best : Best), (∀ p ∈ paths, p.length < 2) →
      score_paths rt ref rh c paths best = best := by
  intro paths
  induction paths with
  | nil => intro best _; rfl
  | cons p rest ih =>
    intro best h
    unfold score_paths
    rw [if_pos (h p (List.mem_cons_self _ _))]
    exact ih best (fun q hq => h q (List.mem_cons_of_mem _ hq))

theorem add_peaks_charge_state (ref : List Peak) :
    ∀ (path : List Nat) (i : Nat) (f : Feature),
      (add_peaks ref path i f).charge_state = f.charge_state ∧
      (add_peaks ref path i f).score = f.score := by
  intro path
  induction path with
  | nil => intro i f; exact ⟨rfl, rfl⟩
  | cons x rest ih =>
    intro i f
    unfold add_peaks
    rw [(ih _ _).1, (ih _ _).2]
    exact ⟨rfl, rfl⟩

theorem build_feature_charge_state (ref : List Peak) (b : Best) :
    (build_feature ref b).charge_state = b.best_charge_state := by
  unfold build_feature
  simp only
  rw [(add_peaks_charge_state ref _ _ _).1]

theorem seed_inv_zero_slot (ref : List Peak) (cs : List Nat) (bests : List Best)
    (st : SeedState) (hinv : seed_inv ref cs bests st) (g : CandidateGraph)
    (hg : (0, g) ∈ cs.zip st.graphs) :
    ∀ (a : Nat) (node : CandidateNode), g[a]? = some node → node.nodes = [] := by
  rw [hinv.1] at hg
  have := mem_zip_map (fun c => mark_nodes (build_graph c ref 0) (claimed bests)) cs 0 g hg
  rw [this]
  exact mark_nodes_edgeless _ _ (build_graph_zero ref 0)

theorem greedy_charge_nonzero (rt : Runtime) (fuel : Nat) (table : List (ℚ × List ℚ))
    (peaks : List Peak) (cs : List Nat) (gs : List Feature)
    (h : greedy_features rt fuel table peaks cs = some gs) :
    ∀ f ∈ gs, f.charge_state ≠ 0 := by
  refine greedy_features_accepts rt fuel table peaks cs (fun f => f.charge_state ≠ 0) ?_ gs h
  intro st best hreach _ hbest hlen
  obtain ⟨bests, hinv⟩ := seed_reachable_inv rt fuel table _ cs st hreach
  obtain ⟨hc, _⟩ := score_charges_cases rt fuel table _ st.i cs st.graphs _ best hbest
  rw [build_feature_charge_state]
  rcases hc with hc | ⟨c, g, paths, rh, path, hzip, hfind, _, hpath, hplen, hr, _⟩
  · rw [hc] at hlen
    simp at hlen
  · rw [hr]
    intro hzero
    have hc0 : c = 0 := hzero
    subst hc0
    have hshort := edgeless_paths_short g
      (seed_inv_zero_slot _ cs bests st hinv g hzip) fuel st.i paths hfind path hpath
    omega

/-- The values of an id-independent field over the returned features are a
rearrangement of its values over the features emitted by the greedy loop. -/
theorem detect_features_field_perm {β : Type} (field : Feature → β)
    (hfield : ∀ f i, field { f with id := i } = field f)
    (rt : Runtime) (fuel : Nat) (peaks : List Peak) (cs : List Nat)
    (fs : List Feature) (hsort : sort_permutes rt)
    (h : detect_features rt fuel peaks cs = some fs) :
    ∃ gs, greedy_features rt fuel averagine_table peaks cs = some gs ∧
      (fs.map field).Perm (gs.map field) := by
  unfold detect_features at h
  cases hg : greedy_features rt fuel averagine_table peaks cs with
  | none => rw [hg] at h; simp at h
  | some gs =>
    rw [hg] at h
    simp only [Option.some.injEq] at h
    refine ⟨gs, rfl, ?_⟩
    rw [← h, assign_ids_map field hfield]
    exact (hsort sort_features gs).map _

/-- C15. Charge-zero no-op: the candidate graph built for a charge state 0 has
an empty successor list at every node, and keeps it in every state of the seed
loop; every path `find_all_paths` returns for such a slot has fewer than 2
nodes, so scoring the paths of the slot leaves the best candidate unchanged;
and no emitted or returned feature has charge state 0. -/
theorem charge_zero_noop (rt : Runtime) (fuel : Nat) (peaks : List Peak) (cs : List Nat) :
    (∀ (a : Nat) (node : CandidateNode),
      (build_graph 0 (ref_peaks peaks) 0)[a]? = some node → node.nodes = []) ∧
    (∀ st, seed_reachable rt fuel averagine_table (ref_peaks peaks) cs st →
      ∀ g, (0, g) ∈ cs.zip st.graphs →
        (∀ (a : Nat) (node : CandidateNode), g[a]? = some node → node.nodes = []) ∧
        ∀ i paths, find_all_paths fuel g i = some paths →
          (∀ p ∈ paths, p.length < 2) ∧
          ∀ rh c best, score_paths rt (ref_peaks peaks) rh c paths best = best) ∧
    (∀ gs, greedy_features rt fuel averagine_table peaks cs = some gs →
      ∀ f ∈ gs, f.charge_state ≠ 0) ∧
    (sort_permutes rt → ∀ fs, detect_features rt fuel peaks cs = some fs →
      ∀ f ∈ fs, f.charge_state ≠ 0) := by
  refine ⟨build_graph_zero _ 0, ?_, ?_, ?_⟩
  · intro st hreach g hg
    obtain ⟨bests, hinv⟩ := seed_reachable_inv rt fuel _ _ cs st hreach
    have hedge := seed_inv_zero_slot _ cs bests st hinv g hg
    refine ⟨hedge, ?_⟩
    intro i paths hpaths
    have hshort := edgeless_paths_short g hedge fuel i paths hpaths
    exact ⟨hshort, fun rh c best => score_paths_short rt _ rh c paths best hshort⟩
  · exact fun gs h => greedy_charge_nonzero rt fuel _ peaks cs gs h
  · intro hsort fs h f hf
    obtain ⟨gs, hg, hperm⟩ := detect_features_field_perm (fun f => f.charge_state)
      (fun _ _ => rfl) rt fuel peaks cs fs hsort h
    have hmem : f.charge_state ∈ gs.map (fun f => f.charge_state) :=
      hperm.mem_iff.1 (List.mem_map_of_mem _ hf)
    obtain ⟨g, hgm, hgf⟩ := List.mem_map.1 hmem
    rw [← hgf]
    exact greedy_charge_nonzero rt fuel _ peaks cs gs hg g hgm


set_option maxRecDepth 100000 in
/-- C15 (witness): with the charge states 0, 1 and 2 the features returned for
`two_envelopes` have the charge states 2 and 1, none has charge state 0. -/
theorem charge_zero_noop_witness :
    sort_permutes zero_runtime ∧
    (detect_features zero_runtime 10 two_envelopes [0, 1, 2]).map
        (fun fs => fs.map (fun f => f.charge_state)) = some [2, 1] ∧
    ∀ f ∈ (detect_features zero_runtime 10 two_envelopes [0, 1, 2]).getD [],
      f.charge_state ≠ 0 :=
  ⟨zero_runtime_sort_permutes, by decide!,
    (charge_zero_noop zero_runtime 10 two_envelopes [0, 1, 2]).2.2.2
      zero_runtime_sort_permutes _ (by decide!)⟩

/-! ## Empty inputs -/

theorem greedy_features_no_peaks (rt : Runtime) (fuel : Nat) (table : List (ℚ × List ℚ))
    (cs : List Nat) : greedy_features rt fuel table [] cs = some [] := by
  have href : ref_peaks [] = [] := rfl
  unfold greedy_features
  simp only [href]
  cases fuel <;> simp [seed_loop]

theorem greedy_features_no_charges (rt : Runtime) (fuel : Nat) (table : List (ℚ × List ℚ))
    (peaks : List Peak) (gs : List Feature)
    (h : greedy_features rt fuel table peaks [] = some gs) : gs = [] := by
  refine greedy_features_nil rt fuel table peaks [] ?_ gs h
  intro st best _ _ hbest hlen
  obtain ⟨hc, _⟩ := score_charges_cases rt fuel table _ st.i [] st.graphs _ best hbest
  rcases hc with hc | ⟨c, g, _, _, _, hzip, _⟩
  · rw [hc] at hlen
    simp at hlen
  · simp at hzip

/-- C16. Empty or trivial input: `detect_features` returns the empty feature
list when the peak list is empty, for any charge states, and when the
charge-state list is empty, for any peaks; the greedy loop emits nothing in
both cases, and `std::sort` (returning a rearrangement of its input) leaves the
empty list empty. -/
theorem detect_features_empty_input (rt : Runtime) :
    (∀ fuel cs, greedy_features rt fuel averagine_table [] cs = some []) ∧
    (∀ fuel peaks, 2 * peaks.length + (peaks.length + 1) ^ peaks.length ≤ fuel →
      greedy_features rt fuel averagine_table peaks [] = some []) ∧
    (sort_permutes rt →
      (∀ fuel cs, detect_features rt fuel [] cs = some []) ∧
      (∀ fuel peaks, 2 * peaks.length + (peaks.length + 1) ^ peaks.length ≤ fuel →
        detect_features rt fuel peaks [] = some [])) := by
  have h2 : ∀ fuel peaks, 2 * peaks.length + (peaks.length + 1) ^ peaks.length ≤ fuel →
      greedy_features rt fuel averagine_table peaks [] = some [] := by
    intro fuel peaks hfuel
    obtain ⟨gs, hgs⟩ := greedy_features_some rt averagine_table peaks [] fuel hfuel
    rw [hgs, greedy_features_no_charges rt fuel _ peaks gs hgs]
  refine ⟨fun fuel cs => greedy_features_no_peaks rt fuel _ cs, h2, ?_⟩
  intro hsort
  refine ⟨?_, ?_⟩
  · intro fuel cs
    rw [detect_features_of_greedy rt fuel [] cs [] (greedy_features_no_peaks rt fuel _ cs),
      sort_nil rt hsort]
    rfl
  · intro fuel peaks hfuel
    rw [detect_features_of_greedy rt fuel peaks [] [] (h2 fuel peaks hfuel), sort_nil rt hsort]
    rfl

set_option maxRecDepth 100000 in
/-- C16 (witness): no peaks with the charge states 1 and 2, and the scenario
peaks with no charge state. -/
theorem detect_features_empty_input_witness :
    sort_permutes zero_runtime ∧
    detect_features zero_runtime 0 [] [1, 2] = some [] ∧
    2 * scenario_peaks.length + (scenario_peaks.length + 1) ^ scenario_peaks.length ≤ 70 ∧
    detect_features zero_runtime 70 scenario_peaks [] = some [] :=
  ⟨zero_runtime_sort_permutes,
    ((detect_features_empty_input zero_runtime).2.2 zero_runtime_sort_permutes).1 0 [1, 2],
    by decide,
    ((detect_features_empty_input zero_runtime).2.2 zero_runtime_sort_permutes).2 70
      scenario_peaks (by decide)⟩


/-! ## The post-pass: identifiers -/

theorem assign_ids_getElem? :
    ∀ (l : List Feature) (k i : Nat) (f : Feature),
      (assign_ids l k)[i]? = some f → f.id = k + i := by
  intro l
  induction l with
  | nil => intro k i f h; simp [assign_ids] at h
  | cons g rest ih =>
    intro k i f h
    unfold assign_ids at h
    cases i with
    | zero =>
      simp only [List.getElem?_cons_zero, Option.some.injEq] at h
      rw [← h]
      rfl
    | succ i =>
      simp only [List.getElem?_cons_succ] at h
      have := ih (k + 1) i f h
      omega

/-- The loop `features[i].id = i` numbers the positions of the list it is given:
the feature at position `i` of the list returned by `detect_features` has
`id = i`, whatever `std::sort` returned. -/
theorem detect_features_sequential_ids (rt : Runtime) (fuel : Nat) (peaks : List Peak)
    (cs : List Nat) (fs : List Feature) (h : detect_features rt fuel peaks cs = some fs) :
    (∀ (i : Nat) (f : Feature), fs[i]? = some f → f.id = i) ∧
      fs.map (fun f => f.id) = List.range fs.length := by
  have hpos : ∀ (i : Nat) (f : Feature), fs[i]? = some f → f.id = i := by
    unfold detect_features at h
    cases hg : greedy_features rt fuel averagine_table peaks cs with
    | none => rw [hg] at h; simp at h
    | some gs =>
      rw [hg] at h
      simp only [Option.some.injEq] at h
      intro i f hf
      rw [← h] at hf
      have := assign_ids_getElem? _ 0 i f hf
      omega
  refine ⟨hpos, ?_⟩
  apply List.ext_getElem?
  intro i
  by_cases hi : i < fs.length
  · rw [List.getElem?_map, List.getElem?_eq_getElem hi, List.getElem?_range hi]
    simp only [Option.map_some', Option.some.injEq]
    exact hpos i _ (List.getElem?_eq_getElem hi)
  · rw [List.getElem?_eq_none (by simpa using hi), List.getElem?_eq_none (by simpa using hi)]

set_option maxRecDepth 100000 in
/-- The two features returned for `two_envelopes` carry the identifiers 0 and 1. -/
theorem detect_features_sequential_ids_witness :
    ((detect_features zero_runtime 10 two_envelopes [1, 2]).getD []).length = 2 ∧
    ((detect_features zero_runtime 10 two_envelopes [1, 2]).getD []).map (fun f => f.id)
      = List.range ((detect_features zero_runtime 10 two_envelopes [1, 2]).getD []).length :=
  ⟨by decide!,
    (detect_features_sequential_ids zero_runtime 10 two_envelopes [1, 2] _ (by decide!)).2⟩

/-! ## The post-pass: the comparator and the order of ties -/

set_option maxRecDepth 100000 in
/-- C17 (evaluation). For `tied_peaks` the greedy loop emits seventeen features
that all have the total volume 128, and the comparator `sort_features` holds
between every two of them, in both directions and of each with itself: the
range handed to `std::sort` has seventeen elements on which the comparator is
neither irreflexive nor asymmetric. -/
theorem sort_comparator_on_ties :
    (greedy_features zero_runtime 40 averagine_table tied_peaks [1]).map
        (fun gs => gs.map (fun f => f.total_volume)) = some (List.replicate 17 128) ∧
    ∀ a ∈ (greedy_features zero_runtime 40 averagine_table tied_peaks [1]).getD [],
      ∀ b ∈ (greedy_features zero_runtime 40 averagine_table tied_peaks [1]).getD [],
        sort_features a b = true := by
  decide!

theorem insert_from_back_perm (cmp : Feature → Feature → Bool) (val : Feature)
    (l : List Feature) : (insert_from_back cmp val l).Perm (val :: l) := by
  unfold insert_from_back
  have hsplit : l = (l.reverse.dropWhile (cmp val)).reverse
      ++ (l.reverse.takeWhile (cmp val)).reverse := by
    rw [← List.reverse_append, List.takeWhile_append_dropWhile, List.reverse_reverse]
  conv_rhs => rw [hsplit]
  exact List.perm_middle

theorem straight_insertion_sort_perm (cmp : Feature → Feature → Bool) :
    ∀ (l acc : List Feature),
      (l.foldl (fun sorted val => insert_from_back cmp val sorted) acc).Perm (acc ++ l) := by
  intro l
  induction l with
  | nil => intro acc; simp
  | cons x rest ih =>
    intro acc
    rw [List.foldl_cons]
    refine (ih _).trans ?_
    refine ((insert_from_back_perm cmp x acc).append_right rest).trans ?_
    simp only [List.cons_append]
    exact List.perm_middle.symm

theorem insertion_runtime_sort_permutes : sort_permutes insertion_runtime := by
  intro cmp l
  have := straight_insertion_sort_perm cmp l []
  simpa [insertion_runtime, straight_insertion_sort] using this

/-- Straight insertion with the comparator `sort_features` keeps a list ordered
by non-increasing total volume. -/
theorem insert_from_back_ordered (val : Feature) (l : List Feature)
    (h : l.Pairwise (fun a b => a.total_volume ≥ b.total_volume)) :
    (insert_from_back sort_features val l).Pairwise
      (fun a b => a.total_volume ≥ b.total_volume) := by
  have hrev : l.reverse.Pairwise (fun a b => a.total_volume ≤ b.total_volume) :=
    List.pairwise_reverse.2 h
  have hsplit := List.takeWhile_append_dropWhile (sort_features val) l.reverse
  rw [← hsplit, List.pairwise_append] at hrev
  obtain ⟨hT, hD, hTD⟩ := hrev
  have hTval : ∀ t ∈ l.reverse.takeWhile (sort_features val),
      t.total_volume ≤ val.total_volume := by
    intro t ht
    have := List.mem_takeWhile_imp ht
    simpa [sort_features] using this
  have hDval : ∀ d ∈ l.reverse.dropWhile (sort_features val),
      val.total_volume ≤ d.total_volume := by
    intro d hd
    cases hdw : l.reverse.dropWhile (sort_features val) with
    | nil => rw [hdw] at hd; cases hd
    | cons y rest =>
      have hy := List.head?_dropWhile_not (sort_features val) l.reverse
      rw [hdw] at hy hd hD
      simp only [List.head?_cons, Option.all_some, Bool.not_eq_eq_eq_not, Bool.not_true] at hy
      have hylt : val.total_volume < y.total_volume := by
        simpa [sort_features] using hy
      rcases List.mem_cons.1 hd with rfl | hd
      · exact le_of_lt hylt
      · exact le_trans (le_of_lt hylt) (List.rel_of_pairwise_cons hD hd)
  unfold insert_from_back
  rw [← List.pairwise_reverse]
  simp only [List.reverse_append, List.reverse_cons, List.reverse_reverse, List.append_assoc,
    List.singleton_append]
  rw [List.pairwise_append]
  refine ⟨hT, List.pairwise_cons.2 ⟨hDval, hD⟩, ?_⟩
  intro t ht d hd
  rcases List.mem_cons.1 hd with rfl | hd
  · exact hTval t ht
  · exact hTD t ht d hd

theorem straight_insertion_sort_ordered :
    ∀ (l acc : List Feature), acc.Pairwise (fun a b => a.total_volume ≥ b.total_volume) →
      (l.foldl (fun sorted val => insert_from_back sort_features val sorted) acc).Pairwise
        (fun a b => a.total_volume ≥ b.total_volume) := by
  intro l
  induction l with
  | nil => intro acc h; exact h
  | cons x rest ih =>
    intro acc h
    rw [List.foldl_cons]
    exact ih _ (insert_from_back_ordered x acc h)

/-- The sort of `insertion_runtime` is a correct sort for the comparator of the
post-pass: its result is a rearrangement of the input in order of
non-increasing total volume. -/
theorem insertion_runtime_sorts (l : List Feature) :
    (insertion_runtime.sort sort_features l).Perm l ∧
    (insertion_runtime.sort sort_features l).Pairwise
      (fun a b => a.total_volume ≥ b.total_volume) :=
  ⟨insertion_runtime_sort_permutes sort_features l,
    straight_insertion_sort_ordered l [] List.Pairwise.nil⟩

set_option maxRecDepth 100000 in
/-- C19 (evaluation). For `tied_envelopes` the greedy loop emits the feature of
the peaks 0, 1 before the feature of the peaks 2, 3, both with total volume
128. Sorted by straight insertion with the comparator `sort_features`, which
holds of two features of equal total volume, the returned list has them in the
opposite order, the later one with identifier 0; the same insertion with the
strict comparison `a.total_volume > b.total_volume` leaves them in the order of
emission. -/
theorem ties_reordered :
    (greedy_features insertion_runtime 40 averagine_table tied_envelopes [1]).map
        (fun gs => gs.map (fun f => (f.peak_ids, f.total_volume)))
      = some [([0, 1], 128), ([2, 3], 128)] ∧
    (detect_features insertion_runtime 40 tied_envelopes [1]).map
        (fun fs => fs.map (fun f => (f.peak_ids, f.total_volume)))
      = some [([2, 3], 128), ([0, 1], 128)] ∧
    (detect_features insertion_runtime 40 tied_envelopes [1]).map
        (fun fs => fs.map (fun f => (f.id, f.peak_ids)))
      = some [(0, [2, 3]), (1, [0, 1])] ∧
    (greedy_features insertion_runtime 40 averagine_table tied_envelopes [1]).map
        (fun gs => (straight_insertion_sort
          (fun a b => decide (a.total_volume > b.total_volume)) gs).map (fun f => f.peak_ids))
      = some [[0, 1], [2, 3]] := by
  refine ⟨by decide!, by decide!, by decide!, by decide!⟩


/-! ## The fields of a feature -/

theorem wins_iteration_window (rt : Runtime) (fuel : Nat) (table : List (ℚ × List ℚ))
    (ref : List Peak) (cs : List Nat) (best : Best)
    (h : wins_iteration rt fuel table ref cs best) :
    2 ≤ best.best_path.length ∧ best.best_path.Pairwise (· < ·) ∧
    ∀ x ∈ best.best_path, x < ref.length := by
  obtain ⟨st, hreach, _, hbest, hlen⟩ := h
  obtain ⟨bests, hinv⟩ := seed_reachable_inv rt fuel table ref cs st hreach
  have hf := accepted_window_fresh rt fuel table ref cs bests st best hinv hbest (by omega)
  exact ⟨hlen, hf.1, hf.2.1⟩

theorem greedy_features_origin (rt : Runtime) (fuel : Nat) (table : List (ℚ × List ℚ))
    (peaks : List Peak) (cs : List Nat) (gs : List Feature)
    (h : greedy_features rt fuel table peaks cs = some gs) :
    ∀ f ∈ gs, ∃ best, wins_iteration rt fuel table (ref_peaks peaks) cs best ∧
      f = build_feature (ref_peaks peaks) best :=
  greedy_features_accepts rt fuel table peaks cs
    (fun f => ∃ best, wins_iteration rt fuel table (ref_peaks peaks) cs best ∧
      f = build_feature (ref_peaks peaks) best)
    (fun st best hreach hi hbest hlen => ⟨best, ⟨st, hreach, hi, hbest, hlen⟩, rfl⟩) gs h

theorem detect_features_origin (rt : Runtime) (fuel : Nat) (peaks : List Peak) (cs : List Nat)
    (fs : List Feature) (hsort : sort_permutes rt)
    (h : detect_features rt fuel peaks cs = some fs) :
    ∀ f ∈ fs, ∃ best, wins_iteration rt fuel averagine_table (ref_peaks peaks) cs best ∧
      f = { build_feature (ref_peaks peaks) best with id := f.id } := by
  intro f hf
  obtain ⟨gs, hg, hperm⟩ := detect_features_field_perm erase_id (fun _ _ => rfl)
    rt fuel peaks cs fs hsort h
  have hmem : erase_id f ∈ gs.map erase_id := hperm.mem_iff.1 (List.mem_map_of_mem _ hf)
  obtain ⟨g, hgm, hgf⟩ := List.mem_map.1 hmem
  obtain ⟨best, hwin, rfl⟩ := greedy_features_origin rt fuel _ peaks cs gs hg g hgm
  refine ⟨best, hwin, ?_⟩
  have h1 : f = { erase_id f with id := f.id } := rfl
  rw [h1, ← hgf]
  rfl

theorem add_peaks_sums (ref : List Peak) :
    ∀ (l : List Nat) (i : Nat) (f : Feature),
      (add_peaks ref l i f).total_height =
        f.total_height + (l.map (fun x => (peak_of ref x).fitted_height)).sum ∧
      (add_peaks ref l i f).total_volume =
        f.total_volume + (l.map (fun x => (peak_of ref x).fitted_volume)).sum ∧
      (add_peaks ref l i f).average_mz =
        f.average_mz +
          (l.map (fun x => (peak_of ref x).fitted_mz * (peak_of ref x).fitted_height)).sum ∧
      (add_peaks ref l i f).average_rt =
        f.average_rt + (l.map (fun x => (peak_of ref x).fitted_rt)).sum ∧
      (add_peaks ref l i f).average_rt_sigma =
        f.average_rt_sigma + (l.map (fun x => (peak_of ref x).fitted_sigma_rt)).sum ∧
      (add_peaks ref l i f).average_rt_delta =
        f.average_rt_delta + (l.map (fun x => (peak_of ref x).rt_delta)).sum ∧
      (add_peaks ref l i f).average_mz_sigma =
        f.average_mz_sigma + (l.map (fun x => (peak_of ref x).fitted_sigma_mz)).sum := by
  intro l
  induction l with
  | nil => intro i f; simp [add_peaks]
  | cons x rest ih =>
    intro i f
    obtain ⟨h1, h2, h3, h4, h5, h6, h7⟩ := ih (i + 1) (add_peak f i (peak_of ref x))
    simp only [add_peaks, List.map_cons, List.sum_cons]
    rw [h1, h2, h3, h4, h5, h6, h7]
    simp only [add_peak]
    refine ⟨?_, ?_, ?_, ?_, ?_, ?_, ?_⟩ <;> ring

theorem add_peaks_max (ref : List Peak) :
    ∀ (l : List Nat) (i : Nat) (f : Feature),
      (add_peaks ref l i f).max_height =
        (l.map (fun x => (peak_of ref x).fitted_height)).foldl max f.max_height ∧
      (add_peaks ref l i f).max_volume =
        (l.map (fun x => (peak_of ref x).fitted_volume)).foldl max f.max_volume := by
  intro l
  induction l with
  | nil => intro i f; simp [add_peaks]
  | cons x rest ih =>
    intro i f
    obtain ⟨h1, h2⟩ := ih (i + 1) (add_peak f i (peak_of ref x))
    simp only [add_peaks, List.map_cons, List.foldl_cons]
    rw [h1, h2]
    have hmax : ∀ a m : ℚ, (if a > m then a else m) = max m a := by
      intro a m
      by_cases h : a > m
      · rw [if_pos h, max_eq_right (le_of_lt h)]
      · rw [if_neg h, max_eq_left (not_lt.1 h)]
    simp only [add_peak, hmax]
    exact ⟨trivial, trivial⟩

theorem add_peaks_monoisotopic_later (ref : List Peak) :
    ∀ (l : List Nat) (i : Nat) (f : Feature), 0 < i →
      (add_peaks ref l i f).monoisotopic_mz = f.monoisotopic_mz ∧
      (add_peaks ref l i f).monoisotopic_rt = f.monoisotopic_rt ∧
      (add_peaks ref l i f).monoisotopic_height = f.monoisotopic_height ∧
      (add_peaks ref l i f).monoisotopic_volume = f.monoisotopic_volume := by
  intro l
  induction l with
  | nil => intro i f _; simp [add_peaks]
  | cons x rest ih =>
    intro i f hi
    obtain ⟨h1, h2, h3, h4⟩ := ih (i + 1) (add_peak f i (peak_of ref x)) (by omega)
    simp only [add_peaks]
    rw [h1, h2, h3, h4]
    have hne : i ≠ 0 := by omega
    simp [add_peak, hne]

theorem build_feature_monoisotopic (ref : List Peak) (b : Best) (x : Nat) (rest : List Nat)
    (hb : b.best_path = x :: rest) :
    (build_feature ref b).monoisotopic_mz = (peak_of ref x).fitted_mz ∧
    (build_feature ref b).monoisotopic_rt = (peak_of ref x).fitted_rt ∧
    (build_feature ref b).monoisotopic_height = (peak_of ref x).fitted_height ∧
    (build_feature ref b).monoisotopic_volume = (peak_of ref x).fitted_volume := by
  simp only [build_feature, hb, add_peaks]
  obtain ⟨h1, h2, h3, h4⟩ := add_peaks_monoisotopic_later ref rest (0 + 1)
    (add_peak
      { id := 0, score := b.best_dot, average_rt := 0, average_rt_delta := 0
        average_rt_sigma := 0, average_mz := 0, average_mz_sigma := 0, total_height := 0
        total_volume := 0, max_height := 0, max_volume := 0, monoisotopic_mz := 0
        monoisotopic_rt := 0, monoisotopic_height := 0, monoisotopic_volume := 0
        charge_state := b.best_charge_state, peak_ids := [] } 0 (peak_of ref x)) (by omega)
  rw [h1, h2, h3, h4]
  simp [add_peak]

theorem build_feature_sums (ref : List Peak) (b : Best) :
    (build_feature ref b).total_height =
      ((constituents ref b.best_path).map (fun p => p.fitted_height)).sum ∧
    (build_feature ref b).total_volume =
      ((constituents ref b.best_path).map (fun p => p.fitted_volume)).sum ∧
    (build_feature ref b).max_height =
      ((constituents ref b.best_path).map (fun p => p.fitted_height)).foldl max 0 ∧
    (build_feature ref b).max_volume =
      ((constituents ref b.best_path).map (fun p => p.fitted_volume)).foldl max 0 := by
  simp only [build_feature, constituents, List.map_map, Function.comp_def]
  refine ⟨?_, ?_, ?_, ?_⟩
  · rw [(add_peaks_sums ref _ _ _).1]; simp
  · rw [(add_peaks_sums ref _ _ _).2.1]; simp
  · rw [(add_peaks_max ref _ _ _).1]
  · rw [(add_peaks_max ref _ _ _).2]

theorem build_feature_averages (ref : List Peak) (b : Best) :
    (build_feature ref b).average_mz =
      ((constituents ref b.best_path).map (fun p => p.fitted_mz * p.fitted_height)).sum /
        ((constituents ref b.best_path).map (fun p => p.fitted_height)).sum ∧
    (build_feature ref b).average_rt =
      ((constituents ref b.best_path).map (fun p => p.fitted_rt)).sum /
        ((constituents ref b.best_path).length : ℚ) ∧
    (build_feature ref b).average_rt_sigma =
      ((constituents ref b.best_path).map (fun p => p.fitted_sigma_rt)).sum /
        ((constituents ref b.best_path).length : ℚ) ∧
    (build_feature ref b).average_rt_delta =
      ((constituents ref b.best_path).map (fun p => p.rt_delta)).sum /
        ((constituents ref b.best_path).length : ℚ) ∧
    (build_feature ref b).average_mz_sigma =
      ((constituents ref b.best_path).map (fun p => p.fitted_sigma_mz)).sum /
        ((constituents ref b.best_path).length : ℚ) := by
  simp only [build_feature, constituents, List.map_map, Function.comp_def, List.length_map]
  obtain ⟨h1, _, h3, h4, h5, h6, h7⟩ := add_peaks_sums ref b.best_path 0
      { id := 0, score := b.best_dot, average_rt := 0, average_rt_delta := 0
        average_rt_sigma := 0, average_mz := 0, average_mz_sigma := 0, total_height := 0
        total_volume := 0, max_height := 0, max_volume := 0, monoisotopic_mz := 0
        monoisotopic_rt := 0, monoisotopic_height := 0, monoisotopic_volume := 0
        charge_state := b.best_charge_state, peak_ids := [] }
  rw [h1, h3, h4, h5, h6, h7]
  simp

theorem foldl_max_spec : ∀ (l : List ℚ) (m0 : ℚ),
    m0 ≤ l.foldl max m0 ∧ (∀ x ∈ l, x ≤ l.foldl max m0) ∧
    (l.foldl max m0 = m0 ∨ l.foldl max m0 ∈ l) := by
  intro l
  induction l with
  | nil => intro m0; simp
  | cons a rest ih =>
    intro m0
    obtain ⟨h1, h2, h3⟩ := ih (max m0 a)
    simp only [List.foldl_cons, List.mem_cons]
    refine ⟨le_trans (le_max_left _ _) h1, ?_, ?_⟩
    · intro x hx
      rcases hx with rfl | hx
      · exact le_trans (le_max_right _ _) h1
      · exact h2 x hx
    · rcases h3 with h3 | h3
      · rcases max_choice m0 a with hm | hm
        · left; rw [h3, hm]
        · right; left; rw [h3, hm]
      · right; right; exact h3

theorem foldl_max_zero (l : List ℚ) :
    ((∃ x ∈ l, 0 < x) → is_largest (l.foldl max 0) l) ∧
    ((∀ x ∈ l, x ≤ 0) → l.foldl max 0 = 0) := by
  obtain ⟨h1, h2, h3⟩ := foldl_max_spec l 0
  refine ⟨?_, ?_⟩
  · rintro ⟨x, hx, hpos⟩
    refine ⟨?_, h2⟩
    rcases h3 with h3 | h3
    · have := h2 x hx
      rw [h3] at this
      exact absurd hpos (not_lt.2 this)
    · exact h3
  · intro hall
    rcases h3 with h3 | h3
    · exact h3
    · exact le_antisymm (hall _ h3) h1


theorem constituents_mem (peaks : List Peak) (window : List Nat)
    (hlt : ∀ x ∈ window, x < (ref_peaks peaks).length) :
    ∀ p ∈ constituents (ref_peaks peaks) window, p ∈ peaks := by
  intro p hp
  obtain ⟨x, hx, rfl⟩ := List.mem_map.1 hp
  exact (ref_peaks_perm peaks).mem_iff.1 (peak_of_mem _ x (hlt x hx))

theorem build_feature_monoisotopic_of (ref : List Peak)
    (hs : (ref.map (fun p => p.fitted_mz)).Pairwise (· ≤ ·)) (b : Best)
    (hlen : 2 ≤ b.best_path.length) (hinc : b.best_path.Pairwise (· < ·))
    (hlt : ∀ x ∈ b.best_path, x < ref.length) (i : Nat) :
    monoisotopic_of ref b.best_path { build_feature ref b with id := i } := by
  cases hb : b.best_path with
  | nil => rw [hb] at hlen; simp at hlen
  | cons x rest =>
    obtain ⟨h1, h2, h3, h4⟩ := build_feature_monoisotopic ref b x rest hb
    rw [hb] at hinc hlt
    refine ⟨?_, peak_of ref x, ?_, h1, h2, h3, h4, ?_⟩
    · show (build_feature ref b).peak_ids = _
      rw [build_feature_peak_ids, hb, constituents, List.map_map]
      rfl
    · simp [constituents]
    · intro p hp
      obtain ⟨y, hy, rfl⟩ := List.mem_map.1 hp
      rcases List.mem_cons.1 hy with rfl | hy2
      · exact le_refl _
      · exact peak_of_mz_le ref hs x y ((List.pairwise_cons.1 hinc).1 y hy2) (hlt y hy)

theorem build_feature_sums_and_maxima_of (ref : List Peak) (b : Best) (i : Nat) :
    sums_and_maxima_of ref b.best_path { build_feature ref b with id := i } := by
  obtain ⟨h1, h2, h3, h4⟩ := build_feature_sums ref b
  refine ⟨h1, h2, ?_, ?_, ?_, ?_⟩
  · rintro ⟨p, hp, hpos⟩
    show is_largest (build_feature ref b).max_height _
    rw [h3]
    exact (foldl_max_zero _).1 ⟨_, List.mem_map_of_mem _ hp, hpos⟩
  · intro hall
    show (build_feature ref b).max_height = 0
    rw [h3]
    refine (foldl_max_zero _).2 ?_
    intro x hx
    obtain ⟨p, hp, rfl⟩ := List.mem_map.1 hx
    exact hall p hp
  · rintro ⟨p, hp, hpos⟩
    show is_largest (build_feature ref b).max_volume _
    rw [h4]
    exact (foldl_max_zero _).1 ⟨_, List.mem_map_of_mem _ hp, hpos⟩
  · intro hall
    show (build_feature ref b).max_volume = 0
    rw [h4]
    refine (foldl_max_zero _).2 ?_
    intro x hx
    obtain ⟨p, hp, rfl⟩ := List.mem_map.1 hx
    exact hall p hp

theorem build_feature_averages_of (ref : List Peak) (b : Best) (i : Nat) :
    averages_of ref b.best_path { build_feature ref b with id := i } := by
  refine ⟨?_, build_feature_averages ref b⟩
  show (build_feature ref b).peak_ids.length = _
  rw [build_feature_peak_ids, constituents, List.length_map, List.length_map]

/-- C21. Monoisotopic fields and peak list: every feature emitted by the greedy
loop, and (`std::sort` returning a rearrangement of its input) every feature
returned by `detect_features`, comes from the winning window of an iteration
of the seed loop; its constituent peaks are input peaks, `peak_ids` lists their
identifiers in path order, and the four monoisotopic fields are the fitted mz,
rt, height and volume of the first peak of the window, whose fitted mz is the
smallest among the constituent peaks. -/
theorem detect_features_monoisotopic (rt : Runtime) (fuel : Nat) (peaks : List Peak)
    (cs : List Nat) :
    (∀ gs, greedy_features rt fuel averagine_table peaks cs = some gs →
      ∀ f ∈ gs, ∃ best, wins_iteration rt fuel averagine_table (ref_peaks peaks) cs best ∧
        (∀ p ∈ constituents (ref_peaks peaks) best.best_path, p ∈ peaks) ∧
        monoisotopic_of (ref_peaks peaks) best.best_path f) ∧
    (sort_permutes rt →
      ∀ fs, detect_features rt fuel peaks cs = some fs →
        ∀ f ∈ fs, ∃ best, wins_iteration rt fuel averagine_table (ref_peaks peaks) cs best ∧
          (∀ p ∈ constituents (ref_peaks peaks) best.best_path, p ∈ peaks) ∧
          monoisotopic_of (ref_peaks peaks) best.best_path f) := by
  have key : ∀ best, wins_iteration rt fuel averagine_table (ref_peaks peaks) cs best →
      ∀ i, (∀ p ∈ constituents (ref_peaks peaks) best.best_path, p ∈ peaks) ∧
        monoisotopic_of (ref_peaks peaks) best.best_path
          { build_feature (ref_peaks peaks) best with id := i } := by
    intro best hwin i
    obtain ⟨hlen, hinc, hlt⟩ := wins_iteration_window rt fuel _ _ cs best hwin
    exact ⟨constituents_mem peaks _ hlt,
      build_feature_monoisotopic_of _ (ref_peaks_sorted peaks) best hlen hinc hlt i⟩
  refine ⟨?_, ?_⟩
  · intro gs h f hf
    obtain ⟨best, hwin, rfl⟩ := greedy_features_origin rt fuel _ peaks cs gs h f hf
    exact ⟨best, hwin, key best hwin _⟩
  · intro hsort fs h f hf
    obtain ⟨best, hwin, hfeq⟩ := detect_features_origin rt fuel peaks cs fs hsort h f hf
    have hk := key best hwin f.id
    rw [← hfeq] at hk
    exact ⟨best, hwin, hk⟩

set_option maxRecDepth 100000 in
/-- C21 (witness): on `two_envelopes` both returned features have the peak list
and monoisotopic fields of the first peak of their winning window. -/
theorem detect_features_monoisotopic_witness :
    sort_permutes zero_runtime ∧
    (detect_features zero_runtime 10 two_envelopes [1, 2]).map
        (fun fs => fs.map (fun f => (f.peak_ids, f.monoisotopic_mz))) =
      some [([12, 13], 600), ([10, 11], 500)] ∧
    ∀ f ∈ (detect_features zero_runtime 10 two_envelopes [1, 2]).getD [],
      ∃ best, wins_iteration zero_runtime 10 averagine_table (ref_peaks two_envelopes)
          [1, 2] best ∧
        (∀ p ∈ constituents (ref_peaks two_envelopes) best.best_path, p ∈ two_envelopes) ∧
        monoisotopic_of (ref_peaks two_envelopes) best.best_path f :=
  ⟨zero_runtime_sort_permutes, by decide!,
    (detect_features_monoisotopic zero_runtime 10 two_envelopes [1, 2]).2
      zero_runtime_sort_permutes _ (by decide!)⟩

set_option maxRecDepth 100000 in
/-- C22 (counterexample): for the isotope pair `negative_volume_peaks`, whose
fitted volumes are `-5` and `-7`, the one returned feature consists of both
peaks and has `max_volume = 0`, which is not the largest of the two volumes. -/
theorem max_volume_not_largest :
    (detect_features zero_runtime 10 negative_volume_peaks [1]).map
        (fun fs => fs.map (fun f => (f.peak_ids, f.max_volume))) = some [([0, 1], 0)] ∧
    negative_volume_peaks.map (fun p => (p.id, p.fitted_volume)) = [(0, -5), (1, -7)] ∧
    ¬ is_largest 0 [-5, -7] := by
  refine ⟨by decide!, by decide!, ?_⟩
  rintro ⟨hmem, -⟩
  revert hmem
  decide!

/-- C22 (amended). Sums and maxima: every feature emitted by the greedy loop,
and (`std::sort` returning a rearrangement of its input) every feature returned
by `detect_features`, has `total_height` and `total_volume` equal to the sums
of the fitted heights and volumes of the peaks of its winning window;
`max_height` and `max_volume` are the largest fitted height and volume among
those peaks when one of them is positive, and `0` when none is. -/
theorem detect_features_sums_and_maxima (rt : Runtime) (fuel : Nat) (peaks : List Peak)
    (cs : List Nat) :
    (∀ gs, greedy_features rt fuel averagine_table peaks cs = some gs →
      ∀ f ∈ gs, ∃ best, wins_iteration rt fuel averagine_table (ref_peaks peaks) cs best ∧
        monoisotopic_of (ref_peaks peaks) best.best_path f ∧
        sums_and_maxima_of (ref_peaks peaks) best.best_path f) ∧
    (sort_permutes rt →
      ∀ fs, detect_features rt fuel peaks cs = some fs →
        ∀ f ∈ fs, ∃ best, wins_iteration rt fuel averagine_table (ref_peaks peaks) cs best ∧
          monoisotopic_of (ref_peaks peaks) best.best_path f ∧
          sums_and_maxima_of (ref_peaks peaks) best.best_path f) := by
  have key : ∀ best, wins_iteration rt fuel averagine_table (ref_peaks peaks) cs best →
      ∀ i, monoisotopic_of (ref_peaks peaks) best.best_path
          { build_feature (ref_peaks peaks) best with id := i } ∧
        sums_and_maxima_of (ref_peaks peaks) best.best_path
          { build_feature (ref_peaks peaks) best with id := i } := by
    intro best hwin i
    obtain ⟨hlen, hinc, hlt⟩ := wins_iteration_window rt fuel _ _ cs best hwin
    exact ⟨build_feature_monoisotopic_of _ (ref_peaks_sorted peaks) best hlen hinc hlt i,
      build_feature_sums_and_maxima_of _ best i⟩
  refine ⟨?_, ?_⟩
  · intro gs h f hf
    obtain ⟨best, hwin, rfl⟩ := greedy_features_origin rt fuel _ peaks cs gs h f hf
    exact ⟨best, hwin, key best hwin _⟩
  · intro hsort fs h f hf
    obtain ⟨best, hwin, hfeq⟩ := detect_features_origin rt fuel peaks cs fs hsort h f hf
    have hk := key best hwin f.id
    rw [← hfeq] at hk
    exact ⟨best, hwin, hk⟩

set_option maxRecDepth 100000 in
/-- C22 (witness): on `negative_volume_peaks` the returned feature has total
volume `-12`, maximum height `100` and maximum volume `0`, as the amended
statement says. -/
theorem detect_features_sums_and_maxima_witness :
    sort_permutes zero_runtime ∧
    (detect_features zero_runtime 10 negative_volume_peaks [1]).map
        (fun fs => fs.map (fun f => (f.total_volume, f.max_height, f.max_volume))) =
      some [(-12, 100, 0)] ∧
    ∀ f ∈ (detect_features zero_runtime 10 negative_volume_peaks [1]).getD [],
      ∃ best, wins_iteration zero_runtime 10 averagine_table (ref_peaks negative_volume_peaks)
          [1] best ∧
        monoisotopic_of (ref_peaks negative_volume_peaks) best.best_path f ∧
        sums_and_maxima_of (ref_peaks negative_volume_peaks) best.best_path f :=
  ⟨zero_runtime_sort_permutes, by decide!,
    (detect_features_sums_and_maxima zero_runtime 10 negative_volume_peaks [1]).2
      zero_runtime_sort_permutes _ (by decide!)⟩

/-- C23. Averages: every feature emitted by the greedy loop, and (`std::sort`
returning a rearrangement of its input) every feature returned by
`detect_features`, with the `n` peaks of its winning window as constituent
peaks, has `average_mz` equal to the sum of `fitted_mz * fitted_height` divided
by the sum of `fitted_height`, and `average_rt`, `average_rt_sigma`,
`average_rt_delta` and `average_mz_sigma` equal to the sums of `fitted_rt`,
`fitted_sigma_rt`, `rt_delta` and `fitted_sigma_mz` divided by `n`. -/
theorem detect_features_averages (rt : Runtime) (fuel : Nat) (peaks : List Peak)
    (cs : List Nat) :
    (∀ gs, greedy_features rt fuel averagine_table peaks cs = some gs →
      ∀ f ∈ gs, ∃ best, wins_iteration rt fuel averagine_table (ref_peaks peaks) cs best ∧
        f.peak_ids = (constituents (ref_peaks peaks) best.best_path).map (fun p => p.id) ∧
        averages_of (ref_peaks peaks) best.best_path f) ∧
    (sort_permutes rt →
      ∀ fs, detect_features rt fuel peaks cs = some fs →
        ∀ f ∈ fs, ∃ best, wins_iteration rt fuel averagine_table (ref_peaks peaks) cs best ∧
          f.peak_ids = (constituents (ref_peaks peaks) best.best_path).map (fun p => p.id) ∧
          averages_of (ref_peaks peaks) best.best_path f) := by
  have key : ∀ best, wins_iteration rt fuel averagine_table (ref_peaks peaks) cs best →
      ∀ i, ({ build_feature (ref_peaks peaks) best with id := i } : Feature).peak_ids =
          (constituents (ref_peaks peaks) best.best_path).map (fun p => p.id) ∧
        averages_of (ref_peaks peaks) best.best_path
          { build_feature (ref_peaks peaks) best with id := i } := by
    intro best hwin i
    obtain ⟨hlen, hinc, hlt⟩ := wins_iteration_window rt fuel _ _ cs best hwin
    exact ⟨(build_feature_monoisotopic_of _ (ref_peaks_sorted peaks) best hlen hinc hlt i).1,
      build_feature_averages_of _ best i⟩
  refine ⟨?_, ?_⟩
  · intro gs h f hf
    obtain ⟨best, hwin, rfl⟩ := greedy_features_origin rt fuel _ peaks cs gs h f hf
    exact ⟨best, hwin, key best hwin _⟩
  · intro hsort fs h f hf
    obtain ⟨best, hwin, hfeq⟩ := detect_features_origin rt fuel peaks cs fs hsort h f hf
    have hk := key best hwin f.id
    rw [← hfeq] at hk
    exact ⟨best, hwin, hk⟩

set_option maxRecDepth 100000 in
/-- C23 (witness): on `two_envelopes` the returned features have the average mz
`(600 * 100 + 600.50165 * 60) / 160` and `(500 * 100 + 501.0033 * 28) / 128`
and the average rt `10`. -/
theorem detect_features_averages_witness :
    sort_permutes zero_runtime ∧
    (detect_features zero_runtime 10 two_envelopes [1, 2]).map
        (fun fs => fs.map (fun f => (f.average_mz, f.average_rt))) =
      some [((600 * 100 + 600.50165 * 60) / 160, 10),
        ((500 * 100 + 501.0033 * 28) / 128, 10)] ∧
    ∀ f ∈ (detect_features zero_runtime 10 two_envelopes [1, 2]).getD [],
      ∃ best, wins_iteration zero_runtime 10 averagine_table (ref_peaks two_envelopes)
          [1, 2] best ∧
        f.peak_ids = (constituents (ref_peaks two_envelopes) best.best_path).map
          (fun p => p.id) ∧
        averages_of (ref_peaks two_envelopes) best.best_path f :=
  ⟨zero_runtime_sort_permutes, by decide!,
    (detect_features_averages zero_runtime 10 two_envelopes [1, 2]).2
      zero_runtime_sort_permutes _ (by decide!)⟩


/-! ## The edges of the candidate graphs -/

theorem full_scan_above (c : Nat) (p : Peak) :
    ∀ (l : List Peak) (j : Nat),
      (∀ q ∈ l, p.fitted_mz + 1.0033 / (c : ℚ) + p.fitted_sigma_mz < q.fitted_mz) →
      full_scan c p l j = [] := by
  intro l
  induction l with
  | nil => intro j _; rfl
  | cons q rest ih =>
    intro j h
    have hq := h q (List.mem_cons_self _ _)
    have hfalse : qualifies c p q = false := by
      simp only [qualifies, decide_eq_false_iff_not, not_and, not_le]
      intro _
      exact fun h2 => absurd h2 (not_le.2 hq)
    simp only [full_scan, hfalse]
    exact ih (j + 1) (fun r hr => h r (List.mem_cons_of_mem _ hr))

theorem scan_successors_full (c : Nat) (p : Peak) :
    ∀ (l : List Peak) (j : Nat), (l.map (fun q => q.fitted_mz)).Pairwise (· ≤ ·) →
      scan_successors ((p.fitted_mz + carbon_diff / (c : ℚ)) - p.fitted_sigma_mz)
        ((p.fitted_mz + carbon_diff / (c : ℚ)) + p.fitted_sigma_mz)
        (p.fitted_rt - p.fitted_sigma_rt) (p.fitted_rt + p.fitted_sigma_rt) l j =
      full_scan c p l j := by
  intro l
  induction l with
  | nil => intro j _; rfl
  | cons q rest ih =>
    intro j hs
    simp only [List.map_cons, List.pairwise_cons] at hs
    by_cases hbreak : q.fitted_mz > (p.fitted_mz + carbon_diff / (c : ℚ)) + p.fitted_sigma_mz
    · simp only [scan_successors, if_pos hbreak]
      symm
      refine full_scan_above c p (q :: rest) j ?_
      intro r hr
      have hqr : q.fitted_mz ≤ r.fitted_mz := by
        rcases List.mem_cons.1 hr with rfl | hr
        · exact le_refl _
        · exact hs.1 _ (List.mem_map_of_mem (fun q => q.fitted_mz) hr)
      have hb : p.fitted_mz + 1.0033 / (c : ℚ) + p.fitted_sigma_mz < q.fitted_mz := by
        simpa [carbon_diff] using hbreak
      exact lt_of_lt_of_le hb hqr
    · simp only [scan_successors, if_neg hbreak, full_scan]
      rw [ih (j + 1) hs.2]
      have hle : q.fitted_mz ≤ p.fitted_mz + 1.0033 / (c : ℚ) + p.fitted_sigma_mz := by
        simpa [carbon_diff] using hbreak
      by_cases hcond : q.fitted_mz > (p.fitted_mz + carbon_diff / (c : ℚ)) - p.fitted_sigma_mz ∧
          q.fitted_rt > p.fitted_rt - p.fitted_sigma_rt ∧
          q.fitted_rt < p.fitted_rt + p.fitted_sigma_rt
      · have hq : qualifies c p q = true := by
          simp only [qualifies, decide_eq_true_eq]
          refine ⟨?_, hle, hcond.2.1, hcond.2.2⟩
          simpa [carbon_diff] using hcond.1
        rw [if_pos hcond, hq]
        rfl
      · have hq : qualifies c p q = false := by
          simp only [qualifies, decide_eq_false_iff_not]
          rintro ⟨h1, _, h3, h4⟩
          apply hcond
          refine ⟨?_, h3, h4⟩
          simpa [carbon_diff] using h1
        rw [if_neg hcond, hq]
        rfl

theorem full_scan_mem (c : Nat) (p : Peak) :
    ∀ (l : List Peak) (j x : Nat),
      x ∈ full_scan c p l j ↔ j ≤ x ∧ ∃ q, l[x - j]? = some q ∧ qualifies c p q = true := by
  intro l
  induction l with
  | nil => intro j x; simp [full_scan]
  | cons q rest ih =>
    intro j x
    have hstep : x ∈ full_scan c p rest (j + 1) ↔
        j + 1 ≤ x ∧ ∃ r, (q :: rest)[x - j]? = some r ∧ qualifies c p r = true := by
      rw [ih (j + 1) x]
      constructor
      · rintro ⟨hx, r, hr, hq⟩
        refine ⟨hx, r, ?_, hq⟩
        have : x - j = (x - (j + 1)) + 1 := by omega
        rw [this, List.getElem?_cons_succ]
        exact hr
      · rintro ⟨hx, r, hr, hq⟩
        refine ⟨hx, r, ?_, hq⟩
        have : x - j = (x - (j + 1)) + 1 := by omega
        rw [this, List.getElem?_cons_succ] at hr
        exact hr
    have hhead : ∀ r, (q :: rest)[j - j]? = some r ↔ r = q := by
      intro r
      rw [Nat.sub_self, List.getElem?_cons_zero, Option.some.injEq]
      exact eq_comm
    by_cases hq : qualifies c p q = true
    · simp only [full_scan, hq, if_true, List.mem_cons]
      rw [hstep]
      constructor
      · rintro (rfl | ⟨hx, h⟩)
        · exact ⟨le_refl _, q, (hhead q).2 rfl, hq⟩
        · exact ⟨by omega, h⟩
      · rintro ⟨hx, h⟩
        by_cases hxj : x = j
        · exact Or.inl hxj
        · exact Or.inr ⟨by omega, h⟩
    · have hq2 : qualifies c p q = false := by simpa using hq
      simp only [full_scan, hq2, Bool.false_eq_true, if_false]
      rw [hstep]
      constructor
      · rintro ⟨hx, h⟩
        exact ⟨by omega, h⟩
      · rintro ⟨hx, r, hr, hqr⟩
        by_cases hxj : x = j
        · subst hxj
          rw [(hhead r).1 hr] at hqr
          exact absurd hqr hq
        · exact ⟨by omega, r, hr, hqr⟩

theorem full_scan_ascending (c : Nat) (p : Peak) :
    ∀ (l : List Peak) (j : Nat), (full_scan c p l j).Pairwise (· < ·) := by
  intro l
  induction l with
  | nil => intro j; simp [full_scan]
  | cons q rest ih =>
    intro j
    simp only [full_scan]
    split
    · refine List.pairwise_cons.2 ⟨?_, ih (j + 1)⟩
      intro x hx
      have := ((full_scan_mem c p rest (j + 1) x).1 hx).1
      omega
    · exact ih (j + 1)

theorem build_graph_getElem? (c : Nat) :
    ∀ (l : List Peak) (i a : Nat),
      (build_graph c l i)[a]? =
        (l[a]?).map (fun p => build_node c (i + a) p (l.drop (a + 1))) := by
  intro l
  induction l with
  | nil => intro i a; simp [build_graph]
  | cons p rest ih =>
    intro i a
    cases a with
    | zero => simp [build_graph]
    | succ a =>
      simp only [build_graph, List.getElem?_cons_succ, List.drop_succ_cons]
      rw [ih (i + 1) a]
      have : i + 1 + a = i + (a + 1) := by omega
      rw [this]

theorem build_graph_nodes (c : Nat) (hc : 0 < c) (ref : List Peak)
    (hs : (ref.map (fun p => p.fitted_mz)).Pairwise (· ≤ ·)) (a : Nat) (node : CandidateNode)
    (h : (build_graph c ref 0)[a]? = some node) :
    a < ref.length ∧
    node.nodes = full_scan c (peak_of ref a) (ref.drop (a + 1)) (a + 1) := by
  rw [build_graph_getElem?] at h
  cases hp : ref[a]? with
  | none => rw [hp] at h; simp at h
  | some p =>
    rw [hp] at h
    simp only [Option.map_some', Option.some.injEq] at h
    have ha : a < ref.length := by
      by_contra hcon
      rw [List.getElem?_eq_none (by omega)] at hp
      cases hp
    refine ⟨ha, ?_⟩
    have hpeak : peak_of ref a = p := by
      simp [peak_of, List.getD_eq_getElem?_getD, hp]
    have hdrop : ((ref.drop (a + 1)).map (fun q => q.fitted_mz)).Pairwise (· ≤ ·) := by
      rw [List.map_drop]
      exact hs.sublist (List.drop_sublist _ _)
    have hne : c ≠ 0 := by omega
    rw [← h, hpeak]
    simp only [build_node, if_neg hne, Nat.zero_add]
    exact scan_successors_full c p _ _ hdrop

theorem build_graph_edge (c : Nat) (hc : 0 < c) (ref : List Peak)
    (hs : (ref.map (fun p => p.fitted_mz)).Pairwise (· ≤ ·)) (i j : Nat) :
    is_successor (build_graph c ref 0) i j ↔
      i < j ∧ j < ref.length ∧ qualifies c (peak_of ref i) (peak_of ref j) = true := by
  constructor
  · rintro ⟨node, hnode, hj⟩
    obtain ⟨hi, hnodes⟩ := build_graph_nodes c hc ref hs i node hnode
    rw [hnodes, full_scan_mem] at hj
    obtain ⟨hij, q, hq, hqual⟩ := hj
    rw [List.getElem?_drop] at hq
    have hidx : i + 1 + (j - (i + 1)) = j := by omega
    rw [hidx] at hq
    have hjlt : j < ref.length := by
      by_contra hcon
      rw [List.getElem?_eq_none (by omega)] at hq
      cases hq
    have hpeak : peak_of ref j = q := by
      simp [peak_of, List.getD_eq_getElem?_getD, hq]
    exact ⟨by omega, hjlt, by rw [hpeak]; exact hqual⟩
  · rintro ⟨hij, hj, hqual⟩
    have hi : i < ref.length := by omega
    have hlen := (build_graph_spec c ref 0).1
    have hil : i < (build_graph c ref 0).length := by omega
    refine ⟨(build_graph c ref 0)[i], List.getElem?_eq_getElem hil, ?_⟩
    obtain ⟨_, hnodes⟩ := build_graph_nodes c hc ref hs i _ (List.getElem?_eq_getElem hil)
    rw [hnodes, full_scan_mem]
    refine ⟨by omega, peak_of ref j, ?_, hqual⟩
    rw [List.getElem?_drop]
    have hidx : i + 1 + (j - (i + 1)) = j := by omega
    rw [hidx, List.getElem?_eq_getElem hj]
    simp [peak_of, List.getD_eq_getElem?_getD, List.getElem?_eq_getElem hj]


theorem seed_inv_graph_origin (ref : List Peak) (cs : List Nat) (bests : List Best)
    (st : SeedState) (hinv : seed_inv ref cs bests st) (g : CandidateGraph)
    (hg : g ∈ st.graphs) :
    ∃ c ∈ cs, g = mark_nodes (build_graph c ref 0) (claimed bests) := by
  rw [hinv.1] at hg
  obtain ⟨c, hc, rfl⟩ := List.mem_map.1 hg
  exact ⟨c, hc, rfl⟩

theorem mark_nodes_nodes (g : CandidateGraph) (path : List Nat) (a : Nat) (node : CandidateNode)
    (h : (mark_nodes g path)[a]? = some node) :
    ∃ n, g[a]? = some n ∧ node.nodes = n.nodes := by
  rw [mark_nodes_getElem?] at h
  cases hg : g[a]? with
  | none => rw [hg] at h; simp at h
  | some n =>
    rw [hg] at h
    simp only [Option.map_some', Option.some.injEq] at h
    refine ⟨n, rfl, ?_⟩
    rw [← h]
    split <;> rfl

theorem build_graph_ascending (c : Nat) (ref : List Peak)
    (hs : (ref.map (fun p => p.fitted_mz)).Pairwise (· ≤ ·)) (a : Nat) (node : CandidateNode)
    (h : (build_graph c ref 0)[a]? = some node) : node.nodes.Pairwise (· < ·) := by
  by_cases hc : c = 0
  · subst hc
    rw [build_graph_zero ref 0 a node h]
    exact List.Pairwise.nil
  · rw [(build_graph_nodes c (by omega) ref hs a node h).2]
    exact full_scan_ascending c _ _ _

theorem successor_chain_increasing (n : Nat) (g : CandidateGraph) (hg : graph_ok n g)
    (path : List Nat) (h : List.Chain' (is_successor g) path) : path.Pairwise (· < ·) := by
  have hlt : List.Chain' (· < ·) path := by
    refine h.imp ?_
    rintro a b ⟨node, hnode, hb⟩
    exact ((hg.2 a node hnode).2 b hb).1
  exact List.chain'_iff_pairwise.1 hlt

theorem length_le_fan_out (g : CandidateGraph) (a : Nat) (node : CandidateNode)
    (h : g[a]? = some node) : node.nodes.length ≤ fan_out g := by
  unfold fan_out
  refine List.single_le_sum (fun _ _ => Nat.zero_le _) _ ?_
  exact List.mem_map_of_mem (fun node => node.nodes.length) (List.getElem?_mem h)

theorem find_all_paths_returns (n L : Nat) (g : CandidateGraph) (hlen : g.length = n)
    (hsucc : ∀ (a : Nat) (node : CandidateNode), g[a]? = some node →
      node.nodes.length ≤ L ∧ ∀ b ∈ node.nodes, a < b ∧ b < n)
    (root : Nat) (hroot : root < n) :
    ∃ paths, ∀ fuel, (L + 1) ^ n ≤ fuel → find_all_paths fuel g root = some paths := by
  have hex : ∃ r, find_all_paths_loop g ((L + 1) ^ n) [[root]] [] = some r := by
    refine find_all_paths_loop_terminates n L g hlen hsucc _ [[root]] [] ?_ ?_
    · intro p hp
      simp only [List.mem_singleton] at hp
      subst hp
      exact ⟨root, by simp, hroot⟩
    · simp only [List.map_cons, List.map_nil, List.sum_cons, List.sum_nil, path_weight,
        List.getLast?_singleton, Nat.add_zero]
      exact Nat.pow_le_pow_right (by omega) (by omega)
  obtain ⟨r, hr⟩ := hex
  refine ⟨r, ?_⟩
  intro fuel hfuel
  exact find_all_paths_loop_fuel_mono g _ _ _ r hr fuel hfuel

theorem branching_graph_edges :
    ∀ (a : Nat) (node : CandidateNode), branching_graph[a]? = some node →
      ∀ b ∈ node.nodes, a < b ∧ b < branching_graph.length :=
  fun a node h => (branching_graph_shape a node h).2

/-- C24. Edge characterisation (early exit equals full scan): for every peak
list and every charge `c > 0`, position `j` is a successor of position `i` of
the mz-sorted order in the graph of `c` if and only if `i < j`, `j` is a
position of the order, the fitted mz of `j` lies in
`(mz(i) + 1.0033/c − sigma_mz(i), mz(i) + 1.0033/c + sigma_mz(i)]` and its
fitted rt strictly inside `(rt(i) − sigma_rt(i), rt(i) + sigma_rt(i))`; the
successor list that the scan with the early exit builds is the list that the
scan of all later peaks builds; and the edges stay the same in every state of
the seed loop. -/
theorem edge_characterisation (peaks : List Peak) (c : Nat) (hc : 0 < c) :
    (∀ i j, is_successor (build_graph c (ref_peaks peaks) 0) i j ↔
      i < j ∧ j < (ref_peaks peaks).length ∧
      (peak_of (ref_peaks peaks) i).fitted_mz + 1.0033 / (c : ℚ) -
          (peak_of (ref_peaks peaks) i).fitted_sigma_mz <
        (peak_of (ref_peaks peaks) j).fitted_mz ∧
      (peak_of (ref_peaks peaks) j).fitted_mz ≤
        (peak_of (ref_peaks peaks) i).fitted_mz + 1.0033 / (c : ℚ) +
          (peak_of (ref_peaks peaks) i).fitted_sigma_mz ∧
      (peak_of (ref_peaks peaks) i).fitted_rt - (peak_of (ref_peaks peaks) i).fitted_sigma_rt <
        (peak_of (ref_peaks peaks) j).fitted_rt ∧
      (peak_of (ref_peaks peaks) j).fitted_rt <
        (peak_of (ref_peaks peaks) i).fitted_rt +
          (peak_of (ref_peaks peaks) i).fitted_sigma_rt) ∧
    (∀ (i : Nat) (node : CandidateNode),
      (build_graph c (ref_peaks peaks) 0)[i]? = some node →
      node.nodes =
        full_scan c (peak_of (ref_peaks peaks) i) ((ref_peaks peaks).drop (i + 1)) (i + 1)) ∧
    (∀ rt fuel cs st, seed_reachable rt fuel averagine_table (ref_peaks peaks) cs st →
      ∀ g, (c, g) ∈ cs.zip st.graphs →
        ∀ i j, is_successor g i j ↔ is_successor (build_graph c (ref_peaks peaks) 0) i j) := by
  refine ⟨?_, ?_, ?_⟩
  · intro i j
    rw [build_graph_edge c hc _ (ref_peaks_sorted peaks) i j]
    simp only [qualifies, decide_eq_true_eq]
  · intro i node h
    exact (build_graph_nodes c hc _ (ref_peaks_sorted peaks) i node h).2
  · intro rt fuel cs st hreach g hg i j
    obtain ⟨bests, hinv⟩ := seed_reachable_inv rt fuel _ _ cs st hreach
    rw [hinv.1] at hg
    rw [mem_zip_map (fun c => mark_nodes (build_graph c (ref_peaks peaks) 0) (claimed bests))
      cs c g hg]
    exact mark_nodes_successor _ _ i j

set_option maxRecDepth 100000 in
/-- C24 (witness): in the graph of charge 1 over `two_envelopes`, position 1
(mz 501.0033) is a successor of position 0 (mz 500), and position 2 (mz 600),
which lies above the upper mz bound, is not. -/
theorem edge_characterisation_witness :
    0 < 1 ∧ is_successor (build_graph 1 (ref_peaks two_envelopes) 0) 0 1 ∧
    ¬ is_successor (build_graph 1 (ref_peaks two_envelopes) 0) 0 2 :=
  ⟨by decide,
    ((edge_characterisation two_envelopes 1 (by decide)).1 0 1).2
      ⟨by decide, by decide!, by decide!, by decide!, by decide!, by decide!⟩,
    fun h => absurd (((edge_characterisation two_envelopes 1 (by decide)).1 0 2).1 h).2.2.2.1
      (by decide!)⟩

/-- C25. Candidate graphs are DAGs: in every state in which the seed loop of
`detect_features` starts an iteration, every graph has one node per peak, each
successor list is strictly ascending and duplicate-free and contains only
indices greater than its own node's index and smaller than the number of
peaks; so every chain of successor edges is strictly increasing and no node
can be reached from itself. -/
theorem candidate_graphs_acyclic (rt : Runtime) (fuel : Nat) (peaks : List Peak)
    (cs : List Nat) (st : SeedState)
    (hreach : seed_reachable rt fuel averagine_table (ref_peaks peaks) cs st) :
    ∀ g ∈ st.graphs, g.length = (ref_peaks peaks).length ∧
      (∀ (a : Nat) (node : CandidateNode), g[a]? = some node →
        node.nodes.Pairwise (· < ·) ∧ node.nodes.Nodup ∧
        ∀ b ∈ node.nodes, a < b ∧ b < (ref_peaks peaks).length) ∧
      ∀ path, List.Chain' (is_successor g) path → path.Pairwise (· < ·) ∧ path.Nodup := by
  intro g hg
  obtain ⟨bests, hinv⟩ := seed_reachable_inv rt fuel _ _ cs st hreach
  obtain ⟨c, _, rfl⟩ := seed_inv_graph_origin _ cs bests st hinv g hg
  have hok : graph_ok (ref_peaks peaks).length
      (mark_nodes (build_graph c (ref_peaks peaks) 0) (claimed bests)) :=
    mark_nodes_ok _ _ _ (build_graph_ok c _)
  refine ⟨hok.1, ?_, ?_⟩
  · intro a node h
    obtain ⟨n, hn, hnodes⟩ := mark_nodes_nodes _ _ a node h
    have hasc : node.nodes.Pairwise (· < ·) := by
      rw [hnodes]
      exact build_graph_ascending c _ (ref_peaks_sorted peaks) a n hn
    exact ⟨hasc, hasc.imp (fun h => Nat.ne_of_lt h), (hok.2 a node h).2⟩
  · intro path hpath
    have hinc := successor_chain_increasing _ _ hok path hpath
    exact ⟨hinc, hinc.imp (fun h => Nat.ne_of_lt h)⟩

set_option maxRecDepth 100000 in
/-- C25 (witness): the two graphs built for `two_envelopes` and the charge
states 1 and 2 have four nodes each, with the edge `0 → 1` for charge 1 and the
edge `2 → 3` for charge 2, and ascending successor lists. -/
theorem candidate_graphs_acyclic_witness :
    ([1, 2].map (fun c => build_graph c (ref_peaks two_envelopes) 0)).map
        (fun g => g.map (fun node => node.nodes)) =
      [[[1], [], [], []], [[], [], [3], []]] ∧
    ∀ g ∈ [1, 2].map (fun c => build_graph c (ref_peaks two_envelopes) 0),
      g.length = (ref_peaks two_envelopes).length ∧
      (∀ (a : Nat) (node : CandidateNode), g[a]? = some node →
        node.nodes.Pairwise (· < ·) ∧ node.nodes.Nodup ∧
        ∀ b ∈ node.nodes, a < b ∧ b < (ref_peaks two_envelopes).length) ∧
      ∀ path, List.Chain' (is_successor g) path → path.Pairwise (· < ·) ∧ path.Nodup :=
  ⟨by decide!,
    candidate_graphs_acyclic zero_runtime 10 two_envelopes [1, 2]
      ⟨0, [1, 2].map (fun c => build_graph c (ref_peaks two_envelopes) 0), []⟩
      seed_reachable.init⟩

/-- C26. Termination of `find_all_paths`: on every graph whose successor lists
contain only indices greater than their node (and inside the graph), for every
root of the graph and every assignment of the visited flags, `find_all_paths`
returns a list of paths once the fuel reaches `(fan_out g + 1) ^ g.length`, the
same list for all larger fuel; on the graphs that `detect_features` builds, in
every state of its seed loop, the fuel `(n + 1) ^ n` for `n` peaks is enough. -/
theorem find_all_paths_total :
    (∀ (g : CandidateGraph),
      (∀ (a : Nat) (node : CandidateNode), g[a]? = some node →
        ∀ b ∈ node.nodes, a < b ∧ b < g.length) →
      ∀ root, root < g.length →
        ∃ paths, ∀ fuel, (fan_out g + 1) ^ g.length ≤ fuel →
          find_all_paths fuel g root = some paths) ∧
    (∀ (rt : Runtime) (fuel0 : Nat) (peaks : List Peak) (cs : List Nat) (st : SeedState),
      seed_reachable rt fuel0 averagine_table (ref_peaks peaks) cs st →
      ∀ g ∈ st.graphs, ∀ root, root < (ref_peaks peaks).length →
        ∃ paths, ∀ fuel, ((ref_peaks peaks).length + 1) ^ (ref_peaks peaks).length ≤ fuel →
          find_all_paths fuel g root = some paths) := by
  refine ⟨?_, ?_⟩
  · intro g hg root hroot
    exact find_all_paths_returns g.length (fan_out g) g rfl
      (fun a node h => ⟨length_le_fan_out g a node h, hg a node h⟩) root hroot
  · intro rt fuel0 peaks cs st hreach g hg root hroot
    obtain ⟨bests, hinv⟩ := seed_reachable_inv rt fuel0 _ _ cs st hreach
    obtain ⟨c, _, rfl⟩ := seed_inv_graph_origin _ cs bests st hinv g hg
    have hok : graph_ok (ref_peaks peaks).length
        (mark_nodes (build_graph c (ref_peaks peaks) 0) (claimed bests)) :=
      mark_nodes_ok _ _ _ (build_graph_ok c _)
    exact find_all_paths_returns _ _ _ hok.1 hok.2 root hroot

/-- C26 (witness): on `branching_graph` the bound is `(3 + 1) ^ 3 = 64`, and
with any fuel from 64 on `find_all_paths` returns the two paths from node 0. -/
theorem find_all_paths_total_witness :
    (∀ (a : Nat) (node : CandidateNode), branching_graph[a]? = some node →
      ∀ b ∈ node.nodes, a < b ∧ b < branching_graph.length) ∧
    (fan_out branching_graph + 1) ^ branching_graph.length = 64 ∧
    find_all_paths 64 branching_graph 0 = some [[0, 2], [0, 1, 2]] ∧
    ∃ paths, ∀ fuel, (fan_out branching_graph + 1) ^ branching_graph.length ≤ fuel →
      find_all_paths fuel branching_graph 0 = some paths :=
  ⟨branching_graph_edges, by decide, by decide,
    find_all_paths_total.1 branching_graph branching_graph_edges 0 (by decide)⟩


/-! ## One iteration of the seed loop -/

theorem initial_state_reachable (rt : Runtime) (fuel : Nat) (table : List (ℚ × List ℚ))
    (ref : List Peak) (cs : List Nat) :
    seed_reachable rt fuel table ref cs (initial_state ref cs) :=
  seed_reachable.init

theorem seed_step_cases (rt : Runtime) (fuel : Nat) (table : List (ℚ × List ℚ))
    (ref : List Peak) (cs : List Nat) (st st' : SeedState)
    (hstep : seed_step rt fuel table ref cs st = some st') :
    ∃ best, score_charges rt fuel table ref st.i cs st.graphs ⟨0, [], 0⟩ = some best ∧
      (best.best_path.length < 2 → st' = { st with i := st.i + 1 }) ∧
      (2 ≤ best.best_path.length →
        st' = { i := if best.best_path.head? = some st.i then st.i + 1 else st.i
                graphs := mark_path st.graphs best.best_path
                features := st.features ++ [build_feature ref best] }) := by
  unfold seed_step at hstep
  cases hs : score_charges rt fuel table ref st.i cs st.graphs ⟨0, [], 0⟩ with
  | none => rw [hs] at hstep; cases hstep
  | some best =>
    rw [hs] at hstep
    refine ⟨best, rfl, ?_, ?_⟩
    · intro hlen
      simp only [if_pos hlen, Option.some.injEq] at hstep
      exact hstep.symm
    · intro hlen
      have hn : ¬ best.best_path.length < 2 := by omega
      simp only [if_neg hn, Option.some.injEq] at hstep
      exact hstep.symm

theorem marked_flags (ref : List Peak) (cs : List Nat) (bests : List Best) (st : SeedState)
    (hinv : seed_inv ref cs bests st) (window : List Nat)
    (hlt : ∀ x ∈ window, x < ref.length) (hfresh : ∀ x ∈ window, x ∉ claimed bests)
    (k : Nat) (g g' : CandidateGraph) (hg : st.graphs[k]? = some g)
    (hg' : (mark_path st.graphs window)[k]? = some g') :
    g'.length = g.length ∧
    ∀ p, (node_visited g' p ≠ node_visited g p ↔ p ∈ window) ∧
      (p ∈ window → node_visited g p = false ∧ node_visited g' p = true) := by
  have hmem : g ∈ st.graphs := List.getElem?_mem hg
  have hlen : g.length = ref.length := seed_inv_graph_length ref cs bests st hinv g hmem
  rw [mark_path_eq, List.getElem?_map, hg] at hg'
  simp only [Option.map_some', Option.some.injEq] at hg'
  subst hg'
  refine ⟨mark_nodes_length g window, ?_⟩
  intro p
  by_cases hp : p < g.length
  · have hv := mark_nodes_visited g window p hp
    have hold := seed_inv_visited ref cs bests st hinv g hmem p (by omega)
    by_cases hw : p ∈ window
    · have hfalse : node_visited g p = false := by
        rw [hold]
        simpa using hfresh p hw
      have htrue : node_visited (mark_nodes g window) p = true := by
        rw [hv]
        simp [hw]
      refine ⟨⟨fun _ => hw, fun _ => ?_⟩, fun _ => ⟨hfalse, htrue⟩⟩
      rw [hfalse, htrue]
      decide
    · have hsame : node_visited (mark_nodes g window) p = node_visited g p := by
        rw [hv]
        simp [hw]
      exact ⟨⟨fun h => absurd hsame h, fun h => absurd h hw⟩, fun h => absurd h hw⟩
  · have hw : p ∉ window := fun h => hp (by have := hlt p h; omega)
    have h1 : node_visited g p = false := node_visited_out_of_range g p (by omega)
    have h2 : node_visited (mark_nodes g window) p = false :=
      node_visited_out_of_range _ p (by rw [mark_nodes_length]; omega)
    refine ⟨⟨fun h => ?_, fun h => absurd h hw⟩, fun h => absurd h hw⟩
    rw [h1, h2] at h
    exact absurd rfl h

/-- C27. Only the window is claimed: an iteration of the seed loop, started in
a state the loop can be in, completes when the fuel reaches `(n + 1) ^ n` for
`n` peaks. When it accepts a window, every charge-state graph keeps its nodes,
and the nodes whose visited flag changes are exactly the nodes of the winning
window, whose flags go from `false` to `true`; all other nodes, the nodes of
the scored path outside the window among them, keep their flag. When it
accepts no window the graphs are unchanged. -/
theorem only_window_claimed (rt : Runtime) (fuel : Nat) (peaks : List Peak) (cs : List Nat)
    (st : SeedState)
    (hreach : seed_reachable rt fuel averagine_table (ref_peaks peaks) cs st)
    (hi : st.i < (ref_peaks peaks).length) :
    (((ref_peaks peaks).length + 1) ^ (ref_peaks peaks).length ≤ fuel →
      ∃ st', seed_step rt fuel averagine_table (ref_peaks peaks) cs st = some st') ∧
    ∀ st', seed_step rt fuel averagine_table (ref_peaks peaks) cs st = some st' →
      ∃ best, score_charges rt fuel averagine_table (ref_peaks peaks) st.i cs st.graphs
          ⟨0, [], 0⟩ = some best ∧
        (best.best_path.length < 2 → st'.graphs = st.graphs) ∧
        (2 ≤ best.best_path.length →
          st'.graphs.length = st.graphs.length ∧
          (∃ c g paths path, (c, g) ∈ cs.zip st.graphs ∧
            find_all_paths fuel g st.i = some paths ∧ path ∈ paths ∧
            best.best_path.Sublist path) ∧
          ∀ (k : Nat) (g g' : CandidateGraph),
            st.graphs[k]? = some g → st'.graphs[k]? = some g' →
            g'.length = g.length ∧
            ∀ p, (node_visited g' p ≠ node_visited g p ↔ p ∈ best.best_path) ∧
              (p ∈ best.best_path → node_visited g p = false ∧ node_visited g' p = true)) := by
  obtain ⟨bests, hinv⟩ := seed_reachable_inv rt fuel _ _ cs st hreach
  refine ⟨fun hfuel => seed_step_some rt fuel _ _ cs bests st hinv hi hfuel, ?_⟩
  intro st' hstep
  obtain ⟨best, hbest, hreject, haccept⟩ := seed_step_cases rt fuel _ _ cs st st' hstep
  refine ⟨best, hbest, ?_, ?_⟩
  · intro hlen
    rw [hreject hlen]
  · intro hlen
    have hst' := haccept hlen
    have hfresh := accepted_window_fresh rt fuel _ _ cs bests st best hinv hbest (by omega)
    refine ⟨?_, ?_, ?_⟩
    · rw [hst']
      simp [mark_path]
    · rcases (score_charges_cases rt fuel _ _ st.i cs st.graphs ⟨0, [], 0⟩ best hbest).1 with
        h | ⟨c, g, paths, rh, path, hcg, hpaths, _, hpath, _, hcand, _⟩
      · rw [h] at hlen
        simp at hlen
      · refine ⟨c, g, paths, path, hcg, hpaths, hpath, ?_⟩
        rw [hcand]
        exact candidate_sublist rt _ rh c path
    · intro k g g' hg hg'
      rw [hst'] at hg'
      exact marked_flags _ cs bests st hinv best.best_path hfresh.2.1 hfresh.2.2 k g g' hg hg'

set_option maxRecDepth 100000 in
/-- C27 (witness): the first iteration on `scenario_peaks` with memory past the
end of a vector reading as `0` accepts the window of nodes 1 and 2 of the path
0, 1, 2; in the graph of charge 1 the flags of nodes 1 and 2 change and the
flag of node 0 stays `false`. -/
theorem only_window_claimed_witness :
    ((seed_step zero_runtime 10 averagine_table (ref_peaks scenario_peaks) [1]
        (initial_state (ref_peaks scenario_peaks) [1])).map
      (fun st' => st'.graphs.map (fun g => g.map (fun node => node.visited)))) =
      some [[false, true, true]] ∧
    ∃ best, score_charges zero_runtime 10 averagine_table (ref_peaks scenario_peaks)
        (initial_state (ref_peaks scenario_peaks) [1]).i [1]
        (initial_state (ref_peaks scenario_peaks) [1]).graphs ⟨0, [], 0⟩ = some best ∧
      (best.best_path.length < 2 →
        ((seed_step zero_runtime 10 averagine_table (ref_peaks scenario_peaks) [1]
          (initial_state (ref_peaks scenario_peaks) [1])).getD default).graphs =
        (initial_state (ref_peaks scenario_peaks) [1]).graphs) ∧
      (2 ≤ best.best_path.length →
        ((seed_step zero_runtime 10 averagine_table (ref_peaks scenario_peaks) [1]
          (initial_state (ref_peaks scenario_peaks) [1])).getD default).graphs.length =
          (initial_state (ref_peaks scenario_peaks) [1]).graphs.length ∧
        (∃ c g paths path,
          (c, g) ∈ [1].zip (initial_state (ref_peaks scenario_peaks) [1]).graphs ∧
          find_all_paths 10 g (initial_state (ref_peaks scenario_peaks) [1]).i = some paths ∧
          path ∈ paths ∧ best.best_path.Sublist path) ∧
        ∀ (k : Nat) (g g' : CandidateGraph),
          (initial_state (ref_peaks scenario_peaks) [1]).graphs[k]? = some g →
          ((seed_step zero_runtime 10 averagine_table (ref_peaks scenario_peaks) [1]
            (initial_state (ref_peaks scenario_peaks) [1])).getD default).graphs[k]? =
              some g' →
          g'.length = g.length ∧
          ∀ p, (node_visited g' p ≠ node_visited g p ↔ p ∈ best.best_path) ∧
            (p ∈ best.best_path → node_visited g p = false ∧ node_visited g' p = true)) :=
  ⟨by decide!,
    (only_window_claimed zero_runtime 10 scenario_peaks [1]
      (initial_state (ref_peaks scenario_peaks) [1])
      (initial_state_reachable _ _ _ _ _) (by decide!)).2 _ (by decide!)⟩

/-- C28. Seed cursor rule: an iteration of the seed loop with cursor `i`,
started in a state the loop can be in, completes when the fuel reaches
`(n + 1) ^ n` for `n` peaks. If it finds no window of at least 2 peaks, the
cursor becomes `i + 1` and the feature list is unchanged; if the winning
window's first element is `i`, the feature of that window is appended and the
cursor becomes `i + 1`; otherwise the feature is appended and the cursor stays
at `i`. -/
theorem seed_cursor_rule (rt : Runtime) (fuel : Nat) (peaks : List Peak) (cs : List Nat)
    (st : SeedState)
    (hreach : seed_reachable rt fuel averagine_table (ref_peaks peaks) cs st)
    (hi : st.i < (ref_peaks peaks).length) :
    (((ref_peaks peaks).length + 1) ^ (ref_peaks peaks).length ≤ fuel →
      ∃ st', seed_step rt fuel averagine_table (ref_peaks peaks) cs st = some st') ∧
    ∀ st', seed_step rt fuel averagine_table (ref_peaks peaks) cs st = some st' →
      ∃ best, score_charges rt fuel averagine_table (ref_peaks peaks) st.i cs st.graphs
          ⟨0, [], 0⟩ = some best ∧
        (best.best_path.length < 2 → st'.i = st.i + 1 ∧ st'.features = st.features) ∧
        (2 ≤ best.best_path.length → best.best_path.head? = some st.i →
          st'.i = st.i + 1 ∧
          st'.features = st.features ++ [build_feature (ref_peaks peaks) best]) ∧
        (2 ≤ best.best_path.length → best.best_path.head? ≠ some st.i →
          st'.i = st.i ∧
          st'.features = st.features ++ [build_feature (ref_peaks peaks) best]) := by
  obtain ⟨bests, hinv⟩ := seed_reachable_inv rt fuel _ _ cs st hreach
  refine ⟨fun hfuel => seed_step_some rt fuel _ _ cs bests st hinv hi hfuel, ?_⟩
  intro st' hstep
  obtain ⟨best, hbest, hreject, haccept⟩ := seed_step_cases rt fuel _ _ cs st st' hstep
  refine ⟨best, hbest, ?_, ?_, ?_⟩
  · intro hlen
    rw [hreject hlen]
    exact ⟨rfl, rfl⟩
  · intro hlen hhead
    rw [haccept hlen]
    exact ⟨if_pos hhead, rfl⟩
  · intro hlen hhead
    rw [haccept hlen]
    exact ⟨if_neg hhead, rfl⟩

set_option maxRecDepth 100000 in
/-- C28 (witness): the first iteration on `scenario_peaks` with memory past the
end of a vector reading as `0` accepts the window of nodes 1 and 2, which does
not start at the cursor 0: one feature is emitted and the cursor stays at 0. -/
theorem seed_cursor_rule_witness :
    ((seed_step zero_runtime 10 averagine_table (ref_peaks scenario_peaks) [1]
        (initial_state (ref_peaks scenario_peaks) [1])).map
      (fun st' => (st'.i, st'.features.map (fun f => f.peak_ids)))) = some (0, [[1, 2]]) ∧
    ∃ best, score_charges zero_runtime 10 averagine_table (ref_peaks scenario_peaks)
        (initial_state (ref_peaks scenario_peaks) [1]).i [1]
        (initial_state (ref_peaks scenario_peaks) [1]).graphs ⟨0, [], 0⟩ = some best ∧
      (best.best_path.length < 2 →
        ((seed_step zero_runtime 10 averagine_table (ref_peaks scenario_peaks) [1]
          (initial_state (ref_peaks scenario_peaks) [1])).getD default).i =
          (initial_state (ref_peaks scenario_peaks) [1]).i + 1 ∧
        ((seed_step zero_runtime 10 averagine_table (ref_peaks scenario_peaks) [1]
          (initial_state (ref_peaks scenario_peaks) [1])).getD default).features =
          (initial_state (ref_peaks scenario_peaks) [1]).features) ∧
      (2 ≤ best.best_path.length →
        best.best_path.head? = some (initial_state (ref_peaks scenario_peaks) [1]).i →
        ((seed_step zero_runtime 10 averagine_table (ref_peaks scenario_peaks) [1]
          (initial_state (ref_peaks scenario_peaks) [1])).getD default).i =
          (initial_state (ref_peaks scenario_peaks) [1]).i + 1 ∧
        ((seed_step zero_runtime 10 averagine_table (ref_peaks scenario_peaks) [1]
          (initial_state (ref_peaks scenario_peaks) [1])).getD default).features =
          (initial_state (ref_peaks scenario_peaks) [1]).features ++
            [build_feature (ref_peaks scenario_peaks) best]) ∧
      (2 ≤ best.best_path.length →
        best.best_path.head? ≠ some (initial_state (ref_peaks scenario_peaks) [1]).i →
        ((seed_step zero_runtime 10 averagine_table (ref_peaks scenario_peaks) [1]
          (initial_state (ref_peaks scenario_peaks) [1])).getD default).i =
          (initial_state (ref_peaks scenario_peaks) [1]).i ∧
        ((seed_step zero_runtime 10 averagine_table (ref_peaks scenario_peaks) [1]
          (initial_state (ref_peaks scenario_peaks) [1])).getD default).features =
          (initial_state (ref_peaks scenario_peaks) [1]).features ++
            [build_feature (ref_peaks scenario_peaks) best]) :=
  ⟨by decide!,
    (seed_cursor_rule zero_runtime 10 scenario_peaks [1]
      (initial_state (ref_peaks scenario_peaks) [1])
      (initial_state_reachable _ _ _ _ _) (by decide!)).2 _ (by decide!)⟩


/-! ## The best alignment inside the matcher -/

theorem roll_step_alignment (rt : Runtime) (A B : List ℚ) (k : Nat) (best : OptimalPath) :
    ((alignment rt A B k).dot > best.dot ∧ wide_window rt A B k →
      roll_step rt A B (rt.sqrt (scan_b B 0 ⟨0, 0, 0⟩).norm_b)
        (scan_b B 0 ⟨0, 0, 0⟩).max_b_index k best = alignment rt A B k) ∧
    (¬ ((alignment rt A B k).dot > best.dot ∧ wide_window rt A B k) →
      roll_step rt A B (rt.sqrt (scan_b B 0 ⟨0, 0, 0⟩).norm_b)
        (scan_b B 0 ⟨0, 0, 0⟩).max_b_index k best = best) := by
  unfold roll_step wide_window alignment
  simp only
  refine ⟨?_, ?_⟩
  · rintro ⟨h1, h2⟩
    rw [if_pos ⟨h1, by omega, by omega⟩]
  · intro h
    rw [if_neg]
    rintro ⟨h1, h2, h3⟩
    exact h ⟨h1, by omega⟩

theorem roll_loop_first_max (rt : Runtime) (A B : List ℚ) :
    ∀ (n k : Nat) (best : OptimalPath),
      (roll_loop rt A B (rt.sqrt (scan_b B 0 ⟨0, 0, 0⟩).norm_b)
          (scan_b B 0 ⟨0, 0, 0⟩).max_b_index n k best = best ∧
        ∀ k', k ≤ k' → k' < k + n → wide_window rt A B k' →
          (alignment rt A B k').dot ≤ best.dot) ∨
      ∃ k0, k ≤ k0 ∧ k0 < k + n ∧ wide_window rt A B k0 ∧
        best.dot < (alignment rt A B k0).dot ∧
        roll_loop rt A B (rt.sqrt (scan_b B 0 ⟨0, 0, 0⟩).norm_b)
          (scan_b B 0 ⟨0, 0, 0⟩).max_b_index n k best = alignment rt A B k0 ∧
        (∀ k', k ≤ k' → k' < k0 → wide_window rt A B k' →
          (alignment rt A B k').dot < (alignment rt A B k0).dot) ∧
        ∀ k', k ≤ k' → k' < k + n → wide_window rt A B k' →
          (alignment rt A B k').dot ≤ (alignment rt A B k0).dot := by
  intro n
  induction n with
  | zero =>
    intro k best
    left
    exact ⟨rfl, fun k' h1 h2 => by omega⟩
  | succ n ih =>
    intro k best
    simp only [roll_loop]
    by_cases hupd : (alignment rt A B k).dot > best.dot ∧ wide_window rt A B k
    · rw [(roll_step_alignment rt A B k best).1 hupd]
      rcases ih (k + 1) (alignment rt A B k) with ⟨hr, hle⟩ | ⟨k0, h1, h2, h3, h4, h5, h6, h7⟩
      · right
        refine ⟨k, le_refl _, by omega, hupd.2, hupd.1, hr, fun k' h1 h2 => by omega, ?_⟩
        intro k' h1 h2 hw
        by_cases hk : k' = k
        · rw [hk]
        · exact hle k' (by omega) (by omega) hw
      · right
        refine ⟨k0, by omega, by omega, h3, lt_trans hupd.1 h4, h5, ?_, ?_⟩
        · intro k' hk1 hk2 hw
          by_cases hk : k' = k
          · rw [hk]; exact h4
          · exact h6 k' (by omega) hk2 hw
        · intro k' hk1 hk2 hw
          by_cases hk : k' = k
          · rw [hk]; exact le_of_lt h4
          · exact h7 k' (by omega) (by omega) hw
    · rw [(roll_step_alignment rt A B k best).2 hupd]
      have hk_le : wide_window rt A B k → (alignment rt A B k).dot ≤ best.dot := by
        intro hw
        by_contra hcon
        exact hupd ⟨not_le.1 hcon, hw⟩
      rcases ih (k + 1) best with ⟨hr, hle⟩ | ⟨k0, h1, h2, h3, h4, h5, h6, h7⟩
      · left
        refine ⟨hr, ?_⟩
        intro k' h1 h2 hw
        by_cases hk : k' = k
        · rw [hk]; exact hk_le (hk ▸ hw)
        · exact hle k' (by omega) (by omega) hw
      · right
        refine ⟨k0, by omega, by omega, h3, h4, h5, ?_, ?_⟩
        · intro k' hk1 hk2 hw
          by_cases hk : k' = k
          · rw [hk]; exact lt_of_le_of_lt (hk_le (hk ▸ hw)) h4
          · exact h6 k' (by omega) hk2 hw
        · intro k' hk1 hk2 hw
          by_cases hk : k' = k
          · rw [hk]; exact le_of_lt (lt_of_le_of_lt (hk_le (hk ▸ hw)) h4)
          · exact h7 k' (by omega) (by omega) hw

/-- C30. Best alignment inside the matcher: for every `A` and `B` of length at
least 2, whatever the runtime, `rolling_weighted_cosine_sim` returns
`(0, 0, 0)` when no alignment position `k < |A|` has a truncated window of more
than one element and a positive score; otherwise it returns the score and the
truncated window of such a position `k0` whose score is at least the score of
every such position and strictly greater than the score of every such position
before `k0`, that is, of the first position attaining the maximum. -/
theorem rolling_best_alignment (rt : Runtime) (A B : List ℚ) (hA : 2 ≤ A.length)
    (hB : 2 ≤ B.length) :
    ((∀ k, ¬ alignment_counts rt A B k) → rolling_weighted_cosine_sim rt A B = ⟨0, 0, 0⟩) ∧
    ((∃ k, alignment_counts rt A B k) →
      ∃ k0, alignment_counts rt A B k0 ∧
        rolling_weighted_cosine_sim rt A B = alignment rt A B k0 ∧
        (∀ k, alignment_counts rt A B k → (alignment rt A B k).dot ≤ (alignment rt A B k0).dot) ∧
        ∀ k, k < k0 → alignment_counts rt A B k →
          (alignment rt A B k).dot < (alignment rt A B k0).dot) := by
  have hlen : ¬ (A.length < 2 ∨ B.length < 2) := by omega
  have hloop := roll_loop_first_max rt A B A.length 0 ⟨0, 0, 0⟩
  unfold rolling_weighted_cosine_sim
  rw [if_neg hlen]
  simp only
  rcases hloop with ⟨hr, hle⟩ | ⟨k0, _, h2, h3, h4, h5, h6, h7⟩
  · rw [hr]
    simp only [Nat.sub_self, Nat.zero_le, if_true]
    refine ⟨fun _ => trivial, ?_⟩
    rintro ⟨k, hk, hw, hpos⟩
    exact absurd hpos (not_lt.2 (hle k (Nat.zero_le _) (by omega) hw))
  · rw [h5]
    have hw : ¬ (alignment rt A B k0).max_i - (alignment rt A B k0).min_i ≤ 1 := by
      unfold wide_window at h3
      omega
    rw [if_neg hw]
    have hcount : alignment_counts rt A B k0 := ⟨by omega, h3, h4⟩
    refine ⟨fun hnone => absurd hcount (hnone k0), ?_⟩
    intro _
    refine ⟨k0, hcount, rfl, ?_, ?_⟩
    · rintro k ⟨hk, hkw, _⟩
      exact h7 k (Nat.zero_le _) (by omega) hkw
    · rintro k hk ⟨_, hkw, _⟩
      exact h6 k (Nat.zero_le _) hk hkw

set_option maxRecDepth 100000 in
/-- C30 (witness): for `A = [100, 60, 100, 60]` and `B = [100, 60]` the
alignment positions 0 and 2 have the same, maximal score; the matcher returns
the window `[0, 2)` of position 0, the first of the two. -/
theorem rolling_best_alignment_witness :
    (alignment zero_runtime [100, 60, 100, 60] [100, 60] 2).dot =
      (alignment zero_runtime [100, 60, 100, 60] [100, 60] 0).dot ∧
    (rolling_weighted_cosine_sim zero_runtime [100, 60, 100, 60] [100, 60]).min_i = 0 ∧
    (rolling_weighted_cosine_sim zero_runtime [100, 60, 100, 60] [100, 60]).max_i = 2 ∧
    ∃ k0, alignment_counts zero_runtime [100, 60, 100, 60] [100, 60] k0 ∧
      rolling_weighted_cosine_sim zero_runtime [100, 60, 100, 60] [100, 60] =
        alignment zero_runtime [100, 60, 100, 60] [100, 60] k0 ∧
      (∀ k, alignment_counts zero_runtime [100, 60, 100, 60] [100, 60] k →
        (alignment zero_runtime [100, 60, 100, 60] [100, 60] k).dot ≤
          (alignment zero_runtime [100, 60, 100, 60] [100, 60] k0).dot) ∧
      ∀ k, k < k0 → alignment_counts zero_runtime [100, 60, 100, 60] [100, 60] k →
        (alignment zero_runtime [100, 60, 100, 60] [100, 60] k).dot <
          (alignment zero_runtime [100, 60, 100, 60] [100, 60] k0).dot :=
  ⟨by decide!, by decide!, by decide!,
    (rolling_best_alignment zero_runtime [100, 60, 100, 60] [100, 60] (by decide)
      (by decide)).2
      ⟨0, by decide,
        (show (alignment zero_runtime [100, 60, 100, 60] [100, 60] 0).min_i + 1 <
          (alignment zero_runtime [100, 60, 100, 60] [100, 60] 0).max_i from by decide!),
        by decide!⟩⟩


/-! ## The best candidate of a seed -/

theorem score_paths_fold (rt : Runtime) (ref : List Peak) (ref_heights : List ℚ) (c : Nat) :
    ∀ (paths : List (List Nat)) (best : Best),
      score_paths rt ref ref_heights c paths best =
        (path_candidates rt ref ref_heights c paths).foldl better best := by
  intro paths
  induction paths with
  | nil => intro best; rfl
  | cons path rest ih =>
    intro best
    by_cases hlen : path.length < 2
    · have hdec : decide (2 ≤ path.length) = false := by
        simpa using hlen
      simp only [score_paths, if_pos hlen, path_candidates, List.filter_cons, hdec,
        Bool.false_eq_true, if_false]
      exact ih best
    · have hdec : decide (2 ≤ path.length) = true := by
        simpa using hlen
      simp only [score_paths, if_neg hlen, path_candidates, List.filter_cons, hdec, if_true,
        List.map_cons, List.foldl_cons]
      by_cases hdot : (rolling_weighted_cosine_sim rt
          (path.map (fun x => (peak_of ref x).fitted_height)) ref_heights).dot > best.best_dot
      · rw [if_pos hdot]
        have hb : better best (candidate rt ref ref_heights c path) =
            candidate rt ref ref_heights c path := by
          unfold better
          rw [if_pos]
          exact hdot
        rw [hb]
        exact ih _
      · rw [if_neg hdot]
        have hb : better best (candidate rt ref ref_heights c path) = best := by
          unfold better
          rw [if_neg]
          exact hdot
        rw [hb]
        exact ih _

theorem score_charges_fold (rt : Runtime) (fuel : Nat) (table : List (ℚ × List ℚ))
    (ref : List Peak) (i : Nat) :
    ∀ (cs : List Nat) (gs : List CandidateGraph) (best : Best),
      score_charges rt fuel table ref i cs gs best =
        (seed_candidates rt fuel table ref i cs gs).map (fun l => l.foldl better best) := by
  intro cs
  induction cs with
  | nil => intro gs best; simp [score_charges, seed_candidates]
  | cons c cs ih =>
    intro gs best
    cases gs with
    | nil => simp [score_charges, seed_candidates]
    | cons g gs =>
      simp only [score_charges, seed_candidates]
      cases find_all_paths fuel g i with
      | none => rfl
      | some paths =>
        simp only
        cases lookup_ref_heights table ((peak_of ref i).fitted_mz * (c : ℚ)) with
        | none => exact ih gs best
        | some rh =>
          simp only
          rw [ih gs, score_paths_fold]
          cases seed_candidates rt fuel table ref i cs gs with
          | none => rfl
          | some later => simp [List.foldl_append]

theorem foldl_better_first_max :
    ∀ (l : List Best) (b r : Best), l.foldl better b = r →
      (r = b ∧ ∀ x ∈ l, x.best_dot ≤ b.best_dot) ∨
      ∃ pre post, l = pre ++ r :: post ∧ b.best_dot < r.best_dot ∧
        (∀ x ∈ pre, x.best_dot < r.best_dot) ∧ ∀ x ∈ post, x.best_dot ≤ r.best_dot := by
  intro l
  induction l with
  | nil =>
    intro b r h
    left
    exact ⟨h.symm, fun x hx => absurd hx (List.not_mem_nil x)⟩
  | cons a rest ih =>
    intro b r h
    simp only [List.foldl_cons] at h
    by_cases hab : a.best_dot > b.best_dot
    · have hb : better b a = a := by unfold better; rw [if_pos hab]
      rw [hb] at h
      rcases ih a r h with ⟨hr, hle⟩ | ⟨pre, post, hl, hlt, hpre, hpost⟩
      · right
        subst hr
        exact ⟨[], rest, rfl, hab, fun x hx => absurd hx (List.not_mem_nil x), hle⟩
      · right
        refine ⟨a :: pre, post, by rw [hl]; rfl, lt_trans hab hlt, ?_, hpost⟩
        intro x hx
        rcases List.mem_cons.1 hx with rfl | hx
        · exact hlt
        · exact hpre x hx
    · have hb : better b a = b := by unfold better; rw [if_neg hab]
      rw [hb] at h
      have hle_a : a.best_dot ≤ b.best_dot := not_lt.1 hab
      rcases ih b r h with ⟨hr, hle⟩ | ⟨pre, post, hl, hlt, hpre, hpost⟩
      · left
        refine ⟨hr, ?_⟩
        intro x hx
        rcases List.mem_cons.1 hx with rfl | hx
        · exact hle_a
        · exact hle x hx
      · right
        refine ⟨a :: pre, post, by rw [hl]; rfl, hlt, ?_, hpost⟩
        intro x hx
        rcases List.mem_cons.1 hx with rfl | hx
        · exact lt_of_le_of_lt hle_a hlt
        · exact hpre x hx

theorem path_candidates_mem (rt : Runtime) (ref : List Peak) (rh : List ℚ) (c : Nat)
    (paths : List (List Nat)) (x : Best) :
    x ∈ path_candidates rt ref rh c paths ↔
      ∃ path ∈ paths, 2 ≤ path.length ∧ x = candidate rt ref rh c path := by
  unfold path_candidates
  simp only [List.mem_map, List.mem_filter, decide_eq_true_eq]
  constructor
  · rintro ⟨path, ⟨hp, hlen⟩, rfl⟩
    exact ⟨path, hp, hlen, rfl⟩
  · rintro ⟨path, hp, hlen, rfl⟩
    exact ⟨path, ⟨hp, hlen⟩, rfl⟩

theorem seed_candidates_mem (rt : Runtime) (fuel : Nat) (table : List (ℚ × List ℚ))
    (ref : List Peak) (i : Nat) :
    ∀ (cs : List Nat) (gs : List CandidateGraph) (cands : List Best),
      seed_candidates rt fuel table ref i cs gs = some cands →
      ∀ x, x ∈ cands ↔
        ∃ c g paths rh path, (c, g) ∈ cs.zip gs ∧ find_all_paths fuel g i = some paths ∧
          lookup_ref_heights table ((peak_of ref i).fitted_mz * (c : ℚ)) = some rh ∧
          path ∈ paths ∧ 2 ≤ path.length ∧ x = candidate rt ref rh c path := by
  intro cs
  induction cs with
  | nil =>
    intro gs cands h x
    simp only [seed_candidates, Option.some.injEq] at h
    subst h
    simp
  | cons c cs ih =>
    intro gs cands h x
    cases gs with
    | nil =>
      simp only [seed_candidates, Option.some.injEq] at h
      subst h
      simp
    | cons g gs =>
      simp only [seed_candidates] at h
      cases hp : find_all_paths fuel g i with
      | none => rw [hp] at h; cases h
      | some paths =>
        rw [hp] at h
        simp only at h
        cases hl : lookup_ref_heights table ((peak_of ref i).fitted_mz * (c : ℚ)) with
        | none =>
          rw [hl] at h
          simp only at h
          rw [ih gs cands h x]
          constructor
          · rintro ⟨c', g', paths', rh, path, hcg, h1, h2, h3, h4, h5⟩
            exact ⟨c', g', paths', rh, path, List.mem_cons_of_mem _ hcg, h1, h2, h3, h4, h5⟩
          · rintro ⟨c', g', paths', rh, path, hcg, h1, h2, h3, h4, h5⟩
            simp only [List.zip_cons_cons, List.mem_cons, Prod.mk.injEq] at hcg
            rcases hcg with ⟨rfl, rfl⟩ | hcg
            · rw [hl] at h2; cases h2
            · exact ⟨c', g', paths', rh, path, hcg, h1, h2, h3, h4, h5⟩
        | some rh0 =>
          rw [hl] at h
          simp only at h
          cases hlater : seed_candidates rt fuel table ref i cs gs with
          | none => rw [hlater] at h; cases h
          | some later =>
            rw [hlater] at h
            simp only [Option.map_some', Option.some.injEq] at h
            subst h
            rw [List.mem_append, path_candidates_mem, ih gs later hlater x]
            constructor
            · rintro (⟨path, hpath, hlen, hx⟩ | ⟨c', g', paths', rh, path, hcg, h1, h2, h3, h4, h5⟩)
              · exact ⟨c, g, paths, rh0, path, List.mem_cons_self _ _, hp, hl, hpath, hlen, hx⟩
              · exact ⟨c', g', paths', rh, path, List.mem_cons_of_mem _ hcg, h1, h2, h3, h4, h5⟩
            · rintro ⟨c', g', paths', rh, path, hcg, h1, h2, h3, h4, h5⟩
              simp only [List.zip_cons_cons, List.mem_cons, Prod.mk.injEq] at hcg
              rcases hcg with ⟨rfl, rfl⟩ | hcg
              · rw [hp] at h1
                rw [hl] at h2
                simp only [Option.some.injEq] at h1 h2
                subst h1
                subst h2
                exact Or.inl ⟨path, h3, h4, h5⟩
              · exact Or.inr ⟨c', g', paths', rh, path, hcg, h1, h2, h3, h4, h5⟩

theorem build_feature_score (ref : List Peak) (b : Best) :
    (build_feature ref b).score = b.best_dot := by
  unfold build_feature
  simp only
  rw [(add_peaks_charge_state ref _ _ _).2]


theorem seed_candidates_some (rt : Runtime) (fuel : Nat) (table : List (ℚ × List ℚ))
    (ref : List Peak) (i : Nat) (cs : List Nat) (gs : List CandidateGraph) (b best : Best)
    (h : score_charges rt fuel table ref i cs gs b = some best) :
    ∃ cands, seed_candidates rt fuel table ref i cs gs = some cands ∧
      cands.foldl better b = best := by
  rw [score_charges_fold] at h
  cases hc : seed_candidates rt fuel table ref i cs gs with
  | none => rw [hc] at h; cases h
  | some cands =>
    rw [hc] at h
    simp only [Option.map_some', Option.some.injEq] at h
    exact ⟨cands, rfl, h⟩

/-- C29. Best candidate per seed: an iteration of the seed loop, started in a
state the loop can be in, enumerates its candidates when the fuel reaches
`(n + 1) ^ n` for `n` peaks. The candidates are the pairs of a supplied charge
whose table lookup succeeds and a path of at least 2 nodes that `find_all_paths`
returns for the seed, in the order charges first, then paths. When the
iteration emits a feature, its score, charge state and window are those of a
candidate `best` of that list whose matcher score is at least the score of
every candidate after it and strictly greater than the score of every
candidate before it: the first candidate with the highest score. -/
theorem best_candidate_per_seed (rt : Runtime) (fuel : Nat) (peaks : List Peak)
    (cs : List Nat) (st : SeedState)
    (hreach : seed_reachable rt fuel averagine_table (ref_peaks peaks) cs st)
    (hi : st.i < (ref_peaks peaks).length) :
    (((ref_peaks peaks).length + 1) ^ (ref_peaks peaks).length ≤ fuel →
      ∃ cands, seed_candidates rt fuel averagine_table (ref_peaks peaks) st.i cs st.graphs =
        some cands) ∧
    ∀ st' f, seed_step rt fuel averagine_table (ref_peaks peaks) cs st = some st' →
      st'.features = st.features ++ [f] →
      ∃ cands best pre post,
        seed_candidates rt fuel averagine_table (ref_peaks peaks) st.i cs st.graphs =
          some cands ∧
        (∀ x, x ∈ cands ↔
          ∃ c g paths rh path, (c, g) ∈ cs.zip st.graphs ∧
            find_all_paths fuel g st.i = some paths ∧
            lookup_ref_heights averagine_table
              ((peak_of (ref_peaks peaks) st.i).fitted_mz * (c : ℚ)) = some rh ∧
            path ∈ paths ∧ 2 ≤ path.length ∧
            x = candidate rt (ref_peaks peaks) rh c path) ∧
        cands = pre ++ best :: post ∧
        (∀ x ∈ pre, x.best_dot < best.best_dot) ∧
        (∀ x ∈ post, x.best_dot ≤ best.best_dot) ∧
        f.score = best.best_dot ∧ f.charge_state = best.best_charge_state ∧
        f.peak_ids = best.best_path.map (fun x => (peak_of (ref_peaks peaks) x).id) := by
  obtain ⟨bests, hinv⟩ := seed_reachable_inv rt fuel _ _ cs st hreach
  refine ⟨?_, ?_⟩
  · intro hfuel
    obtain ⟨st', hstep⟩ := seed_step_some rt fuel _ _ cs bests st hinv hi hfuel
    obtain ⟨best, hbest, _, _⟩ := seed_step_cases rt fuel _ _ cs st st' hstep
    obtain ⟨cands, hc, _⟩ := seed_candidates_some rt fuel _ _ st.i cs st.graphs _ best hbest
    exact ⟨cands, hc⟩
  · intro st' f hstep hfeat
    obtain ⟨best, hbest, hreject, haccept⟩ := seed_step_cases rt fuel _ _ cs st st' hstep
    obtain ⟨cands, hc, hfold⟩ := seed_candidates_some rt fuel _ _ st.i cs st.graphs _ best hbest
    by_cases hlen : best.best_path.length < 2
    · rw [hreject hlen] at hfeat
      have := congrArg List.length hfeat
      simp at this
    · rw [haccept (by omega)] at hfeat
      have hf : f = build_feature (ref_peaks peaks) best := by
        have := List.append_cancel_left hfeat
        simp only [List.cons.injEq, and_true] at this
        exact this.symm
      rcases foldl_better_first_max cands ⟨0, [], 0⟩ best hfold with
        ⟨hr, _⟩ | ⟨pre, post, hl, _, hpre, hpost⟩
      · rw [hr] at hlen
        simp at hlen
      · refine ⟨cands, best, pre, post, hc,
          seed_candidates_mem rt fuel _ _ st.i cs st.graphs cands hc, hl, hpre, hpost, ?_, ?_, ?_⟩
        · rw [hf]; exact build_feature_score _ best
        · rw [hf]; exact build_feature_charge_state _ best
        · rw [hf]; exact build_feature_peak_ids _ best

set_option maxRecDepth 100000 in
/-- C29 (witness): the first iteration on `two_envelopes` with the charge states
1 and 2 emits the feature of the peaks 10 and 11 with charge state 1, built
from the first best candidate of the seed 0. -/
theorem best_candidate_per_seed_witness :
    (((seed_step zero_runtime 10 averagine_table (ref_peaks two_envelopes) [1, 2]
        (initial_state (ref_peaks two_envelopes) [1, 2])).getD default).features.map
      (fun f => (f.peak_ids, f.charge_state))) = [([10, 11], 1)] ∧
    ∃ cands best pre post,
      seed_candidates zero_runtime 10 averagine_table (ref_peaks two_envelopes)
        (initial_state (ref_peaks two_envelopes) [1, 2]).i [1, 2]
        (initial_state (ref_peaks two_envelopes) [1, 2]).graphs = some cands ∧
      (∀ x, x ∈ cands ↔
        ∃ (c : Nat) (g : CandidateGraph) (paths : List (List Nat)) (rh : List ℚ)
            (path : List Nat),
          (c, g) ∈ ([1, 2] : List Nat).zip
            (initial_state (ref_peaks two_envelopes) [1, 2]).graphs ∧
          find_all_paths 10 g (initial_state (ref_peaks two_envelopes) [1, 2]).i = some paths ∧
          lookup_ref_heights averagine_table
            ((peak_of (ref_peaks two_envelopes)
              (initial_state (ref_peaks two_envelopes) [1, 2]).i).fitted_mz * (c : ℚ)) =
            some rh ∧
          path ∈ paths ∧ 2 ≤ path.length ∧
          x = candidate zero_runtime (ref_peaks two_envelopes) rh c path) ∧
      cands = pre ++ best :: post ∧
      (∀ x ∈ pre, x.best_dot < best.best_dot) ∧
      (∀ x ∈ post, x.best_dot ≤ best.best_dot) ∧
      (((seed_step zero_runtime 10 averagine_table (ref_peaks two_envelopes) [1, 2]
          (initial_state (ref_peaks two_envelopes) [1, 2])).getD default).features.getD 0
            default).score = best.best_dot ∧
      (((seed_step zero_runtime 10 averagine_table (ref_peaks two_envelopes) [1, 2]
          (initial_state (ref_peaks two_envelopes) [1, 2])).getD default).features.getD 0
            default).charge_state = best.best_charge_state ∧
      (((seed_step zero_runtime 10 averagine_table (ref_peaks two_envelopes) [1, 2]
          (initial_state (ref_peaks two_envelopes) [1, 2])).getD default).features.getD 0
            default).peak_ids =
        best.best_path.map (fun x => (peak_of (ref_peaks two_envelopes) x).id) :=
  ⟨by decide!,
    (best_candidate_per_seed zero_runtime 10 two_envelopes [1, 2]
      (initial_state (ref_peaks two_envelopes) [1, 2])
      (initial_state_reachable _ _ _ _ _) (by decide!)).2
      ((seed_step zero_runtime 10 averagine_table (ref_peaks two_envelopes) [1, 2]
        (initial_state (ref_peaks two_envelopes) [1, 2])).getD default)
      (((seed_step zero_runtime 10 averagine_table (ref_peaks two_envelopes) [1, 2]
        (initial_state (ref_peaks two_envelopes) [1, 2])).getD default).features.getD 0 default)
      (by decide!) (by decide!)⟩


/-! ## Degenerate totals -/

theorem build_feature_total_height_pos (ref : List Peak) (b : Best)
    (hlen : 2 ≤ b.best_path.length) (hlt : ∀ x ∈ b.best_path, x < ref.length)
    (hpos : ∀ p ∈ ref, 0 < p.fitted_height) :
    0 < (build_feature ref b).total_height := by
  rw [(build_feature_sums ref b).1]
  refine List.sum_pos _ ?_ ?_
  · intro h hh
    obtain ⟨p, hp, rfl⟩ := List.mem_map.1 hh
    obtain ⟨x, hx, rfl⟩ := List.mem_map.1 hp
    exact hpos _ (peak_of_mem ref x (hlt x hx))
  · intro hnil
    have := congrArg List.length hnil
    simp only [constituents, List.length_map, List.length_nil] at this
    omega

set_option maxRecDepth 100000 in
/-- C31 (evaluation). For `zero_sum_peaks`, whose five fitted heights sum to
zero, `detect_features` returns one feature made of all five peaks with
`total_height = 0`: the candidate is not dropped, and `average_mz` is the
weighted sum -250.825 divided by zero (0 in rational arithmetic, where
`x / 0 = 0`). -/
theorem zero_total_height_emitted :
    (detect_features zero_runtime 10 zero_sum_peaks [1]).map
        (fun fs => fs.map (fun f => (f.peak_ids, f.total_height))) =
      some [([0, 1, 2, 3, 4], 0)] ∧
    (zero_sum_peaks.map (fun p => p.fitted_height)).sum = 0 ∧
    (zero_sum_peaks.map (fun p => p.fitted_mz * p.fitted_height)).sum = -250.825 ∧
    (detect_features zero_runtime 10 zero_sum_peaks [1]).map
        (fun fs => fs.map (fun f => f.average_mz)) = some [-250.825 / 0] := by
  refine ⟨by decide!, by decide!, by decide!, by decide!⟩

/-- Total height of a feature: every feature emitted by the
greedy loop, and (`std::sort` returning a rearrangement of its input) every
feature returned by `detect_features`, is built from the winning window of an
iteration, whatever its heights, with `total_height` equal to the sum of the
fitted heights of the window's peaks and `average_mz` equal to the weighted sum
divided by that total; when every input peak has a positive fitted height the
total is positive, so that the division is by a non-zero value. -/
theorem detect_features_total_height (rt : Runtime) (fuel : Nat) (peaks : List Peak)
    (cs : List Nat) :
    (∀ gs, greedy_features rt fuel averagine_table peaks cs = some gs →
      ∀ f ∈ gs, ∃ best, wins_iteration rt fuel averagine_table (ref_peaks peaks) cs best ∧
        f.total_height =
          ((constituents (ref_peaks peaks) best.best_path).map (fun p => p.fitted_height)).sum ∧
        f.average_mz =
          ((constituents (ref_peaks peaks) best.best_path).map
            (fun p => p.fitted_mz * p.fitted_height)).sum / f.total_height ∧
        ((∀ p ∈ peaks, 0 < p.fitted_height) → 0 < f.total_height)) ∧
    (sort_permutes rt →
      ∀ fs, detect_features rt fuel peaks cs = some fs →
        ∀ f ∈ fs, ∃ best, wins_iteration rt fuel averagine_table (ref_peaks peaks) cs best ∧
          f.total_height =
            ((constituents (ref_peaks peaks) best.best_path).map
              (fun p => p.fitted_height)).sum ∧
          f.average_mz =
            ((constituents (ref_peaks peaks) best.best_path).map
              (fun p => p.fitted_mz * p.fitted_height)).sum / f.total_height ∧
          ((∀ p ∈ peaks, 0 < p.fitted_height) → 0 < f.total_height)) := by
  have key : ∀ best, wins_iteration rt fuel averagine_table (ref_peaks peaks) cs best →
      ∀ i, ({ build_feature (ref_peaks peaks) best with id := i } : Feature).total_height =
          ((constituents (ref_peaks peaks) best.best_path).map
            (fun p => p.fitted_height)).sum ∧
        ({ build_feature (ref_peaks peaks) best with id := i } : Feature).average_mz =
          ((constituents (ref_peaks peaks) best.best_path).map
            (fun p => p.fitted_mz * p.fitted_height)).sum /
            ({ build_feature (ref_peaks peaks) best with id := i } : Feature).total_height ∧
        ((∀ p ∈ peaks, 0 < p.fitted_height) →
          0 < ({ build_feature (ref_peaks peaks) best with id := i } : Feature).total_height) := by
    intro best hwin i
    obtain ⟨hlen, _, hlt⟩ := wins_iteration_window rt fuel _ _ cs best hwin
    refine ⟨(build_feature_sums _ best).1, ?_, ?_⟩
    · show (build_feature (ref_peaks peaks) best).average_mz =
        _ / (build_feature (ref_peaks peaks) best).total_height
      rw [(build_feature_averages _ best).1, (build_feature_sums _ best).1]
    · intro hpos
      refine build_feature_total_height_pos _ best hlen hlt ?_
      intro p hp
      exact hpos p ((ref_peaks_perm peaks).mem_iff.1 hp)
  refine ⟨?_, ?_⟩
  · intro gs h f hf
    obtain ⟨best, hwin, rfl⟩ := greedy_features_origin rt fuel _ peaks cs gs h f hf
    exact ⟨best, hwin, key best hwin _⟩
  · intro hsort fs h f hf
    obtain ⟨best, hwin, hfeq⟩ := detect_features_origin rt fuel peaks cs fs hsort h f hf
    have hk := key best hwin f.id
    rw [← hfeq] at hk
    exact ⟨best, hwin, hk⟩

set_option maxRecDepth 100000 in
/-- All peaks of `two_envelopes` have positive heights, and the two returned
features have the total heights 160 and 128. -/
theorem detect_features_total_height_witness :
    sort_permutes zero_runtime ∧
    (detect_features zero_runtime 10 two_envelopes [1, 2]).map
        (fun fs => fs.map (fun f => f.total_height)) = some [160, 128] ∧
    ∀ f ∈ (detect_features zero_runtime 10 two_envelopes [1, 2]).getD [],
      ∃ best, wins_iteration zero_runtime 10 averagine_table (ref_peaks two_envelopes)
          [1, 2] best ∧
        f.total_height =
          ((constituents (ref_peaks two_envelopes) best.best_path).map
            (fun p => p.fitted_height)).sum ∧
        f.average_mz =
          ((constituents (ref_peaks two_envelopes) best.best_path).map
            (fun p => p.fitted_mz * p.fitted_height)).sum / f.total_height ∧
        ((∀ p ∈ two_envelopes, 0 < p.fitted_height) → 0 < f.total_height) :=
  ⟨zero_runtime_sort_permutes, by decide!,
    (detect_features_total_height zero_runtime 10 two_envelopes [1, 2]).2
      zero_runtime_sort_permutes _ (by decide!)⟩

/-! ## The lookup is a plain lower bound -/

theorem keys_ascending_pairwise :
    ∀ (table : List (ℚ × List ℚ)), keys_ascending table = true →
      (table.map Prod.fst).Pairwise (· < ·) := by
  intro table
  induction table with
  | nil => intro _; exact List.Pairwise.nil
  | cons a rest ih =>
    intro h
    cases rest with
    | nil => simp
    | cons b rest' =>
      simp only [keys_ascending, Bool.and_eq_true, decide_eq_true_eq] at h
      have hrest := ih h.2
      simp only [List.map_cons, List.pairwise_cons] at hrest ⊢
      refine ⟨?_, hrest⟩
      intro x hx
      rcases List.mem_cons.1 hx with rfl | hx
      · exact h.1
      · exact lt_trans h.1 (hrest.1 x hx)

set_option maxRecDepth 100000 in
theorem averagine_keys_ascending : keys_ascending averagine_table = true := by
  decide!

theorem dropWhile_split {α : Type} (p : α → Bool) :
    ∀ (l : List α) (e : α) (rest : List α), l.dropWhile p = e :: rest →
      p e = false ∧ ∃ pre, l = pre ++ e :: rest ∧ ∀ a ∈ pre, p a = true := by
  intro l
  induction l with
  | nil => intro e rest h; simp at h
  | cons a l ih =>
    intro e rest h
    by_cases hp : p a = true
    · rw [List.dropWhile_cons_of_pos hp] at h
      obtain ⟨h1, pre, h2, h3⟩ := ih e rest h
      refine ⟨h1, a :: pre, by rw [h2]; rfl, ?_⟩
      intro x hx
      rcases List.mem_cons.1 hx with rfl | hx
      · exact hp
      · exact h3 x hx
    · rw [List.dropWhile_cons_of_neg hp] at h
      simp only [List.cons.injEq] at h
      obtain ⟨rfl, rfl⟩ := h
      exact ⟨by simpa using hp, [], rfl, fun x hx => absurd hx (List.not_mem_nil x)⟩

theorem lookup_lower_bound (table : List (ℚ × List ℚ))
    (hs : (table.map Prod.fst).Pairwise (· < ·)) (x : ℚ) :
    lookup_ref_heights table x = ((lower_bound table x).head?).map Prod.snd ∧
    ∀ e rest, lower_bound table x = e :: rest →
      e ∈ table ∧ x ≤ e.1 ∧ ∀ e' ∈ table, x ≤ e'.1 → e.1 ≤ e'.1 := by
  have hsplit : ∀ e rest, lower_bound table x = e :: rest →
      x ≤ e.1 ∧ ∃ pre, table = pre ++ e :: rest ∧ ∀ a ∈ pre, a.1 < x := by
    intro e rest h
    obtain ⟨h1, pre, h2, h3⟩ := dropWhile_split _ table e rest h
    refine ⟨by simpa using h1, pre, h2, ?_⟩
    intro a ha
    simpa using h3 a ha
  refine ⟨?_, ?_⟩
  · unfold lookup_ref_heights
    cases hlb : lower_bound table x with
    | nil => rfl
    | cons e rest =>
      cases rest with
      | nil => rfl
      | cons next rest' =>
        obtain ⟨hx, pre, htab, _⟩ := hsplit e _ hlb
        have hlt : e.1 < next.1 := by
          rw [htab, List.map_append, List.pairwise_append] at hs
          have := hs.2.1
          simp only [List.map_cons, List.pairwise_cons] at this
          exact this.1 _ (List.mem_cons_self _ _)
        have hneg : ¬ x - e.1 > next.1 - x := by
          intro h
          linarith
        simp only [if_neg hneg, List.head?_cons, Option.map_some']
  · intro e rest hlb
    obtain ⟨hx, pre, htab, hpre⟩ := hsplit e rest hlb
    refine ⟨by rw [htab]; simp, hx, ?_⟩
    intro e' he' hxe'
    rw [htab] at he'
    rcases List.mem_append.1 he' with hin | hin
    · exact absurd (hpre e' hin) (not_lt.2 hxe')
    · rcases List.mem_cons.1 hin with rfl | hin
      · exact le_refl _
      · rw [htab, List.map_append, List.pairwise_append] at hs
        have := hs.2.1
        simp only [List.map_cons, List.pairwise_cons] at this
        exact le_of_lt (this.1 _ (List.mem_map_of_mem Prod.fst hin))

/-- C32. Lookup is a plain lower bound: in every table with strictly ascending
keys, as the averagine table is, the lookup of `detect_features` returns the
envelope at the position that `lower_bound` finds, so the "next key is closer"
adjustment never changes the selected entry; for every query mass not above
the largest key 3999.848 of the averagine table the envelope used is that of
an entry whose key is the smallest key greater than or equal to the query. -/
theorem lookup_plain_lower_bound :
    (averagine_table.map Prod.fst).Pairwise (· < ·) ∧
    (∀ (table : List (ℚ × List ℚ)), (table.map Prod.fst).Pairwise (· < ·) →
      ∀ x, lookup_ref_heights table x = ((lower_bound table x).head?).map Prod.snd) ∧
    (∀ x : ℚ, x ≤ 3999.848 →
      ∃ e ∈ averagine_table, x ≤ e.1 ∧ (∀ e' ∈ averagine_table, x ≤ e'.1 → e.1 ≤ e'.1) ∧
        lookup_ref_heights averagine_table x = some e.2) := by
  have hs := keys_ascending_pairwise averagine_table averagine_keys_ascending
  refine ⟨hs, fun table hst x => (lookup_lower_bound table hst x).1, ?_⟩
  intro x hx
  obtain ⟨h1, h2⟩ := lookup_lower_bound averagine_table hs x
  cases hlb : lower_bound averagine_table x with
  | nil =>
    have hnone : lookup_ref_heights averagine_table x = none := by
      rw [h1, hlb]
      rfl
    exact absurd ((averagine_lookup_none_iff x).1 hnone) (not_lt.2 hx)
  | cons e rest =>
    obtain ⟨he, hxe, hmin⟩ := h2 e rest hlb
    refine ⟨e, he, hxe, hmin, ?_⟩
    rw [h1, hlb]
    rfl

set_option maxRecDepth 100000 in
/-- C32 (witness): for the query mass 105 the entry used is the one under the
key 110.221, the smallest key not below 105, although 100.226 is nearer. -/
theorem lookup_plain_lower_bound_witness :
    (105 : ℚ) ≤ 3999.848 ∧
    lookup_ref_heights averagine_table 105 = some [100, 5.89, 0.4] ∧
    ∃ e ∈ averagine_table, (105 : ℚ) ≤ e.1 ∧
      (∀ e' ∈ averagine_table, (105 : ℚ) ≤ e'.1 → e.1 ≤ e'.1) ∧
      lookup_ref_heights averagine_table 105 = some e.2 :=
  ⟨by decide!, by decide!, lookup_plain_lower_bound.2.2 105 (by decide!)⟩


/-! ## The matcher's score and the memory past the end of its vectors -/

set_option maxRecDepth 100000 in
/-- C33 (evaluation). For `A = [100, 100, 5, 1]` and the envelope
`B = [100, 4.79, 0.28]` stored under 100.226, all entries non-negative, the
alignment `k = 1` reads `A[4]` and `B[3]`, both past the end. When the memory
there holds 1000 the matcher returns the window `[1, 4)` with a score above 31,
and `detect_features` returns a feature with that score for `shoulder_peaks`;
the squared sum `dot` of that alignment exceeds 1000 times the product of its
`norm_a` and the sum of the cubes of `B`, so the excess does not come from the
rounding of the square root. When the memory holds 0 the score stays below
1.001. -/
theorem score_exceeds_one :
    (∀ x ∈ ([100, 100, 5, 1] : List ℚ), 0 ≤ x) ∧
    (∀ x ∈ ([100, 4.79, 0.28] : List ℚ), 0 ≤ x) ∧
    lookup_ref_heights averagine_table (99 * 1) = some [100, 4.79, 0.28] ∧
    31 < (rolling_weighted_cosine_sim (junk_runtime 1000) [100, 100, 5, 1]
      [100, 4.79, 0.28]).dot ∧
    (rolling_weighted_cosine_sim (junk_runtime 1000) [100, 100, 5, 1]
      [100, 4.79, 0.28]).min_i = 1 ∧
    (rolling_weighted_cosine_sim (junk_runtime 1000) [100, 100, 5, 1]
      [100, 4.79, 0.28]).max_i = 4 ∧
    1000 * ((roll_walk (junk_runtime 1000) [100, 100, 5, 1] [100, 4.79, 0.28] 0 1).norm_a *
        (scan_b [100, 4.79, 0.28] 0 ⟨0, 0, 0⟩).norm_b) <
      (roll_walk (junk_runtime 1000) [100, 100, 5, 1] [100, 4.79, 0.28] 0 1).dot *
        (roll_walk (junk_runtime 1000) [100, 100, 5, 1] [100, 4.79, 0.28] 0 1).dot ∧
    (rolling_weighted_cosine_sim (junk_runtime 0) [100, 100, 5, 1]
      [100, 4.79, 0.28]).dot < 1.001 ∧
    (detect_features (junk_runtime 1000) 10 shoulder_peaks [1]).map
        (fun fs => fs.map (fun f => (f.peak_ids, decide (31 < f.score)))) =
      some [([1, 2, 3], true)] := by
  refine ⟨by decide!, by decide!, by decide!, by decide!, by decide!, by decide!, by decide!,
    by decide!, by decide!⟩

set_option maxRecDepth 100000 in
/-- C34 (evaluation). For `A = [100, 100, 5, 1]`, `B = [100, 4.79, 0.28]` and
`c = 2`, with the memory past the end of the vectors holding 100: the matcher
returns the window `[1, 4)` for `A` and the window `[1, 3)`, with a different
score, for `A` with every entry doubled. The value read at `A[4]` is not
scaled with `A`, so the 0.35 test of alignment `k = 1` passes for `A` and fails
for `2 A`. -/
theorem scaling_changes_window :
    (rolling_weighted_cosine_sim (junk_runtime 100) [100, 100, 5, 1] [100, 4.79, 0.28]).min_i
      = 1 ∧
    (rolling_weighted_cosine_sim (junk_runtime 100) [100, 100, 5, 1] [100, 4.79, 0.28]).max_i
      = 4 ∧
    (rolling_weighted_cosine_sim (junk_runtime 100) (([100, 100, 5, 1] : List ℚ).map (· * 2))
      [100, 4.79, 0.28]).min_i = 1 ∧
    (rolling_weighted_cosine_sim (junk_runtime 100) (([100, 100, 5, 1] : List ℚ).map (· * 2))
      [100, 4.79, 0.28]).max_i = 3 ∧
    (rolling_weighted_cosine_sim (junk_runtime 100) (([100, 100, 5, 1] : List ℚ).map (· * 2))
      [100, 4.79, 0.28]).dot <
    (rolling_weighted_cosine_sim (junk_runtime 100) [100, 100, 5, 1] [100, 4.79, 0.28]).dot ∧
    within_tolerance (junk_runtime 100) [100, 100, 5, 1] [100, 4.79, 0.28] 1 4 3 ∧
    ¬ within_tolerance (junk_runtime 100) (([100, 100, 5, 1] : List ℚ).map (· * 2))
      [100, 4.79, 0.28] 1 4 3 := by
  refine ⟨by decide!, by decide!, by decide!, by decide!, by decide!, ?_, ?_⟩
  · unfold within_tolerance
    decide!
  · unfold within_tolerance
    decide!

/-! ## The comparator of the post-pass -/

set_option maxRecDepth 100000 in
/-- C37 (evaluation). The comparator `sort_features` holds of every feature
with itself and, of any two features, in at least one direction; for the two
different features that the greedy loop emits for `tied_envelopes`, both with
total volume 128, it holds in both directions. It is therefore neither
irreflexive nor asymmetric. -/
theorem sort_features_not_strict :
    (∀ a : Feature, sort_features a a = true) ∧
    (∀ a b : Feature, sort_features a b = true ∨ sort_features b a = true) ∧
    (greedy_features zero_runtime 40 averagine_table tied_envelopes [1]).map
        (fun gs => gs.map (fun f => (f.peak_ids, f.total_volume))) =
      some [([0, 1], 128), ([2, 3], 128)] ∧
    (greedy_features zero_runtime 40 averagine_table tied_envelopes [1]).map
        (fun gs => gs.map (fun a => gs.map (fun b => sort_features a b))) =
      some [[true, true], [true, true]] := by
  refine ⟨?_, ?_, by decide!, by decide!⟩
  · intro a
    simp [sort_features]
  · intro a b
    simp only [sort_features, decide_eq_true_eq]
    exact le_total _ _


/-! ## An added charge state 0, with one runtime for both runs -/

theorem find_all_paths_edgeless (g : CandidateGraph) (hg : edgeless g) (fuel i : Nat)
    (hfuel : 1 ≤ fuel) (hi : i < g.length) :
    ∃ paths, find_all_paths fuel g i = some paths ∧ ∀ p ∈ paths, p.length < 2 := by
  have hex : ∃ paths, find_all_paths fuel g i = some paths := by
    obtain ⟨f, rfl⟩ : ∃ f, fuel = f + 1 := ⟨fuel - 1, by omega⟩
    obtain ⟨node, hnode⟩ : ∃ node, g[i]? = some node := ⟨g[i], List.getElem?_eq_getElem hi⟩
    have hnodes := hg i node hnode
    unfold find_all_paths
    simp only [find_all_paths_loop, List.getLast?_singleton, hnode, hnodes, push_successors]
    by_cases hv : node.visited = true
    · rw [if_pos hv]
      cases f <;> exact ⟨_, rfl⟩
    · rw [if_neg hv]
      simp only [if_true]
      cases f <;> exact ⟨_, rfl⟩
  obtain ⟨paths, hp⟩ := hex
  exact ⟨paths, hp, edgeless_paths_short g hg fuel i paths hp⟩

theorem score_charges_zero_slot (rt : Runtime) (fuel : Nat) (table : List (ℚ × List ℚ))
    (ref : List Peak) (i : Nat) (hfuel : 1 ≤ fuel) (post : List Nat) (g0 : CandidateGraph)
    (gpost : List CandidateGraph) (hg0 : edgeless g0) (hi : i < g0.length) :
    ∀ (pre : List Nat) (gpre : List CandidateGraph) (best : Best), gpre.length = pre.length →
      score_charges rt fuel table ref i (pre ++ 0 :: post) (gpre ++ g0 :: gpost) best =
        score_charges rt fuel table ref i (pre ++ post) (gpre ++ gpost) best := by
  intro pre
  induction pre with
  | nil =>
    intro gpre best hlen
    have hnil : gpre = [] := List.length_eq_zero.1 hlen
    subst hnil
    obtain ⟨paths, hp, hshort⟩ := find_all_paths_edgeless g0 hg0 fuel i hfuel hi
    simp only [List.nil_append, score_charges, hp]
    cases lookup_ref_heights table ((peak_of ref i).fitted_mz * ((0 : Nat) : ℚ)) with
    | none => rfl
    | some rh =>
      simp only
      rw [score_paths_short rt ref rh 0 paths best hshort]
  | cons c pre ih =>
    intro gpre best hlen
    cases gpre with
    | nil => simp at hlen
    | cons g gpre =>
      simp only [List.length_cons, Nat.add_right_cancel_iff] at hlen
      simp only [List.cons_append, score_charges]
      cases find_all_paths fuel g i with
      | none => rfl
      | some paths =>
        simp only
        cases lookup_ref_heights table ((peak_of ref i).fitted_mz * (c : ℚ)) with
        | none => exact ih gpre best hlen
        | some rh => exact ih gpre _ hlen

theorem seed_step_zero_slot (rt : Runtime) (fuel : Nat) (table : List (ℚ × List ℚ))
    (ref : List Peak) (pre post : List Nat) (hfuel : 1 ≤ fuel) (st st0 : SeedState)
    (hrel : same_but_slot ref.length pre.length st st0) (hi : st.i < ref.length) :
    (seed_step rt fuel table ref (pre ++ post) st = none ∧
      seed_step rt fuel table ref (pre ++ 0 :: post) st0 = none) ∨
    ∃ st' st0', seed_step rt fuel table ref (pre ++ post) st = some st' ∧
      seed_step rt fuel table ref (pre ++ 0 :: post) st0 = some st0' ∧
      same_but_slot ref.length pre.length st' st0' := by
  obtain ⟨hi0, hf0, gpre, g0, gpost, hg, hg0, hlen, hn, hedge⟩ := hrel
  have hscore : score_charges rt fuel table ref st0.i (pre ++ 0 :: post) st0.graphs ⟨0, [], 0⟩ =
      score_charges rt fuel table ref st.i (pre ++ post) st.graphs ⟨0, [], 0⟩ := by
    rw [hi0, hg, hg0]
    exact score_charges_zero_slot rt fuel table ref st.i hfuel post g0 gpost hedge
      (by omega) pre gpre _ hlen
  unfold seed_step
  rw [hscore]
  cases score_charges rt fuel table ref st.i (pre ++ post) st.graphs ⟨0, [], 0⟩ with
  | none => exact Or.inl ⟨rfl, rfl⟩
  | some best =>
    right
    simp only
    by_cases hshort : best.best_path.length < 2
    · rw [if_pos hshort, if_pos hshort]
      refine ⟨_, _, rfl, rfl, ?_⟩
      exact ⟨by simp [hi0], hf0, gpre, g0, gpost, hg, hg0, hlen, hn, hedge⟩
    · rw [if_neg hshort, if_neg hshort]
      refine ⟨_, _, rfl, rfl, ?_⟩
      refine ⟨by simp [hi0], by simp [hf0], gpre.map (fun g => mark_nodes g best.best_path),
        mark_nodes g0 best.best_path, gpost.map (fun g => mark_nodes g best.best_path),
        ?_, ?_, ?_, ?_, ?_⟩
      · simp [mark_path_eq, hg]
      · simp [mark_path_eq, hg0]
      · simp [hlen]
      · rw [mark_nodes_length]; exact hn
      · exact mark_nodes_edgeless g0 _ hedge

theorem seed_loop_zero_slot (rt : Runtime) (fuel : Nat) (table : List (ℚ × List ℚ))
    (ref : List Peak) (pre post : List Nat) (hfuel : 1 ≤ fuel) :
    ∀ (n : Nat) (st st0 : SeedState), same_but_slot ref.length pre.length st st0 →
      seed_loop rt fuel table ref (pre ++ 0 :: post) n st0 =
        seed_loop rt fuel table ref (pre ++ post) n st := by
  intro n
  induction n with
  | zero =>
    intro st st0 hrel
    simp only [seed_loop, hrel.1, hrel.2.1]
  | succ n ih =>
    intro st st0 hrel
    simp only [seed_loop, hrel.1]
    by_cases hi : st.i < ref.length
    · rw [if_pos hi, if_pos hi]
      rcases seed_step_zero_slot rt fuel table ref pre post hfuel st st0 hrel hi with
        ⟨h1, h2⟩ | ⟨st', st0', h1, h2, hrel'⟩
      · rw [h1, h2]
      · rw [h1, h2]
        exact ih st' st0' hrel'
    · rw [if_neg hi, if_neg hi, hrel.2.1]

theorem initial_same_but_slot (ref : List Peak) (pre post : List Nat) :
    same_but_slot ref.length pre.length
      ⟨0, (pre ++ post).map (fun c => build_graph c ref 0), []⟩
      ⟨0, (pre ++ 0 :: post).map (fun c => build_graph c ref 0), []⟩ := by
  refine ⟨rfl, rfl, pre.map (fun c => build_graph c ref 0), build_graph 0 ref 0,
    post.map (fun c => build_graph c ref 0), by simp, by simp, by simp,
    (build_graph_spec 0 ref 0).1, ?_⟩
  exact build_graph_zero ref 0

theorem greedy_features_zero_slot (rt : Runtime) (fuel : Nat) (table : List (ℚ × List ℚ))
    (peaks : List Peak) (pre post : List Nat) :
    greedy_features rt fuel table peaks (pre ++ 0 :: post) =
      greedy_features rt fuel table peaks (pre ++ post) := by
  unfold greedy_features
  simp only
  cases fuel with
  | zero => simp only [seed_loop]
  | succ f =>
    exact seed_loop_zero_slot rt (f + 1) table (ref_peaks peaks) pre post (by omega) (f + 1) _ _
      (initial_same_but_slot (ref_peaks peaks) pre post)

/-- Two runs that share one runtime, hence the same values read past the end of
a vector: for every peak list, every charge-state list and every position in
it, inserting the value 0 at that position changes neither the features the
greedy loop emits nor the list `detect_features` returns, whatever the fuel; and
the list is returned once the fuel reaches `2 n + (n + 1) ^ n` for `n` peaks. -/
theorem charge_zero_neutral (rt : Runtime) (fuel : Nat) (peaks : List Peak)
    (pre post : List Nat) :
    greedy_features rt fuel averagine_table peaks (pre ++ 0 :: post) =
      greedy_features rt fuel averagine_table peaks (pre ++ post) ∧
    detect_features rt fuel peaks (pre ++ 0 :: post) = detect_features rt fuel peaks (pre ++ post) ∧
    (2 * peaks.length + (peaks.length + 1) ^ peaks.length ≤ fuel →
      ∃ fs, detect_features rt fuel peaks (pre ++ post) = some fs ∧
        detect_features rt fuel peaks (pre ++ 0 :: post) = some fs) := by
  have hg := greedy_features_zero_slot rt fuel averagine_table peaks pre post
  have hd : detect_features rt fuel peaks (pre ++ 0 :: post) =
      detect_features rt fuel peaks (pre ++ post) := by
    unfold detect_features
    rw [hg]
  refine ⟨hg, hd, ?_⟩
  intro hfuel
  obtain ⟨gs, hgs⟩ := greedy_features_some rt averagine_table peaks (pre ++ post) fuel hfuel
  refine ⟨_, detect_features_of_greedy rt fuel peaks _ gs hgs, ?_⟩
  rw [hd]
  exact detect_features_of_greedy rt fuel peaks _ gs hgs


set_option maxRecDepth 100000 in
/-- For `two_envelopes` (four peaks, bound `2 * 4 + 5 ^ 4 = 633`) and one runtime
the charge-state lists `[1, 2]` and `[1, 0, 2]` give the same two features. -/
theorem charge_zero_neutral_witness :
    2 * two_envelopes.length + (two_envelopes.length + 1) ^ two_envelopes.length ≤ 633 ∧
    (detect_features zero_runtime 633 two_envelopes [1, 0, 2]).map
        (fun fs => fs.map (fun f => (f.peak_ids, f.charge_state))) =
      some [([12, 13], 2), ([10, 11], 1)] ∧
    ∃ fs, detect_features zero_runtime 633 two_envelopes ([1] ++ [2]) = some fs ∧
      detect_features zero_runtime 633 two_envelopes ([1] ++ 0 :: [2]) = some fs :=
  ⟨by decide, by decide!,
    (charge_zero_neutral zero_runtime 633 two_envelopes [1] [2]).2.2 (by decide)⟩

/-! ## The charge of a feature -/

theorem winning_window_charge (rt : Runtime) (fuel : Nat) (table : List (ℚ × List ℚ))
    (ref : List Peak) (cs : List Nat) (best : Best)
    (hwin : wins_iteration rt fuel table ref cs best) :
    best.best_charge_state ≠ 0 ∧ best.best_charge_state ∈ cs ∧
    List.Chain' (is_successor (build_graph best.best_charge_state ref 0)) best.best_path := by
  obtain ⟨st, hreach, _, hbest, hlen⟩ := hwin
  obtain ⟨bests, hinv⟩ := seed_reachable_inv rt fuel table ref cs st hreach
  rcases (score_charges_cases rt fuel table ref st.i cs st.graphs ⟨0, [], 0⟩ best hbest).1 with
    h | ⟨c, g, paths, rh, path, hcg, hpaths, _, hpath, hplen, hcand, _⟩
  · rw [h] at hlen
    simp at hlen
  · have hmax := find_all_paths_maximal fuel g st.i paths hpaths path hpath
    have hcharge : best.best_charge_state = c := by rw [hcand]; rfl
    have hwindow : best.best_path =
        (path.drop (rolling_weighted_cosine_sim rt
          (path.map (fun x => (peak_of ref x).fitted_height)) rh).min_i).take
          ((rolling_weighted_cosine_sim rt
            (path.map (fun x => (peak_of ref x).fitted_height)) rh).max_i -
           (rolling_weighted_cosine_sim rt
            (path.map (fun x => (peak_of ref x).fitted_height)) rh).min_i) := by
      rw [hcand]; rfl
    have hgeq : g = mark_nodes (build_graph c ref 0) (claimed bests) := by
      have hcg' := hcg
      rw [hinv.1] at hcg'
      exact mem_zip_map (fun c => mark_nodes (build_graph c ref 0) (claimed bests)) cs c g hcg'
    refine ⟨?_, ?_, ?_⟩
    · rw [hcharge]
      intro hc0
      subst hc0
      have hshort := edgeless_paths_short g (seed_inv_zero_slot ref cs bests st hinv g hcg)
        fuel st.i paths hpaths path hpath
      omega
    · rw [hcharge]
      exact (List.of_mem_zip hcg).1
    · rw [hcharge, hwindow]
      refine ((hmax.2.1.imp ?_).drop _).take _
      intro a b hab
      rw [hgeq] at hab
      exact (mark_nodes_successor _ _ a b).1 hab

/-- C36. Charge of a feature: every feature emitted by the greedy loop, and
(`std::sort` returning a rearrangement of its input) every feature returned by
`detect_features`, has a charge state that is a non-zero element of the
supplied charge-state list, and it is built from a window of at least two
positions of the mz-sorted order, named by `peak_ids` in order, in which each
position is a successor of the one before it in the graph of that charge. -/
theorem feature_charge_edges (rt : Runtime) (fuel : Nat) (peaks : List Peak) (cs : List Nat) :
    (∀ gs, greedy_features rt fuel averagine_table peaks cs = some gs →
      ∀ f ∈ gs, f.charge_state ≠ 0 ∧ f.charge_state ∈ cs ∧
        ∃ window : List Nat, 2 ≤ window.length ∧
          f.peak_ids = window.map (fun x => (peak_of (ref_peaks peaks) x).id) ∧
          List.Chain' (is_successor (build_graph f.charge_state (ref_peaks peaks) 0)) window) ∧
    (sort_permutes rt →
      ∀ fs, detect_features rt fuel peaks cs = some fs →
        ∀ f ∈ fs, f.charge_state ≠ 0 ∧ f.charge_state ∈ cs ∧
          ∃ window : List Nat, 2 ≤ window.length ∧
            f.peak_ids = window.map (fun x => (peak_of (ref_peaks peaks) x).id) ∧
            List.Chain' (is_successor (build_graph f.charge_state (ref_peaks peaks) 0))
              window) := by
  have key : ∀ best, wins_iteration rt fuel averagine_table (ref_peaks peaks) cs best →
      ∀ i, ({ build_feature (ref_peaks peaks) best with id := i } : Feature).charge_state ≠ 0 ∧
        ({ build_feature (ref_peaks peaks) best with id := i } : Feature).charge_state ∈ cs ∧
        ∃ window : List Nat, 2 ≤ window.length ∧
          ({ build_feature (ref_peaks peaks) best with id := i } : Feature).peak_ids =
            window.map (fun x => (peak_of (ref_peaks peaks) x).id) ∧
          List.Chain' (is_successor (build_graph
            ({ build_feature (ref_peaks peaks) best with id := i } : Feature).charge_state
            (ref_peaks peaks) 0)) window := by
    intro best hwin i
    obtain ⟨h0, hmem, hchain⟩ := winning_window_charge rt fuel _ _ cs best hwin
    have hcs : ({ build_feature (ref_peaks peaks) best with id := i } : Feature).charge_state =
        best.best_charge_state := build_feature_charge_state _ best
    rw [hcs]
    exact ⟨h0, hmem, best.best_path, (wins_iteration_window rt fuel _ _ cs best hwin).1,
      build_feature_peak_ids _ best, hchain⟩
  refine ⟨?_, ?_⟩
  · intro gs h f hf
    obtain ⟨best, hwin, rfl⟩ := greedy_features_origin rt fuel _ peaks cs gs h f hf
    exact key best hwin _
  · intro hsort fs h f hf
    obtain ⟨best, hwin, hfeq⟩ := detect_features_origin rt fuel peaks cs fs hsort h f hf
    have hk := key best hwin f.id
    rw [← hfeq] at hk
    exact hk

set_option maxRecDepth 100000 in
/-- C36 (witness): the two features returned for `two_envelopes` with the charge
states 1 and 2 have the charge states 2 and 1, and their windows follow an edge
of the graph of that charge. -/
theorem feature_charge_edges_witness :
    sort_permutes zero_runtime ∧
    (detect_features zero_runtime 10 two_envelopes [1, 2]).map
        (fun fs => fs.map (fun f => (f.peak_ids, f.charge_state))) =
      some [([12, 13], 2), ([10, 11], 1)] ∧
    ∀ f ∈ (detect_features zero_runtime 10 two_envelopes [1, 2]).getD [],
      f.charge_state ≠ 0 ∧ f.charge_state ∈ [1, 2] ∧
        ∃ window : List Nat, 2 ≤ window.length ∧
          f.peak_ids = window.map (fun x => (peak_of (ref_peaks two_envelopes) x).id) ∧
          List.Chain' (is_successor (build_graph f.charge_state (ref_peaks two_envelopes) 0))
            window :=
  ⟨zero_runtime_sort_permutes, by decide!,
    (feature_charge_edges zero_runtime 10 two_envelopes [1, 2]).2
      zero_runtime_sort_permutes _ (by decide!)⟩


/-! ## `assign_peaks` partitions the peaks -/

theorem group_of_cons (sigma_rt : Grid.Parameters → ℚ) (p : Grid.Parameters)
    (rest : List Grid.Parameters) (peak : Grid.Peak) :
    group_of sigma_rt (p :: rest) peak =
      if peak.rt + 4 * sigma_rt p < p.bounds.max_rt then 0
      else if rest.isEmpty then 0 else group_of sigma_rt rest peak + 1 := by
  unfold group_of
  rw [List.findIdx_cons]
  by_cases h : peak.rt + 4 * sigma_rt p < p.bounds.max_rt
  · simp [h]
  · simp only [h, decide_False, cond_false, if_false, List.length_cons, Nat.add_sub_cancel]
    cases rest with
    | nil => simp
    | cons q rest' =>
      simp only [List.isEmpty_cons, Bool.false_eq_true, if_false, List.length_cons,
        Nat.add_sub_cancel]
      omega

theorem group_of_lt (sigma_rt : Grid.Parameters → ℚ) (all_parameters : List Grid.Parameters)
    (peak : Grid.Peak) (hne : all_parameters ≠ []) :
    group_of sigma_rt all_parameters peak < all_parameters.length := by
  unfold group_of
  have : 0 < all_parameters.length := List.length_pos.2 hne
  omega

theorem place_peak_spec (sigma_rt : Grid.Parameters → ℚ) (peak : Grid.Peak) :
    ∀ (params : List Grid.Parameters) (groups : List (List Grid.Peak)),
      groups.length = params.length →
      (place_peak sigma_rt peak params groups).length = groups.length ∧
      ∀ i : Nat, (place_peak sigma_rt peak params groups)[i]? =
        (groups[i]?).map
          (fun g => if i = group_of sigma_rt params peak then g ++ [peak] else g) := by
  intro params
  induction params with
  | nil =>
    intro groups hlen
    have hnil : groups = [] := List.length_eq_zero.1 hlen
    subst hnil
    simp [place_peak]
  | cons p rest ih =>
    intro groups hlen
    cases groups with
    | nil => simp at hlen
    | cons g others =>
      simp only [List.length_cons, Nat.add_right_cancel_iff] at hlen
      rw [group_of_cons]
      simp only [place_peak]
      by_cases h : peak.rt + 4 * sigma_rt p < p.bounds.max_rt
      · simp only [if_pos h, List.length_cons, true_and]
        intro i
        cases i with
        | zero => simp
        | succ i => simp
      · simp only [if_neg h]
        by_cases hr : rest.isEmpty = true
        · simp only [if_pos hr, List.length_cons, true_and]
          intro i
          cases i with
          | zero => simp
          | succ i => simp
        · simp only [if_neg hr]
          obtain ⟨h1, h2⟩ := ih others hlen
          refine ⟨by simp [h1], ?_⟩
          intro i
          cases i with
          | zero => simp
          | succ i =>
            simp only [List.getElem?_cons_succ, Nat.add_right_cancel_iff]
            exact h2 i

theorem place_peak_total (sigma_rt : Grid.Parameters → ℚ) (peak : Grid.Peak) :
    ∀ (params : List Grid.Parameters) (groups : List (List Grid.Peak)),
      groups.length = params.length → params ≠ [] →
      ((place_peak sigma_rt peak params groups).map List.length).sum =
        (groups.map List.length).sum + 1 := by
  intro params
  induction params with
  | nil => intro groups _ hne; exact absurd rfl hne
  | cons p rest ih =>
    intro groups hlen _
    cases groups with
    | nil => simp at hlen
    | cons g others =>
      simp only [List.length_cons, Nat.add_right_cancel_iff] at hlen
      simp only [place_peak]
      by_cases h : peak.rt + 4 * sigma_rt p < p.bounds.max_rt
      · simp only [if_pos h, List.map_cons, List.sum_cons, List.length_append,
          List.length_singleton]
        omega
      · simp only [if_neg h]
        by_cases hr : rest.isEmpty = true
        · simp only [if_pos hr, List.map_cons, List.sum_cons, List.length_append,
            List.length_singleton]
          omega
        · simp only [if_neg hr, List.map_cons, List.sum_cons]
          have hne : rest ≠ [] := by
            intro hnil
            apply hr
            rw [hnil]
            rfl
          rw [ih others hlen hne]
          omega

theorem assign_loop_spec (sigma_rt : Grid.Parameters → ℚ) (params : List Grid.Parameters) :
    ∀ (peaks : List Grid.Peak) (groups : List (List Grid.Peak)),
      groups.length = params.length →
      (peaks.foldl (fun groups peak => place_peak sigma_rt peak params groups) groups).length =
        params.length ∧
      ∀ i : Nat,
        (peaks.foldl (fun groups peak => place_peak sigma_rt peak params groups) groups)[i]? =
          (groups[i]?).map
            (fun g => g ++ peaks.filter (fun peak => decide (group_of sigma_rt params peak = i))) := by
  intro peaks
  induction peaks with
  | nil =>
    intro groups hlen
    refine ⟨hlen, ?_⟩
    intro i
    simp only [List.foldl_nil, List.filter_nil, List.append_nil]
    cases h : groups[i]? with
    | none => rfl
    | some g => rfl
  | cons peak rest ih =>
    intro groups hlen
    obtain ⟨hl, hget⟩ := place_peak_spec sigma_rt peak params groups hlen
    obtain ⟨h1, h2⟩ := ih (place_peak sigma_rt peak params groups) (by rw [hl, hlen])
    simp only [List.foldl_cons]
    refine ⟨h1, ?_⟩
    intro i
    rw [h2 i, hget i]
    cases groups[i]? with
    | none => rfl
    | some g =>
      simp only [Option.map_some', Option.some.injEq]
      by_cases hi : i = group_of sigma_rt params peak
      · have hd : decide (group_of sigma_rt params peak = i) = true := by
          simpa using hi.symm
        rw [if_pos hi, List.filter_cons, hd]
        simp
      · have hd : decide (group_of sigma_rt params peak = i) = false := by
          simpa using fun h => hi h.symm
        rw [if_neg hi, List.filter_cons, hd]
        simp

theorem assign_loop_total (sigma_rt : Grid.Parameters → ℚ) (params : List Grid.Parameters)
    (hne : params ≠ []) :
    ∀ (peaks : List Grid.Peak) (groups : List (List Grid.Peak)),
      groups.length = params.length →
      ((peaks.foldl (fun groups peak => place_peak sigma_rt peak params groups)
        groups).map List.length).sum = (groups.map List.length).sum + peaks.length := by
  intro peaks
  induction peaks with
  | nil => intro groups _; simp
  | cons peak rest ih =>
    intro groups hlen
    obtain ⟨hl, _⟩ := place_peak_spec sigma_rt peak params groups hlen
    simp only [List.foldl_cons, List.length_cons]
    rw [ih _ (by rw [hl, hlen]), place_peak_total sigma_rt peak params groups hlen hne]
    omega

/-- C38. `assign_peaks` partitions the peaks: for every non-empty list of
parameter sets, every list of peaks and whatever `Grid::sigma_rt` returns,
`assign_peaks` returns one group per parameter set; group `i` consists of the
peaks whose group is `i`, in input order, where the group of a peak is the
first position whose `max_rt` exceeds `peak.rt + 4 * sigma_rt`, otherwise the
last position, so that every peak is placed in exactly one group; and the
group sizes sum to the number of peaks. -/
theorem assign_peaks_partitions (sigma_rt : Grid.Parameters → ℚ)
    (all_parameters : List Grid.Parameters) (peaks : List Grid.Peak)
    (hne : all_parameters ≠ []) :
    (assign_peaks sigma_rt all_parameters peaks).length = all_parameters.length ∧
    (∀ i, i < all_parameters.length →
      (assign_peaks sigma_rt all_parameters peaks)[i]? =
        some (peaks.filter (fun peak => decide (group_of sigma_rt all_parameters peak = i)))) ∧
    (∀ peak ∈ peaks, group_of sigma_rt all_parameters peak < all_parameters.length) ∧
    (∀ peak, ∀ k, k < all_parameters.length →
      ((all_parameters.findIdx (fun parameters =>
          decide (peak.rt + 4 * sigma_rt parameters < parameters.bounds.max_rt)) = k →
        group_of sigma_rt all_parameters peak = k) ∧
       ((∀ parameters ∈ all_parameters,
          ¬ peak.rt + 4 * sigma_rt parameters < parameters.bounds.max_rt) →
        group_of sigma_rt all_parameters peak = all_parameters.length - 1))) ∧
    ((assign_peaks sigma_rt all_parameters peaks).map List.length).sum = peaks.length := by
  have hinit : (List.replicate all_parameters.length ([] : List Grid.Peak)).length =
      all_parameters.length := List.length_replicate _ _
  obtain ⟨h1, h2⟩ := assign_loop_spec sigma_rt all_parameters peaks _ hinit
  refine ⟨h1, ?_, fun peak _ => group_of_lt sigma_rt all_parameters peak hne, ?_, ?_⟩
  · intro i hi
    unfold assign_peaks
    rw [h2 i, List.getElem?_replicate, if_pos hi]
    simp
  · intro peak k hk
    refine ⟨?_, ?_⟩
    · intro hidx
      unfold group_of
      rw [hidx]
      omega
    · intro hnone
      unfold group_of
      have hge : all_parameters.length ≤ all_parameters.findIdx (fun parameters =>
          decide (peak.rt + 4 * sigma_rt parameters < parameters.bounds.max_rt)) := by
        by_contra hlt
        have hlt' := not_le.1 hlt
        have := List.findIdx_getElem (w := hlt')
        simp only [decide_eq_true_eq] at this
        exact hnone _ (List.getElem_mem _) this
      omega
  · unfold assign_peaks
    rw [assign_loop_total sigma_rt all_parameters hne peaks _ hinit]
    simp

set_option maxRecDepth 100000 in
/-- C38 (witness): with the upper rt bounds 100 and 200 and `sigma_rt = 1`, the
points with rt 150, 10, 250 and 95 are placed in the groups 1, 0, 1 and 0; the
point with rt 250 is beyond every bound and goes to the last group, the point
with rt 95 passes the first test since `95 + 4 < 100`. -/
theorem assign_peaks_partitions_witness :
    two_splits ≠ [] ∧
    assign_peaks (fun _ => 1) two_splits four_points =
      [[⟨501, 10, 2⟩, ⟨503, 95, 4⟩], [⟨500, 150, 1⟩, ⟨502, 250, 3⟩]] ∧
    ((assign_peaks (fun _ => 1) two_splits four_points).map List.length).sum =
      four_points.length :=
  ⟨by decide, by decide!,
    (assign_peaks_partitions (fun _ => 1) two_splits four_points (by decide)).2.2.2.2⟩


/-! ## The end-to-end scenario -/

set_option maxRecDepth 100000 in
/-- C3 (counterexample). For the three peaks of the end-to-end scenario and the
charge states `[1]`, `detect_features` returns one feature made of the two
peaks 1 and 2, with monoisotopic mz 501.0033 and total height 50; it does not
return a single feature of three peaks with monoisotopic mz 500 and total
height 150. -/
theorem scenario_not_three_peaks :
    (detect_features zero_runtime 10 scenario_peaks [1]).map
        (fun fs => fs.map (fun f => (f.peak_ids, f.monoisotopic_mz, f.total_height))) =
      some [([1, 2], 501.0033, 50)] ∧
    ¬ ∃ f, detect_features zero_runtime 10 scenario_peaks [1] = some [f] ∧
        f.charge_state = 1 ∧ f.peak_ids.length = 3 ∧ f.monoisotopic_mz = 500.0 ∧
        f.total_height = 150 := by
  have h : (detect_features zero_runtime 10 scenario_peaks [1]).map
        (fun fs => fs.map (fun f => (f.peak_ids, f.monoisotopic_mz, f.total_height))) =
      some [([1, 2], 501.0033, 50)] := by decide!
  refine ⟨h, ?_⟩
  rintro ⟨f, hf, -, hlen, -, -⟩
  rw [hf] at h
  simp only [Option.map_some', List.map_cons, List.map_nil, Option.some.injEq, List.cons.injEq,
    Prod.mk.injEq, and_true] at h
  rw [h.1] at hlen
  simp at hlen

set_option maxRecDepth 100000 in
/-- C3 (amended). End-to-end scenario: the heights 100, 40, 10 are matched
against the envelope `[100, 28.48, 5.02, 0.94, 0.09]` stored under 509.584. The
alignment that puts the maximum of the envelope on the second peak keeps the
peaks 1 and 2 and scores higher than the alignment that puts it on the first
peak and keeps all three: in exact arithmetic
`dot1 ^ 2 * norm_a0 > dot0 ^ 2 * norm_a1` with both `dot` positive, and the
matcher as the specification words it, which reads nothing past the end of its
vectors, returns the window `[1, 3)` as `rolling_weighted_cosine_sim` does.
`detect_features` therefore returns exactly one feature, with charge state 1,
the two constituent peaks of mz 501.0033 and 502.0066 in ascending mz order,
monoisotopic mz 501.0033 and total height 50. -/
theorem scenario_best_alignment :
    lookup_ref_heights averagine_table (500.0 * 1) = some [100, 28.48, 5.02, 0.94, 0.09] ∧
    argmax_index [100, 28.48, 5.02, 0.94, 0.09] = 0 ∧
    (reference_alignment zero_runtime.sqrt [100, 40, 10] [100, 28.48, 5.02, 0.94, 0.09] 0 0).min_i
      = 0 ∧
    (reference_alignment zero_runtime.sqrt [100, 40, 10] [100, 28.48, 5.02, 0.94, 0.09] 0 0).max_i
      = 3 ∧
    (reference_alignment zero_runtime.sqrt [100, 40, 10] [100, 28.48, 5.02, 0.94, 0.09] 0 1).min_i
      = 1 ∧
    (reference_alignment zero_runtime.sqrt [100, 40, 10] [100, 28.48, 5.02, 0.94, 0.09] 0 1).max_i
      = 3 ∧
    (reference_alignment zero_runtime.sqrt [100, 40, 10] [100, 28.48, 5.02, 0.94, 0.09] 0 0).dot <
      (reference_alignment zero_runtime.sqrt [100, 40, 10] [100, 28.48, 5.02, 0.94, 0.09]
        0 1).dot ∧
    (roll_walk zero_runtime [100, 40, 10] [100, 28.48, 5.02, 0.94, 0.09] 0 0).dot =
      100 * 100 ^ 2 + 40 * 28.48 ^ 2 + 10 * 5.02 ^ 2 ∧
    (roll_walk zero_runtime [100, 40, 10] [100, 28.48, 5.02, 0.94, 0.09] 0 0).norm_a =
      100 ^ 2 * 100 + 40 ^ 2 * 28.48 + 10 ^ 2 * 5.02 ∧
    (roll_walk zero_runtime [100, 40, 10] [100, 28.48, 5.02, 0.94, 0.09] 0 1).dot =
      40 * 100 ^ 2 + 10 * 28.48 ^ 2 ∧
    (roll_walk zero_runtime [100, 40, 10] [100, 28.48, 5.02, 0.94, 0.09] 0 1).norm_a =
      40 ^ 2 * 100 + 10 ^ 2 * 28.48 ∧
    (100 * 100 ^ 2 + 40 * 28.48 ^ 2 + 10 * 5.02 ^ 2 : ℚ) ^ 2 * (40 ^ 2 * 100 + 10 ^ 2 * 28.48) <
      (40 * 100 ^ 2 + 10 * 28.48 ^ 2 : ℚ) ^ 2 * (100 ^ 2 * 100 + 40 ^ 2 * 28.48 + 10 ^ 2 * 5.02) ∧
    reference_matcher zero_runtime.sqrt [100, 40, 10] [100, 28.48, 5.02, 0.94, 0.09] =
      reference_alignment zero_runtime.sqrt [100, 40, 10] [100, 28.48, 5.02, 0.94, 0.09] 0 1 ∧
    (rolling_weighted_cosine_sim zero_runtime [100, 40, 10]
      [100, 28.48, 5.02, 0.94, 0.09]).min_i = 1 ∧
    (rolling_weighted_cosine_sim zero_runtime [100, 40, 10]
      [100, 28.48, 5.02, 0.94, 0.09]).max_i = 3 ∧
    (detect_features zero_runtime 10 scenario_peaks [1]).map
        (fun fs => fs.map (fun f =>
          (f.charge_state, f.peak_ids, f.monoisotopic_mz, f.total_height))) =
      some [(1, [1, 2], 501.0033, 50)] ∧
    (detect_features zero_runtime 10 scenario_peaks [1]).map
        (fun fs => fs.map (fun f =>
          (named_peaks scenario_peaks f.peak_ids).map (fun p => p.fitted_mz))) =
      some [[501.0033, 502.0066]] ∧
    ([501.0033, 502.0066] : List ℚ).Pairwise (· < ·) := by
  refine ⟨by decide!, by decide!, by decide!, by decide!, by decide!, by decide!, by decide!,
    by decide!, by decide!, by decide!, by decide!, by norm_num, by decide!, by decide!,
    by decide!, by decide!, by decide!, by norm_num⟩

/-! ## The identifiers and the order of the post-pass -/

set_option maxRecDepth 100000 in
/-- C18 (evaluation). The identifiers are the positions in whatever list
`std::sort` hands back: for every runtime and every input the identifiers of the
returned list, read in list order, are `0, 1, ..., n-1`. That this order is the
descending order of total volume is left to `std::sort` and its comparator; for
`tied_peaks` the range handed to `std::sort` has seventeen features, and the
comparator `sort_features` holds of each of them with itself. -/
theorem ids_number_sort_output :
    (∀ (rt : Runtime) (fuel : Nat) (peaks : List Peak) (cs : List Nat),
      (detect_features rt fuel peaks cs).map (fun fs => fs.map (fun f => f.id)) =
        (detect_features rt fuel peaks cs).map (fun fs => List.range fs.length)) ∧
    (greedy_features zero_runtime 40 averagine_table tied_peaks [1]).map
        (fun gs => (gs.length, gs.map (fun a => sort_features a a))) =
      some (17, List.replicate 17 true) := by
  refine ⟨?_, by decide!⟩
  intro rt fuel peaks cs
  cases h : detect_features rt fuel peaks cs with
  | none => rfl
  | some fs =>
    simp only [Option.map_some', Option.some.injEq]
    exact (detect_features_sequential_ids rt fuel peaks cs fs h).2

/-! ## An added charge state 0 and the memory past the end -/

end FeatureDetection
